import Mathlib

/-! The Witcher MDB model decoder (`graphics/aurora/model_witcher.cpp`).

A shallow embedding of `Model_Witcher::load`, `readNode`, `readMesh`,
`processNode`, `readArray`, `readOffsetArray`, `readFloatsArray` and
`parseNodeControllers`, followed by theorems about them.

The C++ code mutates a stream cursor, a `ParserContext` and the model under
construction, and throws exceptions.  It is embedded as explicit state passing:
a decoder is a function from a state `St` to a result `Res`, which is either
`ok value state` or `fail error state`.  A failure keeps the state reached when
the exception was thrown, as a C++ exception leaves the mutations made so far.

Machine integers are natural numbers; `uint32` arithmetic is written with an
explicit `% 2 ^ 32`.  A 32-bit float is represented by its IEEE-754 bit pattern.
Heap-allocated `Node`s live in an arena (`St.heap`); a `Node *` is an index into
the arena, and `new Node` appends to it.
-/

namespace Model_Witcher

/-! ## Data model -/

/-- One byte of the stream. -/
abbrev Byte := Fin 256

/-- A 32-bit IEEE-754 float, represented by its bit pattern. -/
abbrev Float32 := Nat

/-- The bytes of an ASCII string literal of the source. -/
def ascii (s : String) : List Byte := s.toList.map (fun c => Fin.ofNat c.toNat)

/-- Everything that can end a decode.  The first seven are `Common::Exception`s;
`outOfRange` and `nullNode` stand for the undefined behaviour of an unchecked
`std::vector::operator[]` and of dereferencing a null `ctx.node`; `recursionBudget`
is the embedding's own bound on the recursion depth of `readNode`. -/
inductive Err where
  | readError
  | compositeModel
  | notMDB
  | unknownNodeFlags (flags : Nat)
  | variableColumns
  | positionController (columnCount : Nat)
  | orientationController (columnCount : Nat)
  | outOfRange
  | nullNode
  | recursionBudget
  deriving DecidableEq, Repr

/-- The calls of `warning(...)` the decoder makes. -/
inductive Warning where
  | arrayCount (usedCount allocatedCount : Nat)
  | modelInfo (name : List Byte) (fileVersion modelDataSize offsetRootNode type : Nat)
      (scale : Float32) (detailMap superModel : List Byte)
  deriving DecidableEq, Repr

/-- A triangle with its three corner positions and three texture coordinate
triples, as `Face` of `graphics/aurora/model.h`: `vertices[k][j]` and
`verticesTexture[k][j]` for corner `k` and component `j`. -/
structure Face where
  vertices : List (List Float32)
  verticesTexture : List (List Float32)
  deriving DecidableEq, Repr

/-- A scene node.  `parent` and the members of `children` are arena indices. -/
structure Node where
  parent : Option Nat
  children : List Nat
  name : List Byte
  position : List Float32
  orientation : List Float32
  ambient : List Float32
  diffuse : List Float32
  specular : List Float32
  shininess : Float32
  texture : Option Nat
  render : Bool
  faces : List Face
  deriving DecidableEq, Repr

/-- Modelled from the spec: the constructor of `Node` (`graphics/aurora/model.h`
is not among the sources).  A fresh node has no parent, no children, a zeroed
transform and material, no texture, no faces, and is renderable. -/
def Node.new : Node where
  parent := none
  children := []
  name := []
  position := [0, 0, 0]
  orientation := [0, 0, 0, 0]
  ambient := [0, 0, 0]
  diffuse := [0, 0, 0]
  specular := [0, 0, 0]
  shininess := 0
  texture := none
  render := true
  faces := []

/-- The two collaborators the decoder calls: `TextureMan.get`, which returns a
texture handle or throws (`none`), and the floating-point expression
`Common::rad2deg(acos(w) * 2.0)` of `parseNodeControllers`, on bit patterns. -/
structure Env where
  textureGet : List Byte → Option Nat
  quatAngle : Float32 → Float32

/-- The whole mutable state of a decode.
* `mdb`, `pos`: the stream `ctx.mdb` and its cursor;
* `node` ... `texture`: the other members of `ParserContext`;
* `heap`: the arena of allocated nodes; `rootNodes`, `nodes`, `scale`: the
  members `_rootNodes`, `_nodes` and `_scale` of the model;
* `log`: the warnings emitted; `requests`: the names passed to `TextureMan.get`;
  `freed`: the nodes deleted by `~ParserContext`. -/
structure St where
  mdb : List Byte
  pos : Nat
  node : Option Nat
  fileVersion : Nat
  modelDataSize : Nat
  offModelData : Nat
  offRawData : Nat
  rawDataSize : Nat
  offTexData : Nat
  texDatasize : Nat
  vertices : List Float32
  verticesTexture : List Float32
  faces : List Nat
  texture : List Byte
  heap : List Node
  rootNodes : List Nat
  nodes : List Nat
  scale : Float32
  log : List Warning
  requests : List (List Byte)
  freed : List Nat
  deriving DecidableEq, Repr

/-- The state in which `Model_Witcher::load` starts on the stream `bytes`:
`ParserContext ctx(mdb)` sets `node` to null, the model is empty. -/
def St.init (bytes : List Byte) : St where
  mdb := bytes
  pos := 0
  node := none
  fileVersion := 0
  modelDataSize := 0
  offModelData := 0
  offRawData := 0
  rawDataSize := 0
  offTexData := 0
  texDatasize := 0
  vertices := []
  verticesTexture := []
  faces := []
  texture := []
  heap := []
  rootNodes := []
  nodes := []
  scale := 0
  log := []
  requests := []
  freed := []

/-- The outcome of running a decoder. -/
inductive Res (α : Type) where
  | ok (a : α) (s : St)
  | fail (e : Err) (s : St)
  deriving DecidableEq, Repr

/-- The state a run ended in. -/
def Res.state {α : Type} : Res α → St
  | .ok _ s => s
  | .fail _ s => s

/-- Whether a run returned. -/
def Res.isOk {α : Type} : Res α → Bool
  | .ok _ _ => true
  | .fail _ _ => false

/-- A decoder: a state transformer that returns a value or throws. -/
def Parser (α : Type) : Type := St → Res α

/-- Sequencing: run `m`, and `f` on its value unless it threw. -/
def Parser.bind {α β : Type} (m : Parser α) (f : α → Parser β) : Parser β :=
  fun s => match m s with
    | .ok a s1 => f a s1
    | .fail e s1 => .fail e s1

instance : Monad Parser where
  pure a := fun s => .ok a s
  bind := Parser.bind

/-- Throw `Common::Exception` (or run into undefined behaviour) `e`. -/
def throwErr {α : Type} (e : Err) : Parser α := fun s => .fail e s

/-- Run `body i`, `body (i + 1)`, ... for `count` iterations: the loop
`for (i = start; i < start + count; i++) body(i)`. -/
def forLoop : Nat → Nat → (Nat → Parser Unit) → Parser Unit
  | 0, _, _ => pure ()
  | count + 1, i, body => do
      body i
      forLoop count (i + 1) body

/-- Run `body` on every element of a list in order: an iterator loop. -/
def forEach {α : Type} : List α → (α → Parser Unit) → Parser Unit
  | [], _ => pure ()
  | a :: as, body => do
      body a
      forEach as body

/-- Run `body` `count` times and collect the values: `while (count-- > 0) v.push_back(body())`. -/
def collect {α : Type} : Nat → Parser α → Parser (List α)
  | 0, _ => pure []
  | count + 1, body => do
      let a ← body
      let as ← collect count body
      pure (a :: as)

/-! ## The byte cursor -/

/-- The byte at index `i` of the stream, as a number (0 past the end). -/
def byteAt (d : List Byte) (i : Nat) : Nat := (d.getD i 0).val

/-- The little-endian 16-bit word at index `i`. -/
def le16At (d : List Byte) (i : Nat) : Nat := byteAt d i + 256 * byteAt d (i + 1)

/-- The little-endian 32-bit word at index `i`. -/
def le32At (d : List Byte) (i : Nat) : Nat :=
  byteAt d i + 256 * byteAt d (i + 1) + 65536 * byteAt d (i + 2) + 16777216 * byteAt d (i + 3)

/-- The big-endian 32-bit word at index `i`. -/
def be32At (d : List Byte) (i : Nat) : Nat :=
  16777216 * byteAt d i + 65536 * byteAt d (i + 1) + 256 * byteAt d (i + 2) + byteAt d (i + 3)

/-- Modelled from the spec: `Common::SeekableReadStream` (`common/stream.h` is
not among the sources): "seek/read primitives over a finite byte stream", on
which a "premature end of stream" is a fatal error.  `readFixed n value` reads
`n` bytes at the cursor, advances it by `n`, and fails with `readError`, leaving
the cursor where it was, when fewer than `n` bytes are left. -/
def readFixed {α : Type} (n : Nat) (value : List Byte → Nat → α) : Parser α :=
  fun s => if s.pos + n ≤ s.mdb.length then .ok (value s.mdb s.pos) { s with pos := s.pos + n }
    else .fail .readError s

/-- Embeds `readByte()`. -/
def readByte : Parser Nat := readFixed 1 byteAt

/-- Embeds `readUint16LE()`. -/
def readUint16LE : Parser Nat := readFixed 2 le16At

/-- Embeds `readUint32LE()`. -/
def readUint32LE : Parser Nat := readFixed 4 le32At

/-- Embeds `readUint32BE()`. -/
def readUint32BE : Parser Nat := readFixed 4 be32At

/-- Embeds `readIEEEFloatLE()`: the bit pattern of the float. -/
def readIEEEFloatLE : Parser Float32 := readFixed 4 le32At

/-- Modelled from the spec: `seek(offset)` of the stream, "seek-to-absolute-offset":
the cursor moves to the absolute offset. -/
def seek (offset : Nat) : Parser Unit := fun s => .ok () { s with pos := offset }

/-- Modelled from the spec: `seekTo(offset)` of the stream: like `seek`, and
returns the cursor it replaced (the source uses the value as the return point). -/
def seekTo (offset : Nat) : Parser Nat := fun s => .ok s.pos { s with pos := offset }

/-- Modelled from the spec: `skip(n)` of the stream, "skip-relative": the cursor
moves `n` bytes forward. -/
def skip (n : Nat) : Parser Unit := fun s => .ok () { s with pos := s.pos + n }

/-- The text of a byte buffer read as a C string: the bytes before the first NUL. -/
def cString (l : List Byte) : List Byte := l.takeWhile (fun b => b != 0)

/-- Modelled from the spec: `UString::readASCII(stream, length)`
(`common/ustring.h` is not among the sources), a "fixed-length ASCII string":
reads `length` bytes and keeps those before the first NUL. -/
def readASCII (length : Nat) : Parser (List Byte) :=
  readFixed length (fun d p => cString ((d.drop p).take length))

/-- Modelled from the spec: `UString::readASCII(stream)`, a "null-terminated
ASCII string": the bytes from the cursor up to the first NUL or the end of the
stream; the cursor moves past the text and its terminator. -/
def readASCIIz : Parser (List Byte) := fun s =>
  let text := cString (s.mdb.drop s.pos)
  .ok text { s with pos := min (s.pos + text.length + 1) (max s.pos s.mdb.length) }

/-- The bytes of a line: those before the first newline or NUL. -/
def lineOf (l : List Byte) : List Byte := l.takeWhile (fun b => b != 10 && b != 0)

/-- Modelled from the spec: `UString::readLineASCII(stream)`, a
"newline-delimited, null/line-terminated ASCII record": the bytes from the
cursor up to the first newline, NUL or the end of the stream; the cursor moves
past the line and its terminator. -/
def readLineASCII : Parser (List Byte) := fun s =>
  let text := lineOf (s.mdb.drop s.pos)
  .ok text { s with pos := min (s.pos + text.length + 1) (max s.pos s.mdb.length) }

/-- Whether a byte is C white space (`isspace`). -/
def isSpace (b : Byte) : Bool := b == 32 || (9 ≤ b.val && b.val ≤ 13)

/-- Modelled from the spec: `UString::trim()`, which yields the "trimmed line":
white space removed from both ends. -/
def trim (l : List Byte) : List Byte :=
  ((l.dropWhile isSpace).reverse.dropWhile isSpace).reverse

/-- Modelled from the spec: `UString::beginsWith` (`common/ustring.h` is not among
the sources): whether `p` is a prefix of `l`. -/
def beginsWith (l p : List Byte) : Bool := p.isPrefixOf l

/-- Embeds `v[i]` on a `std::vector`: out of range is undefined behaviour. -/
def index {α : Type} (v : List α) (i : Nat) : Parser α :=
  match v[i]? with
  | some a => pure a
  | none => throwErr .outOfRange

/-- Embeds `v.resize(n)` on a `std::vector` of numbers: the first `n` elements
are kept, new elements are zero. -/
def resize (v : List Nat) (n : Nat) : List Nat := v.take n ++ List.replicate (n - v.length) 0

/-- Embeds `ctx.node->field = ...`: updates the node `ctx.node` points to. -/
def modifyNode (f : Node → Node) : Parser Unit := fun s =>
  match s.node with
  | some n => if n < s.heap.length then .ok () { s with heap := s.heap.modify f n } else .fail .nullNode s
  | none => .fail .nullNode s

/-- Emit a warning. -/
def warning (w : Warning) : Parser Unit := fun s => .ok () { s with log := s.log ++ [w] }

/-! ## `readArray`, `readOffsetArray`, `readFloatsArray` -/

/-- Embeds `Model_Witcher::readArray`: returns `(start, count)`. -/
def readArray : Parser (Nat × Nat) := do
  let start ← readUint32LE
  let usedCount ← readUint32LE
  let allocatedCount ← readUint32LE
  (if usedCount != allocatedCount then
    warning (.arrayCount usedCount allocatedCount)
  else pure ())
  pure (start, usedCount)

/-- Embeds `Model_Witcher::readOffsetArray`: returns `offsets`. -/
def readOffsetArray (start count : Nat) : Parser (List Nat) := do
  let pos ← seekTo start
  let offsets ← collect count readUint32LE
  let _ ← seekTo pos
  pure offsets

/-- Embeds `Model_Witcher::readFloatsArray`: returns `floats`. -/
def readFloatsArray (start count : Nat) : Parser (List Float32) := do
  let pos ← seekTo start
  let floats ← collect count readIEEEFloatLE
  let _ ← seekTo pos
  pure floats

/-! ## Access to the parser context -/

/-- Read the current state (a member of `ctx`). -/
def getSt : Parser St := fun s => .ok s s

/-- Embeds `ctx.vertices[i] = v`. -/
def storeVertex (i : Nat) (v : Float32) : Parser Unit := fun s =>
  if i < s.vertices.length then .ok () { s with vertices := s.vertices.set i v } else .fail .outOfRange s

/-- Embeds `ctx.verticesTexture[i] = v`. -/
def storeVertexTexture (i : Nat) (v : Float32) : Parser Unit := fun s =>
  if i < s.verticesTexture.length then .ok () { s with verticesTexture := s.verticesTexture.set i v }
  else .fail .outOfRange s

/-- Embeds `ctx.faces[i] = v`. -/
def storeFace (i : Nat) (v : Nat) : Parser Unit := fun s =>
  if i < s.faces.length then .ok () { s with faces := s.faces.set i v } else .fail .outOfRange s

/-! ## `parseNodeControllers` -/

def kControllerTypePosition : Nat := 84

def kControllerTypeOrientation : Nat := 96

/-- The body of the loop of `parseNodeControllers` (lines 470-496): one 12-byte
controller key. -/
def controllerKey (env : Env) (data : List Float32) : Parser Unit := do
  let type ← readUint32LE
  let _rowCount ← readUint16LE
  let _timeIndex ← readUint16LE
  let dataIndex ← readUint16LE
  let columnCount ← readByte
  skip 1
  (if columnCount == 0xFFFF then
    throwErr .variableColumns
  else pure ())
  if type == kControllerTypePosition then
    (if columnCount != 3 then
      throwErr (.positionController columnCount)
    else pure ())
    let p0 ← index data (dataIndex + 0)
    modifyNode (fun n => { n with position := n.position.set 0 p0 })
    let p1 ← index data (dataIndex + 1)
    modifyNode (fun n => { n with position := n.position.set 1 p1 })
    let p2 ← index data (dataIndex + 2)
    modifyNode (fun n => { n with position := n.position.set 2 p2 })
  else if type == kControllerTypeOrientation then
    (if columnCount != 4 then
      throwErr (.orientationController columnCount)
    else pure ())
    let o0 ← index data (dataIndex + 0)
    modifyNode (fun n => { n with orientation := n.orientation.set 0 o0 })
    let o1 ← index data (dataIndex + 1)
    modifyNode (fun n => { n with orientation := n.orientation.set 1 o1 })
    let o2 ← index data (dataIndex + 2)
    modifyNode (fun n => { n with orientation := n.orientation.set 2 o2 })
    let o3 ← index data (dataIndex + 3)
    modifyNode (fun n => { n with orientation := n.orientation.set 3 (env.quatAngle o3) })
  else pure ()

/-- Embeds `Model_Witcher::parseNodeControllers`. -/
def parseNodeControllers (env : Env) (offset count : Nat) (data : List Float32) : Parser Unit := do
  let pos ← seekTo offset
  forLoop count 0 (fun _ => controllerKey env data)
  let _ ← seekTo pos

/-! ## `readMesh` -/

/-- The body of the vertex loop of `readMesh` (lines 314-316). -/
def readVertex (i : Nat) : Parser Unit := do
  let x ← readIEEEFloatLE
  storeVertex ((3 * i + 0) % 2 ^ 32) x
  let y ← readIEEEFloatLE
  storeVertex ((3 * i + 1) % 2 ^ 32) y
  let z ← readIEEEFloatLE
  storeVertex ((3 * i + 2) % 2 ^ 32) z

/-- The body of the texture coordinate loop of `readMesh` (lines 322-324). -/
def readVertexTexture (i : Nat) : Parser Unit := do
  let u ← readIEEEFloatLE
  storeVertexTexture ((3 * i + 0) % 2 ^ 32) u
  let v ← readIEEEFloatLE
  storeVertexTexture ((3 * i + 1) % 2 ^ 32) v
  storeVertexTexture ((3 * i + 2) % 2 ^ 32) 0

/-- The body of the face loop of `readMesh` (lines 330-340). -/
def readFace (i : Nat) : Parser Unit := do
  skip (4 * 4 + 4)
  let s ← getSt
  (if s.fileVersion == 133 then
    skip (3 * 4)
  else pure ())
  let a ← readUint32LE
  storeFace ((3 * i + 0) % 2 ^ 32) a
  let b ← readUint32LE
  storeFace ((3 * i + 1) % 2 ^ 32) b
  let c ← readUint32LE
  storeFace ((3 * i + 2) % 2 ^ 32) c
  if s.fileVersion == 133 then
    skip 4
  else pure ()

/-- The body of the first texture-info loop of `readMesh` (lines 358-361). -/
def readTextureLine : Parser (List Byte) := do
  let line ← readLineASCII
  skip 1
  pure (trim line)

/-- Lines 365-369 and 372-378: the texture name a line of the texture-info table
yields, if it begins with one of the two keys. -/
def textureOfLine (line : List Byte) : Option (List Byte) :=
  if beginsWith line (ascii "texture texture0 ") then some (line.drop 17)
  else if beginsWith line (ascii "texture tex ") then some (line.drop 12)
  else none

/-- The body of the second texture-info loop of `readMesh` (lines 365-379). -/
def scanTextureLine (line : List Byte) : Parser Unit := fun s =>
  .ok () (match textureOfLine line with
    | some name => { s with texture := name }
    | none => s)

/-- Embeds `Model_Witcher::readMesh`. -/
def readMesh : Parser Unit := do
  skip 8
  let offMeshArrays ← readUint32LE
  skip 76
  let a0 ← readIEEEFloatLE
  modifyNode (fun n => { n with ambient := n.ambient.set 0 a0 })
  let a1 ← readIEEEFloatLE
  modifyNode (fun n => { n with ambient := n.ambient.set 1 a1 })
  let a2 ← readIEEEFloatLE
  modifyNode (fun n => { n with ambient := n.ambient.set 2 a2 })
  let d0 ← readIEEEFloatLE
  modifyNode (fun n => { n with diffuse := n.diffuse.set 0 d0 })
  let d1 ← readIEEEFloatLE
  modifyNode (fun n => { n with diffuse := n.diffuse.set 1 d1 })
  let d2 ← readIEEEFloatLE
  modifyNode (fun n => { n with diffuse := n.diffuse.set 2 d2 })
  let s0 ← readIEEEFloatLE
  modifyNode (fun n => { n with specular := n.specular.set 0 s0 })
  let s1 ← readIEEEFloatLE
  modifyNode (fun n => { n with specular := n.specular.set 1 s1 })
  let s2 ← readIEEEFloatLE
  modifyNode (fun n => { n with specular := n.specular.set 2 s2 })
  let sh ← readIEEEFloatLE
  modifyNode (fun n => { n with shininess := sh })
  skip 20
  let texture0 ← readASCII 64
  let _texture1 ← readASCII 64
  let _texture2 ← readASCII 64
  let _texture3 ← readASCII 64
  skip 20
  let _fourCC ← readUint32BE
  skip 8
  let _coronaCenterX ← readIEEEFloatLE
  skip 8
  let _enlargeStartDistance ← readIEEEFloatLE
  skip 308
  let offTextureInfo ← readUint32LE
  skip 4
  let ctx ← getSt
  let endPos ← seekTo ((ctx.offRawData + offMeshArrays) % 2 ^ 32)
  skip 4
  let (verticesStart, verticesCount) ← readArray
  let (_normalsStart, _normalsCount) ← readArray
  let (_tangentsStart, _tangentsCount) ← readArray
  let (_biNormalsStart, _biNormalsCount) ← readArray
  let (tVerts0Start, tVerts0Count) ← readArray
  let (_tVerts1Start, _tVerts1Count) ← readArray
  let (_tVerts2Start, _tVerts2Count) ← readArray
  let (_tVerts3Start, _tVerts3Count) ← readArray
  let (_unknownStart, _unknownCount) ← readArray
  let (facesStart, facesCount) ← readArray
  (if ctx.fileVersion == 133 then do
    let offTexData ← readUint32LE
    (fun s => .ok () { s with offTexData := offTexData })
  else pure ())
  (fun s => .ok () { s with vertices := resize s.vertices ((3 * verticesCount) % 2 ^ 32) })
  let _ ← seekTo ((ctx.offRawData + verticesStart) % 2 ^ 32)
  forLoop verticesCount 0 readVertex
  (fun s => .ok () { s with verticesTexture := resize s.verticesTexture ((3 * tVerts0Count) % 2 ^ 32) })
  let _ ← seekTo ((ctx.offRawData + tVerts0Start) % 2 ^ 32)
  forLoop tVerts0Count 0 readVertexTexture
  (fun s => .ok () { s with faces := resize s.faces ((3 * facesCount) % 2 ^ 32) })
  let _ ← seekTo ((ctx.offRawData + facesStart) % 2 ^ 32)
  forLoop facesCount 0 readFace
  (if texture0 != ascii "NULL" then do
    let ctx2 ← getSt
    let offset :=
      if ctx2.fileVersion == 133 then (ctx2.offRawData + ctx2.offTexData) % 2 ^ 32
      else (ctx2.offTexData + offTextureInfo) % 2 ^ 32
    seek offset
    let textureCount ← readUint32LE
    let _offTexture ← readUint32LE
    let textureLine ← collect textureCount readTextureLine
    forEach textureLine scanTextureLine
  else
    modifyNode (fun n => { n with render := false }))
  let _ ← seekTo endPos
  pure ()

/-! ## `processNode` -/

/-- A value-initialised `Face`, as `faces.resize` creates it. -/
def Face.zero : Face where
  vertices := [[0, 0, 0], [0, 0, 0], [0, 0, 0]]
  verticesTexture := [[0, 0, 0], [0, 0, 0], [0, 0, 0]]

/-- The three values `v[3 * faces[3 * i + k] + 0 .. 2]` that `processNode` copies
into corner `k` of face `i`; the index arithmetic is `uint32`. -/
def corner (v : List Float32) (faces : List Nat) (i k : Nat) : Parser (List Float32) := do
  let f ← index faces (3 * i + k)
  let x ← index v ((3 * f + 0) % 2 ^ 32)
  let y ← index v ((3 * f + 1) % 2 ^ 32)
  let z ← index v ((3 * f + 2) % 2 ^ 32)
  pure [x, y, z]

/-- The body of the loop of `processNode` (lines 392-412): fill face `i`. -/
def processFace (i : Nat) : Parser Unit := do
  let ctx ← getSt
  let v0 ← corner ctx.vertices ctx.faces i 0
  let v1 ← corner ctx.vertices ctx.faces i 1
  let v2 ← corner ctx.vertices ctx.faces i 2
  let t0 ← corner ctx.verticesTexture ctx.faces i 0
  let t1 ← corner ctx.verticesTexture ctx.faces i 1
  let t2 ← corner ctx.verticesTexture ctx.faces i 2
  modifyNode (fun n => { n with faces := n.faces.set i ⟨[v0, v1, v2], [t0, t1, t2]⟩ })

/-- Embeds `Model_Witcher::processNode`. -/
def processNode (env : Env) : Parser Unit := do
  let ctx ← getSt
  let count := ctx.faces.length / 3
  modifyNode (fun n =>
    { n with faces := n.faces.take count ++ List.replicate (count - n.faces.length) Face.zero })
  forLoop count 0 processFace
  (if !ctx.texture.isEmpty && ctx.texture != ascii "NULL" then do
    (fun s => .ok () { s with requests := s.requests ++ [ctx.texture] })
    match env.textureGet ctx.texture with
    | some handle => modifyNode (fun n => { n with texture := some handle })
    | none => modifyNode (fun n => { n with texture := none })
  else pure ())
  (fun s => .ok () { s with texture := [], vertices := [], verticesTexture := [], faces := [] })

/-! ## `readNode` -/

def kNodeFlagHasMesh : Nat := 0x00000020

/-- Lines 146-152 of `readNode`: allocate the node, set its parent, and append it
to the parent's children or, without a parent, to the root list. -/
def newNode (parent : Option Nat) : Parser Unit := fun s =>
  let n := s.heap.length
  match parent with
  | some p =>
      .ok () { s with
        node := some n
        heap := (s.heap ++ [{ Node.new with parent := some p }]).modify
          (fun nd => { nd with children := nd.children ++ [n] }) p }
  | none =>
      .ok () { s with
        node := some n
        heap := s.heap ++ [Node.new]
        rootNodes := s.rootNodes ++ [n] }

/-- Lines 144-182 of `readNode`: everything up to and including the read of the
flags word.  Returns the children offsets and the flags. -/
def readNodeFields (env : Env) (offset : Nat) (parent : Option Nat) : Parser (List Nat × Nat) := do
  let _ ← seekTo offset
  newNode parent
  skip 24
  let _inheritColor ← readUint32LE
  let _nodeNumber ← readUint32LE
  let name ← readASCII 64
  modifyNode (fun n => { n with name := name })
  skip 8
  let (childrenStart, childrenCount) ← readArray
  let ctx ← getSt
  let children ← readOffsetArray ((childrenStart + ctx.offModelData) % 2 ^ 32) childrenCount
  let (controllerKeyStart, controllerKeyCount) ← readArray
  let (controllerDataStart, controllerDataCount) ← readArray
  let controllerData ←
    readFloatsArray ((controllerDataStart + ctx.offModelData) % 2 ^ 32) controllerDataCount
  parseNodeControllers env ((controllerKeyStart + ctx.offModelData) % 2 ^ 32) controllerKeyCount
    controllerData
  skip 20
  let flags ← readUint32LE
  pure (children, flags)

/-- Lines 183-223 of `readNode`: the check of the flags, the payloads, and the
registration of the finished node.  Returns the node, the `parent` of the
recursive calls. -/
def readNodePayload (env : Env) (flags : Nat) : Parser Nat := do
  (if (flags &&& 0xFFFC0000) != 0 then
    throwErr (.unknownNodeFlags flags)
  else pure ())
  (if (flags &&& kNodeFlagHasMesh) != 0 then
    readMesh
  else pure ())
  processNode env
  let ctx ← getSt
  match ctx.node with
  | none => throwErr .nullNode
  | some parent =>
      (fun s => .ok () { s with nodes := s.nodes ++ [parent], node := none })
      pure parent

/-- Embeds `Model_Witcher::readNode`.  The recursion of the source is unbounded;
here `fuel` bounds its depth, and a call without fuel ends in `recursionBudget`. -/
def readNode (env : Env) : Nat → Nat → Option Nat → Parser Unit
  | 0, _, _ => throwErr .recursionBudget
  | fuel + 1, offset, parent => do
      let (children, flags) ← readNodeFields env offset parent
      let parent ← readNodePayload env flags
      forEach children (fun child => do
        let ctx ← getSt
        readNode env fuel ((child + ctx.offModelData) % 2 ^ 32) (some parent))

/-! ## `load` -/

/-- Lines 70-79 of `load`: the signature check. -/
def checkSignature : Parser Unit := do
  let first ← readByte
  if first != 0 then
    seek 0
    let type ← readASCIIz
    (if beginsWith type (ascii "binarycompositemodel") then
      throwErr .compositeModel
    else pure ())
    throwErr .notMDB
  else pure ()

/-- Lines 81-103 of `load`: the version, the size of the model data and the
bases and sizes of the three data segments.  Returns `(fileVersion, modelDataSize)`. -/
def readSegments : Parser (Nat × Nat) := do
  seek 4
  let fileVersion ← readUint16LE
  (fun s => .ok () { s with fileVersion := fileVersion })
  skip 10
  let modelDataSize ← readUint32LE
  (fun s => .ok () { s with modelDataSize := modelDataSize })
  skip 4
  (fun s => .ok () { s with offModelData := 32 })
  (if fileVersion == 133 then do
    let a ← readUint32LE
    let b ← readUint32LE
    (fun s => .ok () { s with
      offRawData := (a + s.offModelData) % 2 ^ 32
      rawDataSize := b
      offTexData := s.offModelData
      texDatasize := 0 })
  else do
    let a ← readUint32LE
    let b ← readUint32LE
    (fun s => .ok () { s with
      offRawData := s.offModelData
      rawDataSize := 0
      offTexData := (a + s.offModelData) % 2 ^ 32
      texDatasize := b })
  )
  pure (fileVersion, modelDataSize)

/-- Lines 81-138 of `load`: the header.  Returns `offsetRootNode`. -/
def readHeader : Parser Nat := do
  let (fileVersion, modelDataSize) ← readSegments
  skip 8
  let name ← readASCII 64
  let offsetRootNode ← readUint32LE
  skip 32
  let type ← readByte
  skip 3
  skip 48
  let _firstLOD ← readIEEEFloatLE
  let _lastLOD ← readIEEEFloatLE
  skip 16
  let detailMap ← readASCII 64
  skip 4
  let scale ← readIEEEFloatLE
  (fun s => .ok () { s with scale := scale })
  let superModel ← readASCII 64
  skip 16
  warning (.modelInfo name fileVersion modelDataSize offsetRootNode type scale detailMap superModel)
  pure offsetRootNode

/-- Lines 70-140 of `load`: the signature check, the header, and the call of
`readNode` on the root. -/
def loadBody (env : Env) (fuel : Nat) : Parser Unit := do
  checkSignature
  let offsetRootNode ← readHeader
  let ctx ← getSt
  readNode env fuel ((offsetRootNode + ctx.offModelData) % 2 ^ 32) none

/-- Embeds `ParserContext::~ParserContext`: `delete node`. -/
def destroyContext (s : St) : St :=
  match s.node with
  | some n => { s with freed := s.freed ++ [n] }
  | none => s

/-- Embeds `Model_Witcher::load`: `loadBody`, after which `ctx` is destroyed,
whether `load` returns or throws. -/
def load (env : Env) (fuel : Nat) : Parser Unit := fun s =>
  match loadBody env fuel s with
  | .ok a s1 => .ok a (destroyContext s1)
  | .fail e s1 => .fail e (destroyContext s1)

/-! ## The shape of the node graph -/

/-- The part of the state that records the shape of the node graph: for every
allocated node its parent and children (`links`), and the two node lists of the
model. -/
structure Skel where
  links : List (Option Nat × List Nat)
  rootNodes : List Nat
  nodes : List Nat
  deriving DecidableEq, Repr

/-- The shape of the node graph of a state. -/
def skel (s : St) : Skel where
  links := s.heap.map (fun n => (n.parent, n.children))
  rootNodes := s.rootNodes
  nodes := s.nodes

/-- What the decoders called between the allocation of a node and its
registration leave alone: the stream, the model-data base, `ctx.node` and the
shape of the node graph. -/
def frame (s : St) : List Byte × Nat × Option Nat × Skel := (s.mdb, s.offModelData, s.node, skel s)

/-- The parent back-reference of node `n`. -/
def parentOf (s : St) (n : Nat) : Option Nat := (s.heap[n]?).bind (fun nd => nd.parent)

/-- The children list of node `p`. -/
def childrenOf (s : St) (p : Nat) : List Nat :=
  match s.heap[p]? with
  | some nd => nd.children
  | none => []

/-- The effect of lines 146-152 of `readNode` on the shape: node `n`, the next
arena index, is allocated with the given parent and appended to the parent's
children or to the root list. -/
def Skel.link (sk : Skel) (parent : Option Nat) : Skel :=
  match parent with
  | some p =>
      { sk with
        links := (sk.links ++ [(some p, [])]).modify (fun x => (x.1, x.2 ++ [sk.links.length])) p }
  | none =>
      { sk with
        links := sk.links ++ [(none, [])]
        rootNodes := sk.rootNodes ++ [sk.links.length] }

/-- The effect of line 222 of `readNode` on the shape: node `n` is appended to the
flat node list. -/
def Skel.register (sk : Skel) (n : Nat) : Skel := { sk with nodes := sk.nodes ++ [n] }

/-! ## Properties of decoders -/

/-- Every failure of `m` is one of the errors `P`. -/
@[irreducible] def FailsIn {α : Type} (P : Err → Prop) (m : Parser α) : Prop :=
  ∀ s e s1, m s = .fail e s1 → P e

/-- The errors of the byte cursor and of undefined behaviour. -/
def Err.isLowLevel : Err → Prop
  | .readError => True
  | .outOfRange => True
  | .nullNode => True
  | _ => False

/-- The decoder `m` never changes the part `proj` of the state, whether it
returns or throws. -/
@[irreducible] def Keeps {α β : Type} (proj : St → β) (m : Parser α) : Prop :=
  ∀ s, proj (m s).state = proj s

/-! ## Test streams -/

/-- The two bytes of a little-endian 16-bit word. -/
def le16Bytes (n : Nat) : List Byte := [Fin.ofNat n, Fin.ofNat (n / 256)]

/-- The four bytes of a little-endian 32-bit word. -/
def le32Bytes (n : Nat) : List Byte :=
  [Fin.ofNat n, Fin.ofNat (n / 256), Fin.ofNat (n / 65536), Fin.ofNat (n / 16777216)]

/-- A run of `n` zero bytes. -/
def zeroBytes (n : Nat) : List Byte := List.replicate n 0

/-- A 368-byte header whose first four bytes are `magic`, with the given version,
the two version-dependent words `a` and `b`, and the root offset field. -/
def headerBytes (magic : List Byte) (version a b root : Nat) : List Byte :=
  List.flatten [magic, le16Bytes version, zeroBytes 18, le32Bytes a, le32Bytes b, zeroBytes 72,
    le32Bytes root, zeroBytes 260]

/-- A 164-byte node record without controllers: the children array descriptor
`(start, used, allocated)` and the flags word. -/
def nodeBytes (start used allocated flags : Nat) : List Byte :=
  List.flatten [zeroBytes 104, le32Bytes start, le32Bytes used, le32Bytes allocated,
    zeroBytes 24, zeroBytes 20, le32Bytes flags]

/-- Collaborators for the test streams: no texture can be obtained. -/
def Env.plain : Env where
  textureGet := fun _ => none
  quatAngle := fun w => w

/-- A state whose stream is `bytes`, with the model-data base set as `load` sets it. -/
def St.at32 (bytes : List Byte) : St := { St.init bytes with offModelData := 32 }

/-- An array descriptor with start 7, used-count 5 and allocated-count 8. -/
def arrayStream : List Byte :=
  List.flatten [le32Bytes 7, le32Bytes 5, le32Bytes 8]

/-- A node record whose flags word is `0x00040000` (bit 18). -/
def bit18Stream : List Byte := nodeBytes 0 0 0 0x00040000

/-- The two errors of the signature check of `load`. -/
def Err.isSignature : Err → Prop
  | .compositeModel => True
  | .notMDB => True
  | _ => False

/-- Where the cursor stands after `readASCII` has read the leading text of a
stream from its start. -/
def signatureEnd (bytes : List Byte) : Nat := min ((cString bytes).length + 1) bytes.length


/-- A stream that starts with the text of a composite model. -/
def compositeStream : List Byte := ascii "binarycompositemodel" ++ [0, 1, 2]

/-- The state `readSegments` leaves when the first 32 bytes of the stream can be
read, field by field: `a` and `b` are the words at bytes 24 and 28, which version
133 reads as the raw-data offset and size and every other version as the
texture-data offset and size. -/
def segmentsState (s : St) : St :=
  { s with
    pos := 32
    fileVersion := le16At s.mdb 4
    modelDataSize := le32At s.mdb 16
    offModelData := 32
    offRawData := if le16At s.mdb 4 = 133 then (le32At s.mdb 24 + 32) % 2 ^ 32 else 32
    rawDataSize := if le16At s.mdb 4 = 133 then le32At s.mdb 28 else 0
    offTexData := if le16At s.mdb 4 = 133 then 32 else (le32At s.mdb 24 + 32) % 2 ^ 32
    texDatasize := if le16At s.mdb 4 = 133 then 0 else le32At s.mdb 28 }

/-- The state `readHeader` leaves when the header is complete: that of
`readSegments`, with the cursor behind the header, the scale set and the header
logged. -/
def headerState (s : St) : St :=
  { segmentsState s with
    pos := 368
    scale := le32At s.mdb 284
    log := s.log ++ [.modelInfo (cString ((s.mdb.drop 40).take 64)) (le16At s.mdb 4)
      (le32At s.mdb 16) (le32At s.mdb 104) (byteAt s.mdb 140) (le32At s.mdb 284)
      (cString ((s.mdb.drop 216).take 64)) (cString ((s.mdb.drop 288).take 64))] }

/-- A header of version 133 with `a = 0xFFFFFFF0` and `b = 7`, and the same
header with version 135. -/
def legacyHeader : List Byte := headerBytes [0, 0, 0, 0] 133 0xFFFFFFF0 7 336

def recentHeader : List Byte := headerBytes [0, 0, 0, 0] 135 0xFFFFFFF0 7 336

/-- The effect of the non-recursive part of `readNode` (lines 144-223) on the
shape: the new node is linked, then registered. -/
def Skel.step (sk : Skel) (parent : Option Nat) : Skel :=
  (sk.link parent).register sk.links.length

/-- The two places of `readNode` a run can be at between two node records: at a
call with the given parent, or inside the loop over the children of node `n`. -/
inductive Phase where
  | call (parent : Option Nat)
  | loop (n : Nat)

/-- The shapes a successful `readNode` can produce.  `Grow (.call parent) sk sk1`:
a call of `readNode` with this parent that starts with shape `sk` can end with
`sk1`; `Grow (.loop n) sk sk1`: so can the rest of the loop over the children of
`n`.  A call decodes one record (`Skel.step`) and loops over the new node's
children; a loop is over, or calls `readNode` with parent `n` and goes on. -/
inductive Grow : Phase → Skel → Skel → Prop where
  | call (sk sk1 : Skel) (parent : Option Nat) :
      Grow (.loop sk.links.length) (sk.step parent) sk1 → Grow (.call parent) sk sk1
  | done (sk : Skel) (n : Nat) : Grow (.loop n) sk sk
  | next (sk sk1 sk2 : Skel) (n : Nat) :
      Grow (.call (some n)) sk sk1 → Grow (.loop n) sk1 sk2 → Grow (.loop n) sk sk2

/-- What a phase needs of the shape it starts with: the parent of a call, and
the node whose children are looped over, are allocated nodes. -/
def Phase.Valid : Phase → Skel → Prop
  | .call parent, sk => ∀ p, parent = some p → p < sk.links.length
  | .loop n, sk => n < sk.links.length

/-- The entries a phase adds to the root list when it starts with `n` allocated
nodes: a call without parent adds the node it allocates. -/
def Phase.newRoots : Phase → Nat → List Nat
  | .call none, n => [n]
  | _, _ => []

/-- The total number of entries of all children lists. -/
def Skel.childCount (sk : Skel) : Nat := (sk.links.map (fun x => x.2.length)).sum

/-- A model with a root and two children: the root record at 368 has a children
array of two offsets stored at 600, the children records are at 608 and 772. -/
def familyStream : List Byte :=
  List.flatten [headerBytes [0, 0, 0, 0] 135 0 0 336, nodeBytes 568 2 2 0, zeroBytes 68,
    le32Bytes 576, le32Bytes 740, nodeBytes 0 0 0 1, nodeBytes 0 0 0 2]

/-- The parent recorded for node `n` in a shape (none when `n` is not allocated). -/
def Skel.parentOf (sk : Skel) (n : Nat) : Option Nat := (sk.links[n]?).bind (fun x => x.1)

/-- The children list recorded for node `p` in a shape (empty when `p` is not
allocated). -/
def Skel.childrenOf (sk : Skel) (p : Nat) : List Nat :=
  match sk.links[p]? with
  | some x => x.2
  | none => []

/-- The shape is a forest with back-references: `n` is in the children list of
`p` exactly when the parent of `n` is `p`; no children list has a repetition;
the roots are allocated nodes without parent; a parent is allocated before its
children. -/
structure TreeInv (sk : Skel) : Prop where
  child_iff : ∀ p n, n ∈ sk.childrenOf p ↔ sk.parentOf n = some p
  nodup : ∀ p, (sk.childrenOf p).Nodup
  roots : ∀ r, r ∈ sk.rootNodes → r < sk.links.length ∧ sk.parentOf r = none
  parent_lt : ∀ n p, sk.parentOf n = some p → p < n

/-- The pre-order traversal of the subtree of node `n` in a shape, followed to
depth `fuel`: the node, then the traversals of its children in list order. -/
def Skel.preorder (sk : Skel) : Nat → Nat → List Nat
  | 0, _ => []
  | fuel + 1, n => n :: (sk.childrenOf n).flatMap (sk.preorder fuel)

/-- The pre-order traversal of the subtree of node `n` of a model, to depth `fuel`. -/
def preorder (s : St) (fuel n : Nat) : List Nat := (skel s).preorder fuel n

/-- The node whose children list a phase appends to. -/
def Phase.active : Phase → Option Nat
  | .call parent => parent
  | .loop n => some n

/-- A model of one node: a header whose root offset field is 336 and, at 368, a
root record without children, controllers or payload. -/
def singleStream : List Byte := headerBytes [0, 0, 0, 0] 135 0 0 336 ++ nodeBytes 0 0 0 0

/-- The loop of `readNode` over the children offsets (lines 225-226), as a trace:
`DecodedChildren env fuel parent offsets s ids s1` holds when, starting in state
`s` with the model-data base 32, `readNode` is called for each word `c` of
`offsets`, in list order, at the absolute offset `(c + 32) mod 2^32` with the
given parent, every call returns, and the last one leaves state `s1`.  `ids` are
the nodes decoded by the calls, in the same order: the node a call decodes is the
one it allocates on entry, the next free arena index. -/
inductive DecodedChildren (env : Env) (fuel parent : Nat) :
    List Nat → St → List Nat → St → Prop where
  | nil (s : St) : DecodedChildren env fuel parent [] s [] s
  | cons (c : Nat) (cs : List Nat) (s s1 s2 : St) (ids : List Nat) :
      readNode env fuel ((c + 32) % 2 ^ 32) (some parent) s = .ok () s1 →
      DecodedChildren env fuel parent cs s1 ids s2 →
      DecodedChildren env fuel parent (c :: cs) s (s.heap.length :: ids) s2

/-- A model whose root record has a children array at `0xFFFFFFE0`, relative to
the model data: its absolute start wraps around to 0, where the stream has the
word 512, so that the only child is the record at `512 + 32 = 544`. -/
def wrapStream : List Byte :=
  List.flatten [headerBytes [0, 2, 0, 0] 135 0 0 336, nodeBytes 0xFFFFFFE0 1 1 0, zeroBytes 12,
    nodeBytes 0 0 0 0]

/-- The states of the decode of `wrapStream`: after the header, after the root
record (fields and payloads), and at the end. -/
def wrapStart : St := headerState (St.init wrapStream)

def wrapRoot : St :=
  (readNodePayload Env.plain 0 (readNodeFields Env.plain 368 none wrapStart).state).state

def wrapFinal : St := (readNode Env.plain 2 368 none wrapStart).state

/-- Lines 477-496 of `parseNodeControllers`: what a key does once its record has
been read, from its fields `type`, `dataIndex` and `columnCount`. -/
def controllerEffect (env : Env) (data : List Float32) (type dataIndex columnCount : Nat) :
    Parser Unit := do
  (if columnCount == 0xFFFF then
    throwErr .variableColumns
  else pure ())
  if type == kControllerTypePosition then
    (if columnCount != 3 then
      throwErr (.positionController columnCount)
    else pure ())
    let p0 ← index data (dataIndex + 0)
    modifyNode (fun n => { n with position := n.position.set 0 p0 })
    let p1 ← index data (dataIndex + 1)
    modifyNode (fun n => { n with position := n.position.set 1 p1 })
    let p2 ← index data (dataIndex + 2)
    modifyNode (fun n => { n with position := n.position.set 2 p2 })
  else if type == kControllerTypeOrientation then
    (if columnCount != 4 then
      throwErr (.orientationController columnCount)
    else pure ())
    let o0 ← index data (dataIndex + 0)
    modifyNode (fun n => { n with orientation := n.orientation.set 0 o0 })
    let o1 ← index data (dataIndex + 1)
    modifyNode (fun n => { n with orientation := n.orientation.set 1 o1 })
    let o2 ← index data (dataIndex + 2)
    modifyNode (fun n => { n with orientation := n.orientation.set 2 o2 })
    let o3 ← index data (dataIndex + 3)
    modifyNode (fun n => { n with orientation := n.orientation.set 3 (env.quatAngle o3) })
  else pure ()

/-- A 12-byte controller key with the given type tag, data index and column
count; its row count and time index are 0. -/
def keyBytes (type dataIndex columnCount : Nat) : List Byte :=
  List.flatten [le32Bytes type, le16Bytes 0, le16Bytes 0, le16Bytes dataIndex,
    [Fin.ofNat columnCount, 0]]

/-- A state on the stream `bytes` in which `ctx.node` is a freshly constructed
node, the only one allocated. -/
def St.withNode (bytes : List Byte) : St :=
  { St.init bytes with node := some 0, heap := [Node.new] }

/-- A controller-data buffer that holds the identity quaternion `(0, 0, 0, 1)`:
the bit pattern of `1.0f` is `0x3F800000`. -/
def identityQuaternion : List Float32 := [0, 0, 0, 0x3F800000]

/-- The size of a face record as `readFace` consumes it: `4 * 4 + 4` skipped bytes
and three indices, and for version 133 `3 * 4` more skipped bytes before the
indices and 4 behind them. -/
def faceStride (version : Nat) : Nat := if version = 133 then 48 else 32

/-- Where in a face record `readFace` reads the first of the three indices. -/
def faceIndexOffset (version : Nat) : Nat := if version = 133 then 32 else 20

/-! ## The layout of a mesh, as `readMesh` decodes it

The functions below describe, in terms of the stream and of the state in which
`readMesh` is entered (cursor at the mesh sub-record), what a successful
`readMesh` leaves behind; `readMesh_inv` proves that it does. -/

/-- The absolute offset of the mesh arrays: `ctx.offRawData + offMeshArrays` in
`uint32` arithmetic (line 274); `offMeshArrays` is the word at byte 8 of the mesh
sub-record. -/
def meshArraysAt (s : St) : Nat := (s.offRawData + le32At s.mdb (s.pos + 8)) % 2 ^ 32

/-- The start field of the `k`-th array descriptor that `readMesh` reads behind
the 4 bytes it skips at the mesh arrays (lines 276-306): `k = 0` vertices,
1 normals, 2 tangents, 3 binormals, 4 to 7 the texture coordinates 0 to 3,
8 unknown, 9 faces. -/
def meshArrayStart (s : St) (k : Nat) : Nat := le32At s.mdb (meshArraysAt s + 4 + 12 * k)

/-- The used-count field of the `k`-th array descriptor. -/
def meshArrayCount (s : St) (k : Nat) : Nat := le32At s.mdb (meshArraysAt s + 4 + 12 * k + 4)

/-- The value of `ctx.offTexData` behind lines 308-309: for version 133 the word
that follows the ten array descriptors. -/
def meshTexData (s : St) : Nat :=
  if s.fileVersion = 133 then le32At s.mdb (meshArraysAt s + 124) else s.offTexData

/-- The buffer `ctx.vertices` behind lines 311-317: entry `3 * i + k` is the float
at `(ctx.offRawData + verticesStart) mod 2^32 + 12 * i + 4 * k`. -/
def meshVertices (s : St) : List Float32 :=
  (List.range (3 * meshArrayCount s 0)).map (fun q =>
    le32At s.mdb ((s.offRawData + meshArrayStart s 0) % 2 ^ 32 + 12 * (q / 3) + 4 * (q % 3)))

/-- The buffer `ctx.verticesTexture` behind lines 319-325: entries `3 * i` and
`3 * i + 1` are the floats at `(ctx.offRawData + tVerts0Start) mod 2^32 + 8 * i`
and 4 bytes further, entry `3 * i + 2` is 0. -/
def meshTexCoords (s : St) : List Float32 :=
  (List.range (3 * meshArrayCount s 4)).map (fun q =>
    if q % 3 = 2 then 0
    else le32At s.mdb ((s.offRawData + meshArrayStart s 4) % 2 ^ 32 + 8 * (q / 3) + 4 * (q % 3)))

/-- The buffer `ctx.faces` behind lines 327-341: entry `3 * i + k` is the word at
byte `faceIndexOffset + 4 * k` of the `i`-th face record, the records being
`faceStride` bytes each from `(ctx.offRawData + facesStart) mod 2^32` on. -/
def meshFaces (s : St) : List Nat :=
  (List.range (3 * meshArrayCount s 9)).map (fun q =>
    le32At s.mdb ((s.offRawData + meshArrayStart s 9) % 2 ^ 32 +
      faceStride s.fileVersion * (q / 3) + faceIndexOffset s.fileVersion + 4 * (q % 3)))

/-- The first texture name `texture[0]` (line 251): the 64 bytes at byte 148 of
the mesh sub-record, up to the first NUL. -/
def meshTexture0 (s : St) : List Byte := cString ((s.mdb.drop (s.pos + 148)).take 64)

/-- The absolute offset at which the texture-info table is read (lines 344-350);
`offTextureInfo` is the word at byte 760 of the mesh sub-record. -/
def meshTextureInfoAt (s : St) : Nat :=
  if s.fileVersion = 133 then (s.offRawData + meshTexData s) % 2 ^ 32
  else (s.offTexData + le32At s.mdb (s.pos + 760)) % 2 ^ 32

/-- Where the cursor stands behind a texture-info line read at `p` by
`readLineASCII` and the `skip(1)` that follows (lines 358-359). -/
def textureLineEnd (d : List Byte) (p : Nat) : Nat :=
  min (p + (lineOf (d.drop p)).length + 1) (max p d.length) + 1

/-- The trimmed lines that the first loop over the texture-info table reads
(lines 355-362): `count` lines from `p` on. -/
def textureLines (d : List Byte) : Nat → Nat → List (List Byte)
  | 0, _ => []
  | count + 1, p => trim (lineOf (d.drop p)) :: textureLines d count (textureLineEnd d p)

/-- Where the cursor stands behind `count` texture-info lines read from `p` on. -/
def textureLinesEnd (d : List Byte) : Nat → Nat → Nat
  | 0, p => p
  | count + 1, p => textureLinesEnd d count (textureLineEnd d p)

/-- The resolved texture name `ctx.texture` behind lines 343-383. -/
def meshTexture (s : St) : List Byte :=
  if meshTexture0 s = ascii "NULL" then s.texture
  else (((textureLines s.mdb (le32At s.mdb (meshTextureInfoAt s))
    (meshTextureInfoAt s + 8)).filterMap textureOfLine).getLast?).getD s.texture

/-- The node behind `readMesh`: the ten material floats at byte 88 of the mesh
sub-record (lines 236-246), and the render flag cleared for the texture name
`"NULL"` (line 383). -/
def meshNode (s : St) (nd : Node) : Node :=
  { nd with
    ambient := ((nd.ambient.set 0 (le32At s.mdb (s.pos + 88))).set 1
      (le32At s.mdb (s.pos + 92))).set 2 (le32At s.mdb (s.pos + 96))
    diffuse := ((nd.diffuse.set 0 (le32At s.mdb (s.pos + 100))).set 1
      (le32At s.mdb (s.pos + 104))).set 2 (le32At s.mdb (s.pos + 108))
    specular := ((nd.specular.set 0 (le32At s.mdb (s.pos + 112))).set 1
      (le32At s.mdb (s.pos + 116))).set 2 (le32At s.mdb (s.pos + 120))
    shininess := le32At s.mdb (s.pos + 124)
    render := if meshTexture0 s = ascii "NULL" then false else nd.render }

/-- The state behind a `readMesh` that was entered in state `s` with `ctx.node`
the node `n`, which was `nd`; `log` is the log of warnings. -/
def meshState (s : St) (n : Nat) (nd : Node) (log : List Warning) : St :=
  { s with
    pos := s.pos + 768
    offTexData := meshTexData s
    vertices := meshVertices s
    verticesTexture := meshTexCoords s
    faces := meshFaces s
    texture := meshTexture s
    heap := s.heap.set n (meshNode s nd)
    log := log }

/-! ## The faces `processNode` builds -/

/-- The three values `v[3 * j + 0 .. 2]`, the index arithmetic being `uint32`, that
`processNode` copies for the face index `j` (0 where the buffer has no such
element). -/
def cornerOf (v : List Float32) (j : Nat) : List Float32 :=
  [v.getD ((3 * j + 0) % 2 ^ 32) 0, v.getD ((3 * j + 1) % 2 ^ 32) 0,
    v.getD ((3 * j + 2) % 2 ^ 32) 0]

/-- The face number `i` that `processNode` builds from the scratch buffers of the
context (lines 392-412). -/
def faceOf (s : St) (i : Nat) : Face where
  vertices := [cornerOf s.vertices (s.faces.getD (3 * i + 0) 0),
    cornerOf s.vertices (s.faces.getD (3 * i + 1) 0),
    cornerOf s.vertices (s.faces.getD (3 * i + 2) 0)]
  verticesTexture := [cornerOf s.verticesTexture (s.faces.getD (3 * i + 0) 0),
    cornerOf s.verticesTexture (s.faces.getD (3 * i + 1) 0),
    cornerOf s.verticesTexture (s.faces.getD (3 * i + 2) 0)]

/-- Every element that `processNode` reads for face `i` exists: the three face
indices, and the three position and three texture coordinate values of each. -/
def FaceInRange (s : St) (i : Nat) : Prop :=
  ∀ k, k < 3 → 3 * i + k < s.faces.length ∧
    ∀ c, c < 3 → (3 * s.faces.getD (3 * i + k) 0 + c) % 2 ^ 32 < s.vertices.length ∧
      (3 * s.faces.getD (3 * i + k) 0 + c) % 2 ^ 32 < s.verticesTexture.length

/-- Whether `processNode` asks the texture manager for a texture (line 416). -/
def wantsTexture (s : St) : Bool := !s.texture.isEmpty && s.texture != ascii "NULL"

/-- The state behind a `processNode` that was entered in state `s` with `ctx.node`
the node `n`, which was `nd`. -/
def processState (env : Env) (s : St) (n : Nat) (nd : Node) : St :=
  { s with
    texture := []
    vertices := []
    verticesTexture := []
    faces := []
    requests := if wantsTexture s then s.requests ++ [s.texture] else s.requests
    heap := s.heap.set n { nd with
      faces := (List.range (s.faces.length / 3)).map (faceOf s)
      texture := if wantsTexture s then env.textureGet s.texture else nd.texture } }

/-- The warning of `readArray` for the `k`-th array descriptor of the mesh: none
when its used and allocated counts agree. -/
def meshArrayWarning (s : St) (k : Nat) : List Warning :=
  if meshArrayCount s k = le32At s.mdb (meshArraysAt s + 4 + 12 * k + 8) then []
  else [.arrayCount (meshArrayCount s k) (le32At s.mdb (meshArraysAt s + 4 + 12 * k + 8))]

/-- The log behind `readMesh`: that on entry and the warnings of the ten calls of
`readArray`, in the order of the descriptors. -/
def meshLog (s : St) : List Warning :=
  s.log ++ meshArrayWarning s 0 ++ meshArrayWarning s 1 ++ meshArrayWarning s 2 ++
    meshArrayWarning s 3 ++ meshArrayWarning s 4 ++ meshArrayWarning s 5 ++
    meshArrayWarning s 6 ++ meshArrayWarning s 7 ++ meshArrayWarning s 8 ++
    meshArrayWarning s 9

/-! ## Test meshes -/

/-- The offset that, added to `base` in `uint32` arithmetic, gives `target`. -/
def relativeTo (base target : Nat) : Nat := (target + 2 ^ 32 - base % 2 ^ 32) % 2 ^ 32

/-- A 64-byte texture-name slot that holds `name`. -/
def slotBytes (name : List Byte) : List Byte := name ++ zeroBytes (64 - name.length)

/-- A 768-byte mesh sub-record with the given mesh-arrays offset, first texture
name and texture-info offset; its ten material floats have the bit patterns 1 to
10. -/
def meshBytes (offMeshArrays : Nat) (texture0 : List Byte) (offTextureInfo : Nat) : List Byte :=
  List.flatten [zeroBytes 8, le32Bytes offMeshArrays, zeroBytes 76, le32Bytes 1, le32Bytes 2,
    le32Bytes 3, le32Bytes 4, le32Bytes 5, le32Bytes 6, le32Bytes 7, le32Bytes 8, le32Bytes 9,
    le32Bytes 10, zeroBytes 20, slotBytes texture0, zeroBytes 192, zeroBytes 356,
    le32Bytes offTextureInfo, zeroBytes 4]

/-- An array descriptor whose used and allocated counts agree. -/
def arrayBytes (start count : Nat) : List Byte :=
  List.flatten [le32Bytes start, le32Bytes count, le32Bytes count]

/-- The 124 bytes of the mesh arrays: 4 bytes and ten descriptors, of which the
first (vertices), the fifth (texture coordinates 0) and the tenth (faces) are
given and the others are zero. -/
def meshArraysBytes (verticesStart verticesCount tVerts0Start tVerts0Count facesStart
    facesCount : Nat) : List Byte :=
  List.flatten [zeroBytes 4, arrayBytes verticesStart verticesCount, zeroBytes 36,
    arrayBytes tVerts0Start tVerts0Count, zeroBytes 48, arrayBytes facesStart facesCount]

/-- A 48-byte face record with the words `a`, `b`, `c` at byte `lead` and zeros
elsewhere. -/
def faceBytes (lead a b c : Nat) : List Byte :=
  List.flatten [zeroBytes lead, le32Bytes a, le32Bytes b, le32Bytes c, zeroBytes (36 - lead)]

/-- A stream that is one mesh: the sub-record at 0, the mesh arrays at 768, the
word behind them at 892, two vertices at 896 (floats with the bit patterns 11 to
16), two texture coordinates at 920 (bit patterns 21 to 24), one face at 936
with the indices `a`, `b`, `c` where `readFace` reads them for `version`, and at
984 a texture-info table of the two lines `texture texture0 A` and
`texture texture0 B`.  The offsets in the stream are relative to the raw-data base
`rawBase`, that of the table for versions other than 133 to `texBase`. -/
def meshStream (version rawBase texBase : Nat) (texture0 : List Byte) (a b c : Nat) :
    List Byte :=
  List.flatten [meshBytes (relativeTo rawBase 768) texture0 (relativeTo texBase 984),
    meshArraysBytes (relativeTo rawBase 896) 2 (relativeTo rawBase 920) 2
      (relativeTo rawBase 936) 1,
    le32Bytes (relativeTo rawBase 984), le32Bytes 11, le32Bytes 12, le32Bytes 13, le32Bytes 14,
    le32Bytes 15, le32Bytes 16, le32Bytes 21, le32Bytes 22, le32Bytes 23, le32Bytes 24,
    faceBytes (faceIndexOffset version) a b c, le32Bytes 2, le32Bytes 0,
    ascii "texture texture0 A", [10, 0], ascii "texture texture0 B", [10, 0]]

/-- The state in which `readMesh` is entered on a stream that is one mesh:
`ctx.node` is a freshly constructed node, the cursor is at 0. -/
def meshStart (version rawBase texBase : Nat) (bytes : List Byte) : St :=
  { St.withNode bytes with
    fileVersion := version
    offModelData := 32
    offRawData := rawBase
    offTexData := texBase }

/-- A mesh of version 135 with the texture name `tex`. -/
def recentMesh : St := meshStart 135 32 900 (meshStream 135 32 900 (ascii "tex") 1 0 1)

/-- A mesh of version 133 with the texture name `tex`, whose raw-data base
`0xFFFFFFF0` makes every absolute offset wrap. -/
def legacyMesh : St :=
  meshStart 133 0xFFFFFFF0 32 (meshStream 133 0xFFFFFFF0 32 (ascii "tex") 1 0 1)

/-- A mesh of version 135 with the texture name `NULL`, cut off before its
texture-info table. -/
def nullMesh : St :=
  meshStart 135 32 900 ((meshStream 135 32 900 (ascii "NULL") 1 0 1).take 984)

/-- A mesh of version 135 whose first texture name is empty. -/
def namelessMesh : St := meshStart 135 32 900 (meshStream 135 32 900 [] 1 0 1)

/-- A mesh of version 133 like `legacyMesh` whose face has the first index
`0x55555556`: three times that index is 2 in `uint32` arithmetic. -/
def wrappedMesh : St :=
  meshStart 133 0xFFFFFFF0 32 (meshStream 133 0xFFFFFFF0 32 (ascii "tex") 0x55555556 0 1)

/-- The warning of `readArray` for the array descriptor at `p`: none when its used
and allocated counts agree. -/
def arrayWarning (d : List Byte) (p : Nat) : List Warning :=
  if le32At d (p + 4) = le32At d (p + 8) then []
  else [.arrayCount (le32At d (p + 4)) (le32At d (p + 8))]

/-- The state in which `readNode`, called for the record at `offset`, calls
`parseNodeControllers` (line 175): the node is allocated and linked (lines
146-152) and has the name read at `offset + 32`, the three array descriptors
have been read and the cursor stands behind them, at `offset + 140`. -/
def fieldsState (s : St) (offset : Nat) (parent : Option Nat) : St :=
  { (newNode parent { s with pos := offset }).state with
    pos := offset + 140
    heap := (newNode parent { s with pos := offset }).state.heap.modify
      (fun n => { n with name := cString ((s.mdb.drop (offset + 32)).take 64) }) s.heap.length
    log := s.log ++ arrayWarning s.mdb (offset + 104) ++ arrayWarning s.mdb (offset + 116) ++
      arrayWarning s.mdb (offset + 128) }

/-- The words of the array of `count` 32-bit values at `start`, as
`readOffsetArray` and `readFloatsArray` return them. -/
def wordsAt (d : List Byte) (start count : Nat) : List Nat :=
  (List.range count).map (fun i => le32At d (start + 4 * i))

/-- A model whose root record, at 368, has the flags word `0x00040000`. -/
def danglingStream : List Byte := headerBytes [0, 0, 0, 0] 135 0 0 336 ++ bit18Stream

/-- The absolute offsets at which `readNode`, called for the record at `offset`
with the model-data base `base`, calls itself (lines 164-167 and 225-226): the
words of the children array, each plus the base, in `uint32` arithmetic. -/
def childOffsets (d : List Byte) (base offset : Nat) : List Nat :=
  (wordsAt d ((le32At d (offset + 104) + base) % 2 ^ 32) (le32At d (offset + 108))).map
    (fun c => (c + base) % 2 ^ 32)

/-- The child-offset relation of a stream: the record at `o` names `c` as the
offset of one of its children. -/
def ChildOf (d : List Byte) (base c o : Nat) : Prop := c ∈ childOffsets d base o

/-- A model whose root record, at 368, has one child: the word of its children
array, at 532, is 336, the offset of the root itself relative to the model data. -/
def cycleStream : List Byte :=
  List.flatten [headerBytes [0, 0, 0, 0] 135 0 0 336, nodeBytes 500 1 1 0, le32Bytes 336]

end Model_Witcher

/-! # `Situated::load` of the Neverwinter Nights 2 engine: the orientation

The part of `Situated::load` (`engines/nwn2/situated.cpp`, lines 167-189) that
computes the orientation of a situated object from the fields of its instance. -/

namespace Situated

/-- Modelled from the spec: a `GFFStruct` (`aurora/gfffile.h` is not among the
sources) as far as `Situated::load` reads the orientation from it: its fields
of floating-point type by name, and its fields that are structs, which have
fields of floating-point type only.  The numbers are exact rationals: the
rounding of `float` arithmetic is not modelled. -/
structure GFFFields where
  doubles : List (String × ℚ)

/-- Modelled from the spec: the `GFFStruct` of an instance, with its fields of
floating-point type and its struct fields. -/
structure GFFStruct where
  doubles : List (String × ℚ)
  structs : List (String × GFFFields)

/-- Modelled from the spec: `getDouble(field)`, the value of the field or the
default 0.0 when the struct has no such field. -/
def GFFFields.getDouble (g : GFFFields) (field : String) : ℚ := (g.doubles.lookup field).getD 0

/-- Modelled from the spec: `getDouble(field)` of the struct of an instance. -/
def GFFStruct.getDouble (g : GFFStruct) (field : String) : ℚ := (g.doubles.lookup field).getD 0

/-- Modelled from the spec: `hasField(field)`. -/
def GFFStruct.hasField (g : GFFStruct) (field : String) : Bool :=
  (g.doubles.lookup field).isSome || (g.structs.lookup field).isSome

/-- Modelled from the spec: `getStruct(field)`. -/
def GFFStruct.getStruct (g : GFFStruct) (field : String) : GFFFields :=
  (g.structs.lookup field).getD ⟨[]⟩

/-- The functions of the C math library that `Situated::load` calls, and the
constant `M_PI`. -/
structure Libm where
  asin : ℚ → ℚ
  atan2 : ℚ → ℚ → ℚ
  pi : ℚ

/-- Modelled from the spec: `Common::rad2deg` (`common/maths.h` is not among the
sources), radians to degrees. -/
def rad2deg (m : Libm) (rad : ℚ) : ℚ := rad * 180 / m.pi

/-- Embeds lines 167-189 of `Situated::load`: the orientation passed to
`setOrientation`. -/
def loadOrientation (m : Libm) (gff : GFFStruct) : ℚ × ℚ × ℚ := Id.run do
  let bearing := gff.getDouble "Bearing"
  let mut rotX := 0
  let mut rotY := rad2deg m bearing
  let mut rotZ := 0
  if gff.hasField "Orientation" then
    let o := gff.getStruct "Orientation"
    let oX := o.getDouble "x"
    let oY := o.getDouble "y"
    let oZ := o.getDouble "z"
    let oW := o.getDouble "w"
    rotY := 180 - rad2deg m (m.atan2 (2 * (oX * oY + oZ * oW)) (1 - 2 * (oY * oY + oZ * oZ)))
    rotX := 180 - rad2deg m (m.asin (2 * (oX * oZ - oW * oY)))
    rotZ := rad2deg m (m.atan2 (2 * (oX * oW + oY * oZ)) (1 - 2 * (oZ * oZ + oW * oW)))
  return (rotX, rotY, rotZ)

/-- A math library that is exact where the results are multiples of a right
angle: `asin` at 0 and ±1, `atan2` on the four half-axes, with `atan2(0, x) = π`
for negative `x`; elsewhere it returns 0.  `π` is the `float` nearest to it. -/
def Libm.axes : Libm where
  pi := 13176795 / 4194304
  asin := fun v =>
    if v = 1 then 13176795 / 8388608 else if v = -1 then -(13176795 / 8388608) else 0
  atan2 := fun y x =>
    if y = 0 then (if x < 0 then 13176795 / 4194304 else 0)
    else if x = 0 then (if 0 < y then 13176795 / 8388608 else -(13176795 / 8388608))
    else 0

/-- An instance with the given bearing and an `Orientation` struct with the
fields `x`, `y`, `z`, `w`. -/
def orientedInstance (bearing x y z w : ℚ) : GFFStruct where
  doubles := [("Bearing", bearing)]
  structs := [("Orientation", ⟨[("x", x), ("y", y), ("z", z), ("w", w)]⟩)]

/-- An instance with the given bearing and no `Orientation` struct. -/
def bearingInstance (bearing : ℚ) : GFFStruct where
  doubles := [("Bearing", bearing)]
  structs := []

end Situated

namespace Model_Witcher

/-! # Theorems -/

/-! ## The decoder monad -/

@[simp] theorem pure_run {α : Type} (a : α) (s : St) : (pure a : Parser α) s = .ok a s := rfl

@[simp] theorem bind_run {α β : Type} (m : Parser α) (f : α → Parser β) (s : St) :
    (m >>= f) s = match m s with
      | .ok a s1 => f a s1
      | .fail e s1 => .fail e s1 := rfl

theorem bind_ok_inv {α β : Type} {m : Parser α} {f : α → Parser β} {s s2 : St} {b : β}
    (h : (m >>= f) s = .ok b s2) : ∃ a s1, m s = .ok a s1 ∧ f a s1 = .ok b s2 := by
  simp only [bind_run] at h
  cases hm : m s with
  | ok a s1 => rw [hm] at h; exact ⟨a, s1, rfl, h⟩
  | fail e s1 => rw [hm] at h; cases h

theorem ok_of_isOk (r : Res Unit) (h : r.isOk = true) : r = .ok () r.state := by
  cases r with
  | ok a s => rfl
  | fail e s => cases h

theorem bind_of_ok {α β : Type} {m : Parser α} {f : α → Parser β} {s s1 : St} {a : α}
    (h : m s = .ok a s1) : (m >>= f) s = f a s1 := by
  simp only [bind_run, h]

theorem bind_of_fail {α β : Type} {m : Parser α} {f : α → Parser β} {s s1 : St} {e : Err}
    (h : m s = .fail e s1) : (m >>= f) s = .fail e s1 := by
  simp only [bind_run, h]

/-! ## Which errors a decoder can raise -/

theorem failsIn_elim {α : Type} {P : Err → Prop} {m : Parser α} (h : FailsIn P m)
    {s s1 : St} {e : Err} (hm : m s = .fail e s1) : P e := by
  unfold FailsIn at h; exact h s e s1 hm

theorem failsIn_pure {α : Type} (P : Err → Prop) (a : α) : FailsIn P (pure a : Parser α) := by
  unfold FailsIn; intro s e s1 h; cases h

theorem failsIn_bind {α β : Type} {P : Err → Prop} {m : Parser α} {f : α → Parser β}
    (hm : FailsIn P m) (hf : ∀ a, FailsIn P (f a)) : FailsIn P (m >>= f) := by
  unfold FailsIn at *
  intro s e s1 h
  simp only [bind_run] at h
  cases hms : m s with
  | ok a s2 => rw [hms] at h; exact hf a s2 e s1 h
  | fail e2 s2 => rw [hms] at h; cases h; exact hm s e s1 hms

theorem failsIn_throwErr {α : Type} {P : Err → Prop} {e : Err} (h : P e) :
    FailsIn P (throwErr e : Parser α) := by
  unfold FailsIn; intro s e1 s1 h1; cases h1; exact h

theorem failsIn_fn {α : Type} {P : Err → Prop} (g : St → α) (f : St → St) :
    FailsIn P (fun s => Res.ok (g s) (f s)) := by
  unfold FailsIn; intro s e s1 h; cases h

theorem failsIn_readFixed {α : Type} {P : Err → Prop} (h : P .readError) (n : Nat)
    (value : List Byte → Nat → α) : FailsIn P (readFixed n value) := by
  unfold FailsIn; intro s e s1 h1
  unfold Model_Witcher.readFixed at h1
  split at h1
  · cases h1
  · cases h1; exact h

theorem failsIn_forLoop {P : Err → Prop} {body : Nat → Parser Unit} (h : ∀ i, FailsIn P (body i)) :
    ∀ count i, FailsIn P (forLoop count i body)
  | 0, _ => failsIn_pure P ()
  | count + 1, i => failsIn_bind (h i) (fun _ => failsIn_forLoop h count (i + 1))

theorem failsIn_forEach {α : Type} {P : Err → Prop} {body : α → Parser Unit}
    (h : ∀ a, FailsIn P (body a)) : ∀ l, FailsIn P (forEach l body)
  | [] => failsIn_pure P ()
  | a :: as => failsIn_bind (h a) (fun _ => failsIn_forEach h as)

theorem failsIn_collect {α : Type} {P : Err → Prop} {body : Parser α} (h : FailsIn P body) :
    ∀ count, FailsIn P (collect count body)
  | 0 => failsIn_pure P []
  | count + 1 =>
    failsIn_bind h (fun _ => failsIn_bind (failsIn_collect h count) (fun _ => failsIn_pure P _))

theorem failsIn_modifyNode {P : Err → Prop} (h : P .nullNode) (f : Node → Node) :
    FailsIn P (modifyNode f) := by
  unfold FailsIn; intro s e s1 h1
  unfold Model_Witcher.modifyNode at h1
  split at h1
  · split at h1
    · cases h1
    · cases h1; exact h
  · cases h1; exact h

theorem failsIn_index {α : Type} {P : Err → Prop} (h : P .outOfRange) (v : List α) (i : Nat) :
    FailsIn P (index v i) := by
  unfold Model_Witcher.index
  split
  · exact failsIn_pure P _
  · exact failsIn_throwErr h

theorem failsIn_storeVertex {P : Err → Prop} (h : P .outOfRange) (i : Nat) (v : Float32) :
    FailsIn P (storeVertex i v) := by
  unfold FailsIn; intro s e s1 h1
  unfold Model_Witcher.storeVertex at h1
  split at h1
  · cases h1
  · cases h1; exact h

theorem failsIn_storeVertexTexture {P : Err → Prop} (h : P .outOfRange) (i : Nat) (v : Float32) :
    FailsIn P (storeVertexTexture i v) := by
  unfold FailsIn; intro s e s1 h1
  unfold Model_Witcher.storeVertexTexture at h1
  split at h1
  · cases h1
  · cases h1; exact h

theorem failsIn_storeFace {P : Err → Prop} (h : P .outOfRange) (i : Nat) (v : Nat) :
    FailsIn P (storeFace i v) := by
  unfold FailsIn; intro s e s1 h1
  unfold Model_Witcher.storeFace at h1
  split at h1
  · cases h1
  · cases h1; exact h

theorem failsIn_scanTextureLine {P : Err → Prop} (line : List Byte) :
    FailsIn P (scanTextureLine line) := by
  unfold FailsIn; intro s e s1 h1
  cases h1

theorem failsIn_readUint32LE {P : Err → Prop} (h : P .readError) : FailsIn P readUint32LE :=
  failsIn_readFixed h _ _

theorem failsIn_readUint16LE {P : Err → Prop} (h : P .readError) : FailsIn P readUint16LE :=
  failsIn_readFixed h _ _

theorem failsIn_readUint32BE {P : Err → Prop} (h : P .readError) : FailsIn P readUint32BE :=
  failsIn_readFixed h _ _

theorem failsIn_readIEEEFloatLE {P : Err → Prop} (h : P .readError) :
    FailsIn P readIEEEFloatLE :=
  failsIn_readFixed h _ _

theorem failsIn_readByte {P : Err → Prop} (h : P .readError) : FailsIn P readByte :=
  failsIn_readFixed h _ _

theorem failsIn_readASCII {P : Err → Prop} (h : P .readError) (n : Nat) :
    FailsIn P (readASCII n) :=
  failsIn_readFixed h _ _

theorem failsIn_skip {P : Err → Prop} (n : Nat) : FailsIn P (skip n) := failsIn_fn _ _

theorem failsIn_seek {P : Err → Prop} (n : Nat) : FailsIn P (seek n) := failsIn_fn _ _

theorem failsIn_seekTo {P : Err → Prop} (n : Nat) : FailsIn P (seekTo n) := failsIn_fn _ _

theorem failsIn_getSt {P : Err → Prop} : FailsIn P getSt := failsIn_fn _ _

theorem failsIn_warning {P : Err → Prop} (w : Warning) : FailsIn P (warning w) :=
  failsIn_fn _ _

theorem failsIn_readArray {P : Err → Prop} (h : P .readError) : FailsIn P readArray := by
  unfold Model_Witcher.readArray
  repeat' first
    | apply failsIn_bind
    | intro _
    | exact failsIn_readUint32LE h
    | exact failsIn_warning _
    | exact failsIn_pure _ _
    | split

theorem failsIn_readOffsetArray {P : Err → Prop} (h : P .readError) (start count : Nat) :
    FailsIn P (readOffsetArray start count) := by
  unfold Model_Witcher.readOffsetArray
  repeat' first
    | apply failsIn_bind
    | intro _
    | exact failsIn_seekTo _
    | exact failsIn_collect (failsIn_readUint32LE h) _
    | exact failsIn_pure _ _

theorem failsIn_readFloatsArray {P : Err → Prop} (h : P .readError) (start count : Nat) :
    FailsIn P (readFloatsArray start count) := by
  unfold Model_Witcher.readFloatsArray
  repeat' first
    | apply failsIn_bind
    | intro _
    | exact failsIn_seekTo _
    | exact failsIn_collect (failsIn_readIEEEFloatLE h) _
    | exact failsIn_pure _ _

theorem failsIn_mono {α : Type} {P Q : Err → Prop} {m : Parser α} (h : FailsIn P m)
    (hPQ : ∀ e, P e → Q e) : FailsIn Q m := by
  unfold FailsIn at *
  intro s e s1 hm
  exact hPQ e (h s e s1 hm)

theorem failsIn_readVertex (i : Nat) : FailsIn Err.isLowLevel (readVertex i) := by
  unfold Model_Witcher.readVertex
  repeat' first
    | apply failsIn_bind
    | intro _
    | exact failsIn_readIEEEFloatLE trivial
    | exact failsIn_storeVertex trivial _ _

theorem failsIn_readVertexTexture (i : Nat) : FailsIn Err.isLowLevel (readVertexTexture i) := by
  unfold Model_Witcher.readVertexTexture
  repeat' first
    | apply failsIn_bind
    | intro _
    | exact failsIn_readIEEEFloatLE trivial
    | exact failsIn_storeVertexTexture trivial _ _

theorem failsIn_readFace (i : Nat) : FailsIn Err.isLowLevel (readFace i) := by
  unfold Model_Witcher.readFace
  repeat' first
    | apply failsIn_bind
    | intro _
    | exact failsIn_readUint32LE trivial
    | exact failsIn_skip _
    | exact failsIn_getSt
    | exact failsIn_storeFace trivial _ _
    | exact failsIn_pure _ _
    | split

theorem failsIn_readTextureLine : FailsIn Err.isLowLevel readTextureLine := by
  unfold Model_Witcher.readTextureLine readLineASCII
  repeat' first
    | apply failsIn_bind
    | intro _
    | exact failsIn_skip _
    | exact failsIn_pure _ _
    | exact failsIn_fn _ _

set_option maxHeartbeats 1000000 in
theorem failsIn_readMesh : FailsIn Err.isLowLevel readMesh := by
  unfold Model_Witcher.readMesh
  repeat' first
    | apply failsIn_bind
    | intro _
    | exact failsIn_readUint32LE trivial
    | exact failsIn_readIEEEFloatLE trivial
    | exact failsIn_skip _
    | exact failsIn_modifyNode trivial _
    | exact failsIn_readArray trivial
    | exact failsIn_readASCII trivial _
    | exact failsIn_readUint32BE trivial
    | exact failsIn_seekTo _
    | exact failsIn_seek _
    | exact failsIn_getSt
    | exact failsIn_pure _ _
    | exact failsIn_fn _ _
    | exact failsIn_forLoop failsIn_readVertex _ _
    | exact failsIn_forLoop failsIn_readVertexTexture _ _
    | exact failsIn_forLoop failsIn_readFace _ _
    | exact failsIn_forEach failsIn_scanTextureLine _
    | exact failsIn_collect failsIn_readTextureLine _
    | split

theorem failsIn_processNode (env : Env) : FailsIn Err.isLowLevel (processNode env) := by
  unfold Model_Witcher.processNode processFace corner
  repeat' first
    | apply failsIn_bind
    | intro _
    | exact failsIn_modifyNode trivial _
    | exact failsIn_index trivial _ _
    | exact failsIn_getSt
    | exact failsIn_pure _ _
    | exact failsIn_fn _ _
    | apply failsIn_forLoop
    | split

/-! ## The byte cursor and `readArray` -/


theorem byteAt_lt (d : List Byte) (i : Nat) : byteAt d i < 256 := by
  unfold byteAt; exact (d.getD i 0).isLt

theorem le32At_lt (d : List Byte) (i : Nat) : le32At d i < 2 ^ 32 := by
  have h0 := byteAt_lt d i
  have h1 := byteAt_lt d (i + 1)
  have h2 := byteAt_lt d (i + 2)
  have h3 := byteAt_lt d (i + 3)
  unfold le32At; omega

theorem readFixed_ok {α : Type} (n : Nat) (value : List Byte → Nat → α) (s : St)
    (h : s.pos + n ≤ s.mdb.length) :
    readFixed n value s = .ok (value s.mdb s.pos) { s with pos := s.pos + n } := by
  simp [readFixed, h]

theorem readFixed_inv {α : Type} {n : Nat} {value : List Byte → Nat → α} {s s1 : St} {a : α}
    (h : readFixed n value s = .ok a s1) :
    s.pos + n ≤ s.mdb.length ∧ a = value s.mdb s.pos ∧ s1 = { s with pos := s.pos + n } := by
  unfold readFixed at h
  split at h
  · cases h; exact ⟨by assumption, rfl, rfl⟩
  · cases h

/-- What `readArray` does when twelve bytes are left: the full result. -/
theorem readArray_ok (s : St) (h : s.pos + 12 ≤ s.mdb.length) :
    readArray s = .ok (le32At s.mdb s.pos, le32At s.mdb (s.pos + 4))
      { s with
        pos := s.pos + 12
        log := if le32At s.mdb (s.pos + 4) = le32At s.mdb (s.pos + 8) then s.log
          else s.log ++ [.arrayCount (le32At s.mdb (s.pos + 4)) (le32At s.mdb (s.pos + 8))] } := by
  have h1 : s.pos + 4 ≤ s.mdb.length := by omega
  have h2 : s.pos + 4 + 4 ≤ s.mdb.length := by omega
  have h3 : s.pos + 4 + 4 + 4 ≤ s.mdb.length := by omega
  simp only [readArray, readUint32LE, bind_run, readFixed, h1, h2, h3, if_true]
  by_cases hc : le32At s.mdb (s.pos + 4) = le32At s.mdb (s.pos + 4 + 4)
  · simp [hc, warning]
  · simp [hc, warning]

theorem readArray_fail (s : St) (h : ¬ s.pos + 12 ≤ s.mdb.length) :
    ∃ s1, readArray s = .fail .readError s1 := by
  simp only [readArray, readUint32LE, bind_run, readFixed]
  by_cases h1 : s.pos + 4 ≤ s.mdb.length
  · by_cases h2 : s.pos + 4 + 4 ≤ s.mdb.length
    · have h3 : ¬ s.pos + 4 + 4 + 4 ≤ s.mdb.length := by omega
      simp [h1, h2, h3]
    · simp [h1, h2]
  · simp [h1]

theorem readArray_inv {s s1 : St} {start count : Nat} (h : readArray s = .ok (start, count) s1) :
    s.pos + 12 ≤ s.mdb.length ∧ start = le32At s.mdb s.pos ∧ count = le32At s.mdb (s.pos + 4) ∧
      s1 = { s with
        pos := s.pos + 12
        log := if le32At s.mdb (s.pos + 4) = le32At s.mdb (s.pos + 8) then s.log
          else s.log ++ [.arrayCount (le32At s.mdb (s.pos + 4)) (le32At s.mdb (s.pos + 8))] } := by
  by_cases hl : s.pos + 12 ≤ s.mdb.length
  · rw [readArray_ok s hl] at h
    cases h
    exact ⟨hl, rfl, rfl, rfl⟩
  · obtain ⟨s2, h2⟩ := readArray_fail s hl
    rw [h2] at h; cases h

/-- C2: with twelve bytes left at the cursor, `readArray` returns the first word
as `start` and the second word (the used-count) as `count`, whatever the third
word (the allocated-count) is; it moves the cursor by exactly twelve bytes and
changes nothing else but the warning log, to which it adds one entry when the two
counts differ.  It never fails. -/
theorem readArray_returns_used_count (s : St) (h : s.pos + 12 ≤ s.mdb.length) :
    ∃ s1, readArray s = .ok (le32At s.mdb s.pos, le32At s.mdb (s.pos + 4)) s1 ∧
      s1.pos = s.pos + 12 ∧
      s1 = { s with pos := s.pos + 12, log := s1.log } ∧
      (le32At s.mdb (s.pos + 4) ≠ le32At s.mdb (s.pos + 8) →
        s1.log = s.log ++ [.arrayCount (le32At s.mdb (s.pos + 4)) (le32At s.mdb (s.pos + 8))]) ∧
      (le32At s.mdb (s.pos + 4) = le32At s.mdb (s.pos + 8) → s1.log = s.log) := by
  refine ⟨_, readArray_ok s h, rfl, rfl, ?_, ?_⟩
  · intro hne; simp [hne]
  · intro heq; simp [heq]

theorem readArray_returns_used_count_witness :
    ∃ s1, readArray (St.init arrayStream) = .ok (7, 5) s1 ∧ s1.pos = 12 ∧
      s1.log = [.arrayCount 5 8] := by
  obtain ⟨s1, h1, h2, _, h4, _⟩ := readArray_returns_used_count (St.init arrayStream) (by decide)
  refine ⟨s1, h1, h2, ?_⟩
  exact h4 (by decide)

theorem le16At_lt (d : List Byte) (i : Nat) : le16At d i < 2 ^ 16 := by
  have h0 := byteAt_lt d i
  have h1 := byteAt_lt d (i + 1)
  unfold le16At; omega

/-- The flags test of `readNode`, on a 32-bit word: the mask `0xFFFC0000` selects
a set bit exactly when a bit outside bits 0-17 is set. -/
theorem land_mask_ne_zero_iff (flags : Nat) (h : flags < 2 ^ 32) :
    flags &&& 0xFFFC0000 ≠ 0 ↔ ∃ i, 18 ≤ i ∧ flags.testBit i = true := by
  constructor
  · intro hne
    obtain ⟨i, hi⟩ := Nat.ne_zero_implies_bit_true hne
    rw [Nat.testBit_and, Bool.and_eq_true] at hi
    refine ⟨i, ?_, hi.1⟩
    by_contra hlt
    have hlt2 : i < 18 := by omega
    have hm : Nat.testBit 0xFFFC0000 i = false := by
      interval_cases i <;> rfl
    rw [hm] at hi
    exact Bool.noConfusion hi.2
  · rintro ⟨i, hi18, hbit⟩ h0
    have hi32 : i < 32 := by
      by_contra hge
      have hle : 2 ^ 32 ≤ 2 ^ i := Nat.pow_le_pow_right (by decide) (by omega)
      have := Nat.testBit_lt_two_pow (Nat.lt_of_lt_of_le h hle)
      rw [this] at hbit
      exact Bool.noConfusion hbit
    have hm : Nat.testBit 0xFFFC0000 i = true := by
      interval_cases i <;> rfl
    have hb : (flags &&& 0xFFFC0000).testBit i = true := by
      rw [Nat.testBit_and, hbit, hm]; rfl
    rw [h0] at hb
    simp at hb


/-! ## What a decoder leaves unchanged -/

theorem keeps_elim {α β : Type} {proj : St → β} {m : Parser α} (h : Keeps proj m) (s : St) :
    proj (m s).state = proj s := by
  unfold Keeps at h; exact h s

theorem keeps_ok {α β : Type} {proj : St → β} {m : Parser α} (h : Keeps proj m)
    {s s1 : St} {a : α} (hm : m s = .ok a s1) : proj s1 = proj s := by
  have := keeps_elim h s; rw [hm] at this; exact this

theorem keeps_fail {α β : Type} {proj : St → β} {m : Parser α} (h : Keeps proj m)
    {s s1 : St} {e : Err} (hm : m s = .fail e s1) : proj s1 = proj s := by
  have := keeps_elim h s; rw [hm] at this; exact this

theorem keeps_pure {α β : Type} (proj : St → β) (a : α) : Keeps proj (pure a : Parser α) := by
  unfold Keeps; intro s; rfl

theorem keeps_bind {α β γ : Type} {proj : St → γ} {m : Parser α} {f : α → Parser β}
    (hm : Keeps proj m) (hf : ∀ a, Keeps proj (f a)) : Keeps proj (m >>= f) := by
  unfold Keeps at *
  intro s
  simp only [bind_run]
  have h1 := hm s
  cases hms : m s with
  | ok a s2 =>
    rw [hms] at h1
    simp only []
    rw [hf a s2]; exact h1
  | fail e2 s2 => rw [hms] at h1; exact h1

theorem keeps_throwErr {α β : Type} (proj : St → β) (e : Err) :
    Keeps proj (throwErr e : Parser α) := by
  unfold Keeps; intro s; rfl

theorem keeps_fn {α β : Type} {proj : St → β} (g : St → α) (f : St → St)
    (h : ∀ s, proj (f s) = proj s) : Keeps proj (fun s => Res.ok (g s) (f s)) := by
  unfold Keeps; intro s; exact h s

theorem keeps_readFixed {α β : Type} {proj : St → β}
    (h : ∀ (s : St) (p : Nat), proj { s with pos := p } = proj s) (n : Nat)
    (value : List Byte → Nat → α) : Keeps proj (readFixed n value) := by
  unfold Keeps; intro s
  unfold Model_Witcher.readFixed
  split
  · exact h s _
  · rfl

theorem keeps_forLoop {β : Type} {proj : St → β} {body : Nat → Parser Unit}
    (h : ∀ i, Keeps proj (body i)) : ∀ count i, Keeps proj (forLoop count i body)
  | 0, _ => keeps_pure proj ()
  | count + 1, i => keeps_bind (h i) (fun _ => keeps_forLoop h count (i + 1))

theorem keeps_forEach {α β : Type} {proj : St → β} {body : α → Parser Unit}
    (h : ∀ a, Keeps proj (body a)) : ∀ l, Keeps proj (forEach l body)
  | [] => keeps_pure proj ()
  | a :: as => keeps_bind (h a) (fun _ => keeps_forEach h as)

theorem keeps_collect {α β : Type} {proj : St → β} {body : Parser α} (h : Keeps proj body) :
    ∀ count, Keeps proj (collect count body)
  | 0 => keeps_pure proj []
  | count + 1 =>
    keeps_bind h (fun _ => keeps_bind (keeps_collect h count) (fun _ => keeps_pure proj _))

theorem keeps_index {α β : Type} (proj : St → β) (v : List α) (i : Nat) :
    Keeps proj (index v i) := by
  unfold Model_Witcher.index
  split
  · exact keeps_pure proj _
  · exact keeps_throwErr proj _

theorem map_modify_of_eq {α β : Type} (g : α → β) (f : α → α) (h : ∀ a, g (f a) = g a) :
    ∀ (l : List α) (n : Nat), (l.modify f n).map g = l.map g
  | [], 0 => rfl
  | [], _ + 1 => rfl
  | a :: l, 0 => by simp [List.modify, h]
  | a :: l, n + 1 => by
    simp only [List.modify, List.modifyTailIdx, List.map_cons]
    have := map_modify_of_eq g f h l n
    simp only [List.modify] at this
    rw [this]

theorem frame_modifyNode (f : Node → Node)
    (h : ∀ n, ((f n).parent, (f n).children) = (n.parent, n.children)) :
    Keeps frame (modifyNode f) := by
  unfold Keeps; intro s
  unfold Model_Witcher.modifyNode
  split
  · split
    · simp only [Res.state, frame, skel]
      rw [map_modify_of_eq _ f h]
    · rfl
  · rfl

theorem frame_readFixed {α : Type} (n : Nat) (value : List Byte → Nat → α) :
    Keeps frame (readFixed n value) :=
  @keeps_readFixed α _ frame (fun _ _ => rfl) n value

theorem frame_storeVertex (i : Nat) (v : Float32) : Keeps frame (storeVertex i v) := by
  unfold Keeps; intro s
  unfold Model_Witcher.storeVertex
  split <;> rfl

theorem frame_storeVertexTexture (i : Nat) (v : Float32) :
    Keeps frame (storeVertexTexture i v) := by
  unfold Keeps; intro s
  unfold Model_Witcher.storeVertexTexture
  split <;> rfl

theorem frame_storeFace (i : Nat) (v : Nat) : Keeps frame (storeFace i v) := by
  unfold Keeps; intro s
  unfold Model_Witcher.storeFace
  split <;> rfl

theorem frame_scanTextureLine (line : List Byte) : Keeps frame (scanTextureLine line) := by
  unfold Keeps; intro s
  unfold Model_Witcher.scanTextureLine
  split <;> rfl

theorem frame_readArray : Keeps frame readArray := by
  unfold Model_Witcher.readArray readUint32LE warning
  repeat' first
    | exact frame_readFixed _ _
    | exact keeps_pure _ _
    | exact keeps_fn _ _ (fun _ => rfl)
    | apply keeps_bind
    | intro _
    | split

theorem frame_readOffsetArray (start count : Nat) : Keeps frame (readOffsetArray start count) := by
  unfold Model_Witcher.readOffsetArray readUint32LE seekTo
  repeat' first
    | exact frame_readFixed _ _
    | exact keeps_pure _ _
    | exact keeps_fn _ _ (fun _ => rfl)
    | apply keeps_collect
    | apply keeps_bind
    | intro _

theorem frame_readFloatsArray (start count : Nat) : Keeps frame (readFloatsArray start count) := by
  unfold Model_Witcher.readFloatsArray readIEEEFloatLE seekTo
  repeat' first
    | exact frame_readFixed _ _
    | exact keeps_pure _ _
    | exact keeps_fn _ _ (fun _ => rfl)
    | apply keeps_collect
    | apply keeps_bind
    | intro _

theorem frame_parseNodeControllers (env : Env) (offset count : Nat) (data : List Float32) :
    Keeps frame (parseNodeControllers env offset count data) := by
  unfold Model_Witcher.parseNodeControllers controllerKey readUint32LE readUint16LE readByte
    seekTo skip
  repeat' first
    | exact frame_readFixed _ _
    | exact frame_modifyNode _ (fun _ => rfl)
    | exact keeps_index _ _ _
    | exact keeps_throwErr _ _
    | exact keeps_pure _ _
    | exact keeps_fn _ _ (fun _ => rfl)
    | apply keeps_forLoop
    | apply keeps_bind
    | intro _
    | split

theorem frame_readUint32LE : Keeps frame readUint32LE := frame_readFixed _ _

theorem frame_skip (n : Nat) : Keeps frame (skip n) := keeps_fn _ _ (fun _ => rfl)

theorem frame_seekTo (n : Nat) : Keeps frame (seekTo n) := keeps_fn _ _ (fun _ => rfl)

theorem frame_getSt : Keeps frame getSt := keeps_fn _ _ (fun _ => rfl)

theorem frame_readVertex (i : Nat) : Keeps frame (readVertex i) := by
  unfold Model_Witcher.readVertex readIEEEFloatLE
  repeat' first
    | apply keeps_bind
    | intro _
    | exact frame_readFixed _ _
    | exact frame_storeVertex _ _

theorem frame_readVertexTexture (i : Nat) : Keeps frame (readVertexTexture i) := by
  unfold Model_Witcher.readVertexTexture readIEEEFloatLE
  repeat' first
    | apply keeps_bind
    | intro _
    | exact frame_readFixed _ _
    | exact frame_storeVertexTexture _ _

theorem frame_readFace (i : Nat) : Keeps frame (readFace i) := by
  unfold Model_Witcher.readFace
  repeat' first
    | apply keeps_bind
    | intro _
    | exact frame_readUint32LE
    | exact frame_skip _
    | exact frame_getSt
    | exact frame_storeFace _ _
    | exact keeps_pure _ _
    | split

theorem frame_readTextureLine : Keeps frame readTextureLine := by
  unfold Model_Witcher.readTextureLine readLineASCII
  repeat' first
    | apply keeps_bind
    | intro _
    | exact frame_skip _
    | exact keeps_pure _ _
    | exact keeps_fn _ _ (fun _ => rfl)

set_option maxHeartbeats 2000000 in
theorem frame_readMesh : Keeps frame readMesh := by
  unfold Model_Witcher.readMesh
  repeat' first
    | apply keeps_bind
    | intro _
    | exact frame_readUint32LE
    | exact frame_skip _
    | exact frame_modifyNode _ (fun _ => rfl)
    | exact frame_readArray
    | exact frame_readFixed _ _
    | exact frame_seekTo _
    | exact frame_getSt
    | exact keeps_pure _ _
    | exact keeps_fn _ _ (fun _ => rfl)
    | exact keeps_forLoop frame_readVertex _ _
    | exact keeps_forLoop frame_readVertexTexture _ _
    | exact keeps_forLoop frame_readFace _ _
    | exact keeps_forEach frame_scanTextureLine _
    | exact keeps_collect frame_readTextureLine _
    | split

theorem frame_processNode (env : Env) : Keeps frame (processNode env) := by
  unfold Model_Witcher.processNode processFace corner getSt
  repeat' first
    | exact frame_modifyNode _ (fun _ => rfl)
    | exact keeps_index _ _ _
    | exact keeps_pure _ _
    | exact keeps_fn _ _ (fun _ => rfl)
    | apply keeps_forLoop
    | apply keeps_bind
    | intro _
    | split


/-! ## One step of a successful decode -/

theorem frame_eq {s t : St} (h : frame t = frame s) :
    t.mdb = s.mdb ∧ t.offModelData = s.offModelData ∧ t.node = s.node ∧ skel t = skel s := by
  simp only [frame, Prod.mk.injEq] at h
  exact h

theorem readFixed_step {α : Type} {n : Nat} {value : List Byte → Nat → α} {s s1 : St} {a : α}
    (h : readFixed n value s = .ok a s1) :
    s.pos + n ≤ s.mdb.length ∧ a = value s.mdb s.pos ∧ s1.pos = s.pos + n ∧ frame s1 = frame s := by
  obtain ⟨h1, h2, h3⟩ := readFixed_inv h
  subst h3
  exact ⟨h1, h2, rfl, rfl⟩

theorem skip_step {n : Nat} {s s1 : St} {a : Unit} (h : skip n s = .ok a s1) :
    s1.pos = s.pos + n ∧ frame s1 = frame s := by
  cases h; exact ⟨rfl, rfl⟩

theorem seekTo_step {n : Nat} {s s1 : St} {a : Nat} (h : seekTo n s = .ok a s1) :
    a = s.pos ∧ s1.pos = n ∧ frame s1 = frame s := by
  cases h; exact ⟨rfl, rfl, rfl⟩

theorem getSt_step {s s1 a : St} (h : getSt s = .ok a s1) : a = s ∧ s1 = s := by
  cases h; exact ⟨rfl, rfl⟩

theorem modifyNode_step {f : Node → Node} {s s1 : St} {a : Unit}
    (h : modifyNode f s = .ok a s1)
    (hf : ∀ n, ((f n).parent, (f n).children) = (n.parent, n.children)) :
    s1.pos = s.pos ∧ frame s1 = frame s := by
  refine ⟨?_, keeps_ok (frame_modifyNode f hf) h⟩
  unfold modifyNode at h
  split at h
  · split at h
    · cases h; rfl
    · cases h
  · cases h

theorem readArray_step {s s1 : St} {start count : Nat} (h : readArray s = .ok (start, count) s1) :
    start = le32At s.mdb s.pos ∧ count = le32At s.mdb (s.pos + 4) ∧ s1.pos = s.pos + 12 ∧
      frame s1 = frame s := by
  obtain ⟨_, h2, h3, h4⟩ := readArray_inv h
  subst h4
  exact ⟨h2, h3, rfl, rfl⟩

theorem collect_readFixed {α : Type} (n : Nat) (value : List Byte → Nat → α) :
    ∀ (count : Nat) (s s1 : St) (l : List α), collect count (readFixed n value) s = .ok l s1 →
      l = (List.range count).map (fun i => value s.mdb (s.pos + n * i)) ∧
      s1 = { s with pos := s.pos + n * count }
  | 0, s, s1, l, h => by
    cases h
    exact ⟨rfl, rfl⟩
  | count + 1, s, s1, l, h => by
    unfold collect at h
    obtain ⟨a, t, h1, h⟩ := bind_ok_inv h
    obtain ⟨as, t2, h2, h⟩ := bind_ok_inv h
    simp only [pure_run, Res.ok.injEq] at h
    obtain ⟨hl0, hs0⟩ := h
    subst hl0 hs0
    obtain ⟨_, ha, ht⟩ := readFixed_inv h1
    obtain ⟨hl, ht2⟩ := collect_readFixed n value count t t2 as h2
    subst ht
    subst ht2
    subst ha
    subst hl
    constructor
    · rw [List.range_succ_eq_map, List.map_cons, List.map_map]
      simp only [Nat.mul_zero, Nat.add_zero, List.cons.injEq, true_and]
      apply List.map_congr_left
      intro i _
      simp only [Function.comp, Nat.mul_succ]
      congr 1
      omega
    · simp only [Nat.mul_succ]
      congr 1
      omega

theorem readOffsetArray_inv {start count : Nat} {s s1 : St} {l : List Nat}
    (h : readOffsetArray start count s = .ok l s1) :
    l = (List.range count).map (fun i => le32At s.mdb (start + 4 * i)) ∧ s1 = s := by
  unfold readOffsetArray at h
  obtain ⟨p, t1, h1, h⟩ := bind_ok_inv h
  obtain ⟨l1, t2, h2, h⟩ := bind_ok_inv h
  obtain ⟨p2, t3, h3, h⟩ := bind_ok_inv h
  cases h; cases h1; cases h3
  obtain ⟨hl, ht⟩ := collect_readFixed 4 le32At count _ _ _ h2
  subst ht
  exact ⟨hl, rfl⟩

theorem readFloatsArray_inv {start count : Nat} {s s1 : St} {l : List Float32}
    (h : readFloatsArray start count s = .ok l s1) :
    l = (List.range count).map (fun i => le32At s.mdb (start + 4 * i)) ∧ s1 = s := by
  unfold readFloatsArray at h
  obtain ⟨p, t1, h1, h⟩ := bind_ok_inv h
  obtain ⟨l1, t2, h2, h⟩ := bind_ok_inv h
  obtain ⟨p2, t3, h3, h⟩ := bind_ok_inv h
  cases h; cases h1; cases h3
  obtain ⟨hl, ht⟩ := collect_readFixed 4 le32At count _ _ _ h2
  subst ht
  exact ⟨hl, rfl⟩

theorem parseNodeControllers_step {env : Env} {offset count : Nat} {data : List Float32}
    {s s1 : St} {a : Unit} (h : parseNodeControllers env offset count data s = .ok a s1) :
    s1.pos = s.pos ∧ frame s1 = frame s := by
  refine ⟨?_, keeps_ok (frame_parseNodeControllers env offset count data) h⟩
  unfold parseNodeControllers at h
  obtain ⟨p, t1, h1, h⟩ := bind_ok_inv h
  obtain ⟨_, t2, h2, h⟩ := bind_ok_inv h
  obtain ⟨p2, t3, h3, h⟩ := bind_ok_inv h
  cases h; cases h1; cases h3
  rfl

theorem map_modify_comm {α β : Type} (g : α → β) (f : α → α) (f2 : β → β)
    (h : ∀ a, g (f a) = f2 (g a)) :
    ∀ (l : List α) (n : Nat), (l.modify f n).map g = (l.map g).modify f2 n
  | [], 0 => rfl
  | [], _ + 1 => rfl
  | a :: l, 0 => by simp [List.modify, h]
  | a :: l, n + 1 => by
    simp only [List.modify, List.modifyTailIdx, List.map_cons]
    have := map_modify_comm g f f2 h l n
    simp only [List.modify] at this
    rw [this]

theorem newNode_step (parent : Option Nat) (s : St) :
    ∃ s1, newNode parent s = .ok () s1 ∧ s1.pos = s.pos ∧ s1.mdb = s.mdb ∧
      s1.offModelData = s.offModelData ∧ s1.node = some s.heap.length ∧
      skel s1 = (skel s).link parent ∧ s1.heap.length = s.heap.length + 1 := by
  unfold newNode
  cases parent with
  | none =>
    refine ⟨_, rfl, rfl, rfl, rfl, rfl, ?_, ?_⟩
    · simp [skel, Skel.link, Node.new]
    · simp
  | some p =>
    refine ⟨_, rfl, rfl, rfl, rfl, rfl, ?_, ?_⟩
    · simp only [skel, Skel.link, List.length_map]
      rw [map_modify_comm (fun n : Node => (n.parent, n.children)) _
        (fun x => (x.1, x.2 ++ [s.heap.length])) (fun _ => rfl)]
      simp [Node.new]
    · simp


/-! ## The node record -/



/-- What a successful `readNodeFields` has read, and where it stands: the
children offsets are the `childrenCount` words at `childrenStart + offModelData`
(in `uint32` arithmetic), the flags are the word at `offset + 160`, the cursor is
at `offset + 164`, the node is allocated and linked, and nothing else of the
shape has changed. -/
theorem readNodeFields_inv {env : Env} {offset : Nat} {parent : Option Nat} {s s1 : St}
    {children : List Nat} {flags : Nat}
    (h : readNodeFields env offset parent s = .ok (children, flags) s1) :
    children = (List.range (le32At s.mdb (offset + 108))).map
        (fun i => le32At s.mdb ((le32At s.mdb (offset + 104) + s.offModelData) % 2 ^ 32 + 4 * i)) ∧
      flags = le32At s.mdb (offset + 160) ∧
      s1.pos = offset + 164 ∧ s1.mdb = s.mdb ∧ s1.offModelData = s.offModelData ∧
      s1.node = some s.heap.length ∧ skel s1 = (skel s).link parent := by
  unfold readNodeFields at h
  obtain ⟨_, t1, h1, h⟩ := bind_ok_inv h
  obtain ⟨_, t2, h2, h⟩ := bind_ok_inv h
  obtain ⟨_, t3, h3, h⟩ := bind_ok_inv h
  obtain ⟨_, t4, h4, h⟩ := bind_ok_inv h
  obtain ⟨_, t5, h5, h⟩ := bind_ok_inv h
  obtain ⟨name, t6, h6, h⟩ := bind_ok_inv h
  obtain ⟨_, t7, h7, h⟩ := bind_ok_inv h
  obtain ⟨_, t8, h8, h⟩ := bind_ok_inv h
  obtain ⟨⟨childrenStart, childrenCount⟩, t9, h9, h⟩ := bind_ok_inv h
  dsimp only at h
  obtain ⟨ctx, t10, h10, h⟩ := bind_ok_inv h
  obtain ⟨children1, t11, h11, h⟩ := bind_ok_inv h
  obtain ⟨⟨controllerKeyStart, controllerKeyCount⟩, t12, h12, h⟩ := bind_ok_inv h
  dsimp only at h
  obtain ⟨⟨controllerDataStart, controllerDataCount⟩, t13, h13, h⟩ := bind_ok_inv h
  dsimp only at h
  obtain ⟨controllerData, t14, h14, h⟩ := bind_ok_inv h
  obtain ⟨_, t15, h15, h⟩ := bind_ok_inv h
  obtain ⟨_, t16, h16, h⟩ := bind_ok_inv h
  obtain ⟨flags1, t17, h17, h⟩ := bind_ok_inv h
  simp only [pure_run, Res.ok.injEq, Prod.mk.injEq] at h
  obtain ⟨⟨hc, hf⟩, hs⟩ := h
  subst hc hf hs
  -- the steps, one by one
  obtain ⟨_, p1, f1⟩ := seekTo_step h1
  obtain ⟨u, hu, p2, m2, o2, n2, k2, _⟩ := newNode_step parent t1
  rw [hu] at h2
  cases h2
  obtain ⟨p3, f3⟩ := skip_step h3
  obtain ⟨_, _, p4, f4⟩ := readFixed_step h4
  obtain ⟨_, _, p5, f5⟩ := readFixed_step h5
  obtain ⟨_, _, p6, f6⟩ := readFixed_step h6
  obtain ⟨p7, f7⟩ := modifyNode_step h7 (fun _ => rfl)
  obtain ⟨p8, f8⟩ := skip_step h8
  obtain ⟨a9, c9, p9, f9⟩ := readArray_step h9
  obtain ⟨hctx, e10⟩ := getSt_step h10
  obtain ⟨l11, e11⟩ := readOffsetArray_inv h11
  obtain ⟨_, _, p12, f12⟩ := readArray_step h12
  obtain ⟨_, _, p13, f13⟩ := readArray_step h13
  obtain ⟨_, e14⟩ := readFloatsArray_inv h14
  obtain ⟨p15, f15⟩ := parseNodeControllers_step h15
  obtain ⟨p16, f16⟩ := skip_step h16
  obtain ⟨_, v17, p17, f17⟩ := readFixed_step h17
  subst e10 e11 e14 hctx
  -- the frame of every intermediate state is that of `u`
  have g3 := f3
  have g4 := f4.trans g3
  have g5 := f5.trans g4
  have g6 := f6.trans g5
  have g7 := f7.trans g6
  have g8 := f8.trans g7
  have g9 := f9.trans g8
  have g12 := f12.trans g9
  have g13 := f13.trans g12
  have g15 := f15.trans g13
  have g16 := f16.trans g15
  have g17 := f17.trans g16
  obtain ⟨mdb1, -, -, -⟩ := frame_eq f1
  obtain ⟨mdb8, -, -, -⟩ := frame_eq g8
  obtain ⟨mdb9, off9, -, -⟩ := frame_eq g9
  obtain ⟨mdb16, -, -, -⟩ := frame_eq g16
  obtain ⟨mdb17, off17, node17, skel17⟩ := frame_eq g17
  have hpos8 : t8.pos = offset + 104 := by omega
  have hpos16 : t16.pos = offset + 160 := by omega
  refine ⟨?_, ?_, ?_, ?_, ?_, ?_, ?_⟩
  · rw [l11, c9, a9, mdb9, mdb8, m2, mdb1, hpos8, off9, o2]
    have : t1.offModelData = s.offModelData := by cases h1; rfl
    rw [this]
  · rw [v17, mdb16, m2, mdb1, hpos16]
  · omega
  · rw [mdb17, m2, mdb1]
  · rw [off17, o2]; cases h1; rfl
  · rw [node17, n2]; cases h1; rfl
  · rw [skel17, k2]; cases h1; rfl


theorem readNodePayload_fails (env : Env) (flags : Nat) :
    FailsIn (fun e => e.isLowLevel ∨ (e = .unknownNodeFlags flags ∧ flags &&& 0xFFFC0000 ≠ 0))
      (readNodePayload env flags) := by
  unfold readNodePayload
  apply failsIn_bind
  · split
    · rename_i hbad
      apply failsIn_throwErr
      right
      exact ⟨rfl, by simpa using hbad⟩
    · exact failsIn_pure _ _
  intro _
  apply failsIn_bind
  · split
    · exact failsIn_mono failsIn_readMesh (fun e he => Or.inl he)
    · exact failsIn_pure _ _
  intro _
  apply failsIn_bind
  · exact failsIn_mono (failsIn_processNode env) (fun e he => Or.inl he)
  intro _
  apply failsIn_bind
  · exact failsIn_getSt
  intro ctx
  split
  · exact failsIn_throwErr (Or.inl trivial)
  · apply failsIn_bind
    · exact failsIn_fn _ _
    · intro _; exact failsIn_pure _ _

theorem readNodePayload_bad (env : Env) (flags : Nat) (s : St)
    (h : flags &&& 0xFFFC0000 ≠ 0) :
    readNodePayload env flags s = .fail (.unknownNodeFlags flags) s := by
  unfold readNodePayload
  simp [h, throwErr]

/-- C1: once the fields before the flags word of a node record have been read,
the decode of the record fails with the unknown-node-flags error if and only if
the flags word has a bit outside bits 0-17 set, which is the test
`flags & 0xFFFC0000 != 0`; then `readNode` fails with that error carrying the
flags, in the state reached by reading the flags word.  In particular the value
`0x00040000` fails.  A flags word within bits 0-17 is accepted: `readNode`
continues with the payloads and the children. -/
theorem readNode_unknown_flags (env : Env) (fuel offset : Nat) (parent : Option Nat) (s s1 : St)
    (children : List Nat) (flags : Nat)
    (h : readNodeFields env offset parent s = .ok (children, flags) s1) :
    ((∃ f s2, readNodePayload env flags s1 = .fail (.unknownNodeFlags f) s2) ↔
        ∃ i, 18 ≤ i ∧ flags.testBit i = true) ∧
      ((∃ i, 18 ≤ i ∧ flags.testBit i = true) ↔ flags &&& 0xFFFC0000 ≠ 0) ∧
      ((∃ i, 18 ≤ i ∧ flags.testBit i = true) →
        readNode env (fuel + 1) offset parent s = .fail (.unknownNodeFlags flags) s1) ∧
      (flags = 0x00040000 →
        readNode env (fuel + 1) offset parent s = .fail (.unknownNodeFlags 0x00040000) s1) ∧
      ((∀ i, 18 ≤ i → flags.testBit i = false) →
        readNode env (fuel + 1) offset parent s =
          (do
            let parent ← readNodePayload env flags
            forEach children (fun child => do
              let ctx ← getSt
              readNode env fuel ((child + ctx.offModelData) % 2 ^ 32) (some parent))) s1) := by
  have hlt : flags < 2 ^ 32 := by
    rw [(readNodeFields_inv h).2.1]
    exact le32At_lt _ _
  have hiff := land_mask_ne_zero_iff flags hlt
  have hrun : readNode env (fuel + 1) offset parent s =
      (do
        let parent ← readNodePayload env flags
        forEach children (fun child => do
          let ctx ← getSt
          readNode env fuel ((child + ctx.offModelData) % 2 ^ 32) (some parent))) s1 := by
    conv => lhs; unfold readNode
    rw [bind_of_ok h]
  have hbad : flags &&& 0xFFFC0000 ≠ 0 →
      readNode env (fuel + 1) offset parent s = .fail (.unknownNodeFlags flags) s1 := by
    intro hb
    rw [hrun, bind_of_fail (readNodePayload_bad env flags s1 hb)]
  refine ⟨⟨?_, ?_⟩, hiff.symm, fun hb => hbad (hiff.mpr hb), ?_, fun _ => hrun⟩
  · rintro ⟨f, s2, hf⟩
    rcases failsIn_elim (readNodePayload_fails env flags) hf with hl | ⟨_, hb⟩
    · exact absurd hl (by simp [Err.isLowLevel])
    · exact hiff.mp hb
  · intro hb
    exact ⟨flags, s1, readNodePayload_bad env flags s1 (hiff.mpr hb)⟩
  · intro h18
    subst h18
    exact hbad (by decide)

theorem readNode_unknown_flags_witness :
    readNode Env.plain 1 0 none (St.at32 bit18Stream) =
      .fail (.unknownNodeFlags 0x00040000)
        (readNodeFields Env.plain 0 none (St.at32 bit18Stream)).state :=
  (readNode_unknown_flags Env.plain 0 0 none (St.at32 bit18Stream)
    (readNodeFields Env.plain 0 none (St.at32 bit18Stream)).state [] 0x00040000
    (by decide!)).2.2.2.1 rfl


/-! ## `load`: the signature check -/

theorem failsIn_controllerKey (env : Env) (data : List Float32) :
    FailsIn (fun e => ¬ e.isSignature) (controllerKey env data) := by
  unfold controllerKey
  repeat' first
    | apply failsIn_bind
    | intro _
    | exact failsIn_readUint32LE (fun h => h)
    | exact failsIn_readUint16LE (fun h => h)
    | exact failsIn_readByte (fun h => h)
    | exact failsIn_skip _
    | exact failsIn_modifyNode (fun h => h) _
    | exact failsIn_index (fun h => h) _ _
    | exact failsIn_throwErr (fun h => h)
    | exact failsIn_pure _ _
    | split

theorem failsIn_parseNodeControllers (env : Env) (offset count : Nat) (data : List Float32) :
    FailsIn (fun e => ¬ e.isSignature) (parseNodeControllers env offset count data) := by
  unfold parseNodeControllers
  repeat' first
    | apply failsIn_bind
    | intro _
    | exact failsIn_seekTo _
    | exact failsIn_forLoop (fun _ => failsIn_controllerKey env data) _ _
    | exact failsIn_pure _ _

theorem failsIn_newNode {P : Err → Prop} (parent : Option Nat) : FailsIn P (newNode parent) := by
  unfold FailsIn newNode
  intro s e s1 h
  split at h <;> cases h

theorem failsIn_readNodeFields (env : Env) (offset : Nat) (parent : Option Nat) :
    FailsIn (fun e => ¬ e.isSignature) (readNodeFields env offset parent) := by
  unfold readNodeFields
  repeat' first
    | exact failsIn_readArray (fun h => h)
    | exact failsIn_readOffsetArray (fun h => h) _ _
    | exact failsIn_readFloatsArray (fun h => h) _ _
    | exact failsIn_parseNodeControllers _ _ _ _
    | apply failsIn_bind
    | intro _
    | exact failsIn_readUint32LE (fun h => h)
    | exact failsIn_readASCII (fun h => h) _
    | exact failsIn_skip _
    | exact failsIn_seekTo _
    | exact failsIn_getSt
    | exact failsIn_newNode _
    | exact failsIn_modifyNode (fun h => h) _
    | exact failsIn_pure _ _

theorem failsIn_readNode (env : Env) :
    ∀ (fuel offset : Nat) (parent : Option Nat),
      FailsIn (fun e => ¬ e.isSignature) (readNode env fuel offset parent)
  | 0, _, _ => failsIn_throwErr (fun h => h)
  | fuel + 1, offset, parent => by
    unfold readNode
    apply failsIn_bind (failsIn_readNodeFields env offset parent)
    rintro ⟨children, flags⟩
    apply failsIn_bind
    · apply failsIn_mono (readNodePayload_fails env flags)
      intro e he hs
      rcases he with hl | ⟨rfl, _⟩
      · cases e <;> simp [Err.isLowLevel, Err.isSignature] at hl hs
      · exact hs
    intro p
    apply failsIn_forEach
    intro child
    apply failsIn_bind failsIn_getSt
    intro ctx
    exact failsIn_readNode env fuel _ _

theorem failsIn_readSegments : FailsIn (fun e => ¬ e.isSignature) readSegments := by
  unfold readSegments
  repeat' first
    | apply failsIn_bind
    | intro _
    | exact failsIn_readUint32LE (fun h => h)
    | exact failsIn_readUint16LE (fun h => h)
    | exact failsIn_skip _
    | exact failsIn_seek _
    | exact failsIn_pure _ _
    | exact failsIn_fn _ _
    | split

theorem failsIn_readHeader : FailsIn (fun e => ¬ e.isSignature) readHeader := by
  unfold readHeader
  repeat' first
    | exact failsIn_readSegments
    | apply failsIn_bind
    | intro _
    | exact failsIn_readUint32LE (fun h => h)
    | exact failsIn_readIEEEFloatLE (fun h => h)
    | exact failsIn_readByte (fun h => h)
    | exact failsIn_readASCII (fun h => h) _
    | exact failsIn_skip _
    | exact failsIn_warning _
    | exact failsIn_pure _ _
    | exact failsIn_fn _ _

theorem checkSignature_nil : checkSignature (St.init []) = .fail .readError (St.init []) := rfl

theorem checkSignature_zero (rest : List Byte) :
    checkSignature (St.init (0 :: rest)) = .ok () { St.init (0 :: rest) with pos := 1 } := by
  simp [checkSignature, readByte, readFixed, St.init, byteAt]

theorem checkSignature_nonzero (b : Byte) (rest : List Byte) (hb : b ≠ 0) :
    checkSignature (St.init (b :: rest)) =
      .fail (if beginsWith (cString (b :: rest)) (ascii "binarycompositemodel") then .compositeModel
        else .notMDB) { St.init (b :: rest) with pos := signatureEnd (b :: rest) } := by
  have hb2 : ¬ (b.val = 0) := fun h => hb (Fin.ext h)
  by_cases hsig : beginsWith (cString (b :: rest)) (ascii "binarycompositemodel") = true
  · simp [checkSignature, readByte, readFixed, St.init, byteAt, seek, readASCIIz, throwErr,
      signatureEnd, hb2, hsig]
  · simp [checkSignature, readByte, readFixed, St.init, byteAt, seek, readASCIIz, throwErr,
      signatureEnd, hb2, hsig]

theorem load_eq (env : Env) (fuel : Nat) (s : St) :
    load env fuel s = match loadBody env fuel s with
      | .ok a s1 => .ok a (destroyContext s1)
      | .fail e s1 => .fail e (destroyContext s1) := rfl


theorem loadBody_rest_fails (env : Env) (fuel : Nat) :
    FailsIn (fun e => ¬ e.isSignature)
      (do
        let offsetRootNode ← readHeader
        let ctx ← getSt
        readNode env fuel ((offsetRootNode + ctx.offModelData) % 2 ^ 32) none) :=
  failsIn_bind failsIn_readHeader (fun _ =>
    failsIn_bind failsIn_getSt (fun _ => failsIn_readNode env fuel _ _))

theorem load_fail_inv {env : Env} {fuel : Nat} {s s1 : St} {e : Err}
    (h : load env fuel s = .fail e s1) : ∃ s2, loadBody env fuel s = .fail e s2 := by
  rw [load_eq] at h
  cases hb : loadBody env fuel s with
  | ok a s2 => rw [hb] at h; cases h
  | fail e2 s2 => rw [hb] at h; cases h; exact ⟨s2, rfl⟩

theorem load_nonzero (env : Env) (fuel : Nat) (b : Byte) (rest : List Byte) (hb : b ≠ 0) :
    load env fuel (St.init (b :: rest)) =
      .fail (if beginsWith (cString (b :: rest)) (ascii "binarycompositemodel") then .compositeModel
        else .notMDB) { St.init (b :: rest) with pos := signatureEnd (b :: rest) } := by
  rw [load_eq]
  unfold loadBody
  rw [bind_of_fail (checkSignature_nonzero b rest hb)]
  rfl

/-- C3: `load` fails at the signature check exactly when the stream has a first
byte and it is not zero.  It then fails with the unsupported-container error when
the leading text of the stream (the bytes before the first NUL) begins with
"binarycompositemodel", and with the not-an-MDB error otherwise; in both cases
nothing but the cursor has changed: no header field is set and no node exists. -/
theorem load_signature_check (env : Env) (fuel : Nat) (bytes : List Byte) :
    (∀ b rest, bytes = b :: rest → b ≠ 0 →
      beginsWith (cString bytes) (ascii "binarycompositemodel") = true →
      load env fuel (St.init bytes) =
        .fail .compositeModel { St.init bytes with pos := signatureEnd bytes }) ∧
    (∀ b rest, bytes = b :: rest → b ≠ 0 →
      beginsWith (cString bytes) (ascii "binarycompositemodel") = false →
      load env fuel (St.init bytes) =
        .fail .notMDB { St.init bytes with pos := signatureEnd bytes }) ∧
    ((∃ e s1, load env fuel (St.init bytes) = .fail e s1 ∧ e.isSignature) ↔
      ∃ b rest, bytes = b :: rest ∧ b ≠ 0) := by
  refine ⟨?_, ?_, ?_, ?_⟩
  · rintro b rest rfl hb hsig
    rw [load_nonzero env fuel b rest hb, hsig]
    rfl
  · rintro b rest rfl hb hsig
    rw [load_nonzero env fuel b rest hb, hsig]
    rfl
  · rintro ⟨e, s1, h, hsig⟩
    obtain ⟨s2, h2⟩ := load_fail_inv h
    cases bytes with
    | nil =>
      unfold loadBody at h2
      rw [bind_of_fail checkSignature_nil] at h2
      cases h2
      exact absurd hsig (fun h => h)
    | cons b rest =>
      by_cases hb : b = 0
      · subst hb
        unfold loadBody at h2
        rw [bind_of_ok (checkSignature_zero rest)] at h2
        exact absurd hsig (failsIn_elim (loadBody_rest_fails env fuel) h2)
      · exact ⟨b, rest, rfl, hb⟩
  · rintro ⟨b, rest, rfl, hb⟩
    refine ⟨_, _, load_nonzero env fuel b rest hb, ?_⟩
    split <;> trivial

theorem load_signature_check_witness :
    load Env.plain 0 (St.init compositeStream) =
      .fail .compositeModel { St.init compositeStream with pos := 21 } :=
  (load_signature_check Env.plain 0 compositeStream).1 98 compositeStream.tail (by decide!) (by decide)
    (by decide!)

/-! ## `load`: the header -/

theorem readSegments_ok (s : St) (h : 32 ≤ s.mdb.length) :
    readSegments s = .ok (le16At s.mdb 4, le32At s.mdb 16) (segmentsState s) := by
  have h6 : 6 ≤ s.mdb.length := by omega
  have h20 : 20 ≤ s.mdb.length := by omega
  have h28 : 28 ≤ s.mdb.length := by omega
  by_cases hv : le16At s.mdb 4 = 133
  · simp [readSegments, seek, skip, readUint16LE, readUint32LE, readFixed, segmentsState, hv, h6,
      h20, h28, h]
  · simp [readSegments, seek, skip, readUint16LE, readUint32LE, readFixed, segmentsState, hv, h6,
      h20, h28, h]

theorem readHeader_ok (s : St) (h : 352 ≤ s.mdb.length) :
    readHeader s = .ok (le32At s.mdb 104) (headerState s) := by
  have h104 : 104 ≤ s.mdb.length := by omega
  have h108 : 108 ≤ s.mdb.length := by omega
  have h141 : 141 ≤ s.mdb.length := by omega
  have h196 : 196 ≤ s.mdb.length := by omega
  have h200 : 200 ≤ s.mdb.length := by omega
  have h280 : 280 ≤ s.mdb.length := by omega
  have h288 : 288 ≤ s.mdb.length := by omega
  unfold readHeader
  rw [bind_of_ok (readSegments_ok s (by omega))]
  simp [seek, skip, readUint32LE, readByte, readIEEEFloatLE,
      readASCII, readFixed, warning, headerState, segmentsState, h104, h108, h141, h196,
      h200, h280, h288, h]

/-- C4: when the first 32 bytes of the stream can be read, the header parser sets
the model-data base to 32 and, with `a` and `b` the words at bytes 24 and 28: for
version 133 the raw-data base to `(a + 32) mod 2^32`, the raw-data size to `b`,
the texture-data base to 32 and the texture-data size to 0; for every other
version the raw-data base to 32, the raw-data size to 0, the texture-data base to
`(a + 32) mod 2^32` and the texture-data size to `b`. -/
theorem readSegments_bases (s : St) (h : 32 ≤ s.mdb.length) :
    ∃ s1, readSegments s = .ok (le16At s.mdb 4, le32At s.mdb 16) s1 ∧
      s1.fileVersion = le16At s.mdb 4 ∧ s1.offModelData = 32 ∧
      (le16At s.mdb 4 = 133 →
        s1.offRawData = (le32At s.mdb 24 + 32) % 2 ^ 32 ∧ s1.rawDataSize = le32At s.mdb 28 ∧
        s1.offTexData = 32 ∧ s1.texDatasize = 0) ∧
      (le16At s.mdb 4 ≠ 133 →
        s1.offRawData = 32 ∧ s1.rawDataSize = 0 ∧
        s1.offTexData = (le32At s.mdb 24 + 32) % 2 ^ 32 ∧ s1.texDatasize = le32At s.mdb 28) := by
  refine ⟨_, readSegments_ok s h, rfl, rfl, ?_, ?_⟩
  · intro hv
    simp [segmentsState, hv]
  · intro hv
    simp [segmentsState, hv]

theorem readSegments_bases_witness :
    (∃ s1, readSegments (St.init legacyHeader) = .ok (133, 0) s1 ∧
      s1.offRawData = 16 ∧ s1.rawDataSize = 7 ∧ s1.offTexData = 32 ∧ s1.texDatasize = 0) ∧
    (∃ s1, readSegments (St.init recentHeader) = .ok (135, 0) s1 ∧
      s1.offRawData = 32 ∧ s1.rawDataSize = 0 ∧ s1.offTexData = 16 ∧ s1.texDatasize = 7) := by
  constructor
  · obtain ⟨s1, h1, _, _, h4, _⟩ := readSegments_bases (St.init legacyHeader) (by decide!)
    have hv : le16At (St.init legacyHeader).mdb 4 = 133 := by decide!
    have ha : le32At (St.init legacyHeader).mdb 24 = 0xFFFFFFF0 := by decide!
    have hb : le32At (St.init legacyHeader).mdb 28 = 7 := by decide!
    have hm : le32At (St.init legacyHeader).mdb 16 = 0 := by decide!
    obtain ⟨r1, r2, r3, r4⟩ := h4 hv
    rw [hv, hm] at h1
    rw [ha] at r1
    rw [hb] at r2
    exact ⟨s1, h1, r1, r2, r3, r4⟩
  · obtain ⟨s1, h1, _, _, _, h5⟩ := readSegments_bases (St.init recentHeader) (by decide!)
    have hv : le16At (St.init recentHeader).mdb 4 = 135 := by decide!
    have ha : le32At (St.init recentHeader).mdb 24 = 0xFFFFFFF0 := by decide!
    have hb : le32At (St.init recentHeader).mdb 28 = 7 := by decide!
    have hm : le32At (St.init recentHeader).mdb 16 = 0 := by decide!
    obtain ⟨r1, r2, r3, r4⟩ := h5 (by rw [hv]; decide)
    rw [hv, hm] at h1
    rw [ha] at r3
    rw [hb] at r4
    exact ⟨s1, h1, r1, r2, r3, r4⟩


theorem checkSignature_ok (bytes : List Byte) (h : 1 ≤ bytes.length) (h0 : byteAt bytes 0 = 0) :
    checkSignature (St.init bytes) = .ok () { St.init bytes with pos := 1 } := by
  cases bytes with
  | nil => simp at h
  | cons b rest =>
    have hb : b = 0 := by
      apply Fin.ext
      simpa [byteAt] using h0
    subst hb
    exact checkSignature_zero rest

theorem loadBody_ok_header (env : Env) (fuel : Nat) (bytes : List Byte)
    (h : 352 ≤ bytes.length) (h0 : byteAt bytes 0 = 0) :
    loadBody env fuel (St.init bytes) =
      readNode env fuel ((le32At bytes 104 + 32) % 2 ^ 32) none (headerState (St.init bytes)) := by
  unfold loadBody
  rw [bind_of_ok (checkSignature_ok bytes (by omega) h0)]
  rw [bind_of_ok (readHeader_ok _ h)]
  rfl

/-- C5: on a stream whose first byte is zero and whose header is complete (352
bytes suffice, so 368 do), the header parser succeeds; it takes the version from
the 16-bit word at bytes 4-5, the root offset field `r` from the word at bytes
104-107 and the scale from the float at bytes 284-287, ends with the cursor at
368 and no node allocated, and `load` then decodes the root node at
`(r + 32) mod 2^32` without a parent. -/
theorem load_reads_header (env : Env) (fuel : Nat) (bytes : List Byte)
    (h : 352 ≤ bytes.length) (h0 : byteAt bytes 0 = 0) :
    ∃ s1, (do checkSignature; readHeader) (St.init bytes) = .ok (le32At bytes 104) s1 ∧
      s1.fileVersion = le16At bytes 4 ∧ s1.scale = le32At bytes 284 ∧ s1.offModelData = 32 ∧
      s1.pos = 368 ∧ s1.heap = [] ∧ s1.rootNodes = [] ∧ s1.nodes = [] ∧ s1.node = none ∧
      loadBody env fuel (St.init bytes) =
        readNode env fuel ((le32At bytes 104 + 32) % 2 ^ 32) none s1 := by
  refine ⟨headerState (St.init bytes), ?_, rfl, rfl, rfl, rfl, rfl, rfl, rfl, rfl,
    loadBody_ok_header env fuel bytes h h0⟩
  rw [bind_of_ok (checkSignature_ok bytes (by omega) h0)]
  exact readHeader_ok _ h

theorem load_reads_header_witness :
    ∃ s1, (do checkSignature; readHeader) (St.init legacyHeader) = .ok 336 s1 ∧
      s1.fileVersion = 133 ∧ s1.pos = 368 ∧
      loadBody Env.plain 1 (St.init legacyHeader) = readNode Env.plain 1 368 none s1 := by
  obtain ⟨s1, h1, h2, _, _, h5, _, _, _, _, h10⟩ :=
    load_reads_header Env.plain 1 legacyHeader (by decide!) (by decide!)
  have hr : le32At legacyHeader 104 = 336 := by decide!
  have hv : le16At legacyHeader 4 = 133 := by decide!
  rw [hr] at h1 h10
  rw [hv] at h2
  exact ⟨s1, h1, h2, h5, h10⟩

/-! ## The shape of a decoded model -/

theorem skel_links_length (s : St) : (skel s).links.length = s.heap.length := by
  simp [skel]

/-- What a successful `readNodePayload` does to the shape: it registers
`ctx.node`, returns it, and resets `ctx.node`. -/
theorem readNodePayload_inv {env : Env} {flags n : Nat} {s s1 : St} {p : Nat}
    (h : readNodePayload env flags s = .ok p s1) (hn : s.node = some n) :
    p = n ∧ skel s1 = (skel s).register n ∧ s1.node = none ∧ s1.mdb = s.mdb ∧
      s1.offModelData = s.offModelData := by
  unfold readNodePayload at h
  obtain ⟨_, t1, h1, h⟩ := bind_ok_inv h
  obtain ⟨_, t2, h2, h⟩ := bind_ok_inv h
  obtain ⟨_, t3, h3, h⟩ := bind_ok_inv h
  obtain ⟨ctx, t4, h4, h⟩ := bind_ok_inv h
  have f1 : frame t1 = frame s := by
    split at h1
    · cases h1
    · cases h1; rfl
  have f2 : frame t2 = frame t1 := by
    split at h2
    · exact keeps_ok frame_readMesh h2
    · cases h2; rfl
  have f3 : frame t3 = frame t2 := keeps_ok (frame_processNode env) h3
  obtain ⟨hctx, e4⟩ := getSt_step h4
  obtain ⟨m3, o3, n3, k3⟩ := frame_eq (f3.trans (f2.trans f1))
  rw [hctx, n3, hn, e4] at h
  dsimp only at h
  obtain ⟨_, t5, h5, h⟩ := bind_ok_inv h
  cases h5
  cases h
  refine ⟨rfl, ?_, rfl, m3, o3⟩
  simp only [skel, Skel.register] at k3 ⊢
  simp only [Skel.mk.injEq] at k3 ⊢
  exact ⟨k3.1, k3.2.1, by rw [k3.2.2]⟩

theorem grow_forEach (env : Env) (fuel n : Nat)
    (ih : ∀ (offset : Nat) (s s1 : St), readNode env fuel offset (some n) s = .ok () s1 →
      Grow (.call (some n)) (skel s) (skel s1)) :
    ∀ (children : List Nat) (s s1 : St),
      forEach children (fun child => do
        let ctx ← getSt
        readNode env fuel ((child + ctx.offModelData) % 2 ^ 32) (some n)) s = .ok () s1 →
      Grow (.loop n) (skel s) (skel s1)
  | [], s, s1, h => by
    cases h
    exact Grow.done _ _
  | child :: children, s, s1, h => by
    unfold forEach at h
    obtain ⟨_, t1, h1, h⟩ := bind_ok_inv h
    obtain ⟨ctx, t0, h0, h1⟩ := bind_ok_inv h1
    obtain ⟨hctx, e0⟩ := getSt_step h0
    rw [hctx, e0] at h1
    exact Grow.next _ _ _ _ (ih _ _ _ h1) (grow_forEach env fuel n ih children t1 s1 h)

/-- A successful `readNode` changes the shape as `Grow` describes. -/
theorem readNode_grow (env : Env) :
    ∀ (fuel offset : Nat) (parent : Option Nat) (s s1 : St),
      readNode env fuel offset parent s = .ok () s1 → Grow (.call parent) (skel s) (skel s1)
  | 0, _, _, _, _, h => by cases h
  | fuel + 1, offset, parent, s, s1, h => by
    unfold readNode at h
    obtain ⟨⟨children, flags⟩, t1, h1, h⟩ := bind_ok_inv h
    dsimp only at h
    obtain ⟨p, t2, h2, h⟩ := bind_ok_inv h
    obtain ⟨-, -, -, -, -, n1, k1⟩ := readNodeFields_inv h1
    obtain ⟨rfl, k2, -, -, -⟩ := readNodePayload_inv h2 n1
    apply Grow.call
    have hl := grow_forEach env fuel s.heap.length
      (fun o u u1 hu => readNode_grow env fuel o (some s.heap.length) u u1 hu)
      children t2 s1 h
    rw [k2, k1] at hl
    rw [skel_links_length]
    have hstep : (skel s).step parent = ((skel s).link parent).register s.heap.length := by
      simp [Skel.step, skel_links_length]
    rw [hstep]
    exact hl


theorem readSegments_fail (s : St) (hl : ¬ 32 ≤ s.mdb.length) :
    ∃ e s1, readSegments s = .fail e s1 := by
  by_cases hv : le16At s.mdb 4 = 133 <;>
  by_cases h6 : 6 ≤ s.mdb.length <;>
  by_cases h20 : 20 ≤ s.mdb.length <;>
  by_cases h28 : 28 ≤ s.mdb.length <;>
  simp [readSegments, seek, skip, readUint16LE, readUint32LE, readFixed, hv, h6, h20, h28, hl]

theorem readSegments_inv {s s1 : St} {a : Nat × Nat} (h : readSegments s = .ok a s1) :
    s1 = segmentsState s := by
  by_cases hl : 32 ≤ s.mdb.length
  · rw [readSegments_ok s hl] at h
    cases h
    rfl
  · obtain ⟨e, s2, h2⟩ := readSegments_fail s hl
    rw [h2] at h
    cases h

theorem frame_readHeader_rest {s s1 : St} {r : Nat} (h : readHeader s = .ok r s1) :
    frame s1 = frame (segmentsState s) := by
  unfold readHeader at h
  obtain ⟨⟨v, m⟩, t1, h1, h⟩ := bind_ok_inv h
  dsimp only at h
  rw [← readSegments_inv h1]
  revert h
  generalize t1 = t
  intro h
  refine keeps_ok ?_ h
  repeat' first
    | apply keeps_bind
    | intro _
    | exact frame_readUint32LE
    | exact frame_readFixed _ _
    | exact frame_skip _
    | exact keeps_pure _ _
    | exact keeps_fn _ _ (fun _ => rfl)

theorem frame_checkSignature : Keeps frame checkSignature := by
  unfold checkSignature
  repeat' first
    | apply keeps_bind
    | intro _
    | exact frame_readFixed _ _
    | exact keeps_throwErr _ _
    | exact keeps_pure _ _
    | exact keeps_fn _ _ (fun _ => rfl)
    | split

/-- The shape without any node. -/
theorem skel_init (bytes : List Byte) : skel (St.init bytes) = ⟨[], [], []⟩ := rfl

theorem skel_destroyContext (s : St) : skel (destroyContext s) = skel s := by
  unfold destroyContext
  split <;> rfl

theorem heap_destroyContext (s : St) : (destroyContext s).heap = s.heap := by
  unfold destroyContext
  split <;> rfl

/-- A successful `load` is a successful `readNode` without parent, started with
the empty model and the model-data base 32. -/
theorem load_ok_inv {env : Env} {fuel : Nat} {bytes : List Byte} {s1 : St}
    (h : load env fuel (St.init bytes) = .ok () s1) :
    ∃ offset t t1, readNode env fuel offset none t = .ok () t1 ∧
      t.mdb = bytes ∧ t.offModelData = 32 ∧ t.node = none ∧ skel t = ⟨[], [], []⟩ ∧
      skel s1 = skel t1 ∧ s1.heap = t1.heap ∧ s1.rootNodes = t1.rootNodes ∧
      s1.nodes = t1.nodes := by
  rw [load_eq] at h
  cases hb : loadBody env fuel (St.init bytes) with
  | fail e s2 => rw [hb] at h; cases h
  | ok a s2 =>
    rw [hb] at h
    cases h
    unfold loadBody at hb
    obtain ⟨_, u1, h1, hb⟩ := bind_ok_inv hb
    obtain ⟨r, u2, h2, hb⟩ := bind_ok_inv hb
    obtain ⟨ctx, u3, h3, hb⟩ := bind_ok_inv hb
    obtain ⟨-, e3⟩ := getSt_step h3
    rw [e3] at hb
    have f1 := keeps_ok frame_checkSignature h1
    have f2 := frame_readHeader_rest h2
    obtain ⟨m1, -, n1, k1⟩ := frame_eq f1
    obtain ⟨m2, o2, n2, k2⟩ := frame_eq f2
    refine ⟨_, u2, s2, hb, ?_, ?_, ?_, ?_, skel_destroyContext s2, heap_destroyContext s2, ?_, ?_⟩
    · rw [m2]; exact m1
    · rw [o2]; rfl
    · rw [n2]; exact n1
    · rw [k2]; exact k1
    · unfold destroyContext; split <;> rfl
    · unfold destroyContext; split <;> rfl

/-! ## Counting nodes and edges -/

theorem link_links_length (sk : Skel) (parent : Option Nat) :
    (sk.link parent).links.length = sk.links.length + 1 := by
  unfold Skel.link
  cases parent <;> simp

theorem step_links (sk : Skel) (parent : Option Nat) :
    (sk.step parent).links = (sk.link parent).links := rfl

theorem step_nodes (sk : Skel) (parent : Option Nat) :
    (sk.step parent).nodes = sk.nodes ++ [sk.links.length] := by
  unfold Skel.step Skel.register Skel.link
  cases parent <;> rfl

theorem step_rootNodes (sk : Skel) (parent : Option Nat) :
    (sk.step parent).rootNodes =
      sk.rootNodes ++ (match parent with | none => [sk.links.length] | some _ => []) := by
  unfold Skel.step Skel.register Skel.link
  cases parent <;> simp

/-- A run of `readNode` allocates at least one node; a loop allocates none or more. -/
theorem grow_length {ph : Phase} {sk sk1 : Skel} (h : Grow ph sk sk1) :
    sk.links.length ≤ sk1.links.length ∧
      (∀ parent, ph = .call parent → sk.links.length < sk1.links.length) := by
  induction h with
  | call sk sk1 parent _ ih =>
    rw [step_links, link_links_length] at ih
    exact ⟨by omega, fun _ _ => by omega⟩
  | done sk n => exact ⟨Nat.le_refl _, fun _ h => by cases h⟩
  | next sk sk1 sk2 n _ _ ih1 ih2 => exact ⟨by omega, fun _ h => by cases h⟩

theorem step_valid (sk : Skel) (parent : Option Nat) :
    (Phase.loop sk.links.length).Valid (sk.step parent) := by
  show sk.links.length < (sk.step parent).links.length
  rw [step_links, link_links_length]
  omega

theorem sum_map_modify {α : Type} (g : α → Nat) (f : α → α) (hf : ∀ a, g (f a) = g a + 1) :
    ∀ (l : List α) (p : Nat), p < l.length → ((l.modify f p).map g).sum = (l.map g).sum + 1
  | [], _, h => by simp at h
  | a :: l, 0, _ => by
    simp only [List.modify, List.modifyTailIdx, List.modifyHead, List.map_cons, List.sum_cons, hf]
    omega
  | a :: l, p + 1, h => by
    have ih := sum_map_modify g f hf l p (by simpa using h)
    simp only [List.modify] at ih
    simp only [List.modify, List.modifyTailIdx, List.map_cons, List.sum_cons, ih]
    omega

theorem step_childCount (sk : Skel) (parent : Option Nat)
    (hv : (Phase.call parent).Valid sk) :
    (sk.step parent).childCount + (sk.step parent).rootNodes.length =
      sk.childCount + sk.rootNodes.length + 1 := by
  cases parent with
  | none =>
    simp [Skel.step, Skel.register, Skel.link, Skel.childCount]
    omega
  | some p =>
    have hp : p < sk.links.length := hv p rfl
    simp only [Skel.step, Skel.register, Skel.link, Skel.childCount]
    rw [sum_map_modify (fun x : Option Nat × List Nat => x.2.length) _ (by intro a; simp) _ p
      (by simp; omega)]
    simp
    omega

/-- The count kept by every successful run: as many nodes are registered as
entries are added to the root list and the children lists. -/
theorem grow_count {ph : Phase} {sk sk1 : Skel} (h : Grow ph sk sk1) :
    ph.Valid sk →
      sk1.nodes.length + (sk.childCount + sk.rootNodes.length) =
        sk.nodes.length + (sk1.childCount + sk1.rootNodes.length) := by
  induction h with
  | call sk sk1 parent _ ih =>
    intro hv
    have h1 := ih (step_valid sk parent)
    have h2 := step_childCount sk parent hv
    rw [step_nodes] at h1
    simp only [List.length_append, List.length_singleton] at h1
    omega
  | done sk n => intro _; rfl
  | next sk sk1 sk2 n hc _ ih1 ih2 =>
    intro hv
    have hv1 : n < sk.links.length := hv
    have h1 := ih1 (fun p hp => by cases hp; exact hv1)
    have hlen := (grow_length hc).1
    have h2 := ih2 (show n < sk1.links.length by omega)
    omega

/-- The root list after a run: a call without parent adds the new node, every
other call and every loop leaves it alone. -/
theorem grow_rootNodes {ph : Phase} {sk sk1 : Skel} (h : Grow ph sk sk1) :
    sk1.rootNodes = sk.rootNodes ++ ph.newRoots sk.links.length := by
  induction h with
  | call sk sk1 parent _ ih =>
    rw [ih, step_rootNodes]
    cases parent <;> simp [Phase.newRoots]
  | done sk n => simp [Phase.newRoots]
  | next sk sk1 sk2 n _ _ ih1 ih2 =>
    rw [ih2, ih1]
    simp [Phase.newRoots]

/-- C6: in every successfully decoded model the flat node list has as many
entries as one (the single root) plus the lengths of all children lists
together; the root list has exactly one entry. -/
theorem load_node_count (env : Env) (fuel : Nat) (bytes : List Byte) (s1 : St)
    (h : load env fuel (St.init bytes) = .ok () s1) :
    s1.nodes.length = 1 + (s1.heap.map (fun nd => nd.children.length)).sum ∧
      s1.rootNodes.length = 1 ∧
      s1.nodes.length = s1.rootNodes.length + (s1.heap.map (fun nd => nd.children.length)).sum := by
  obtain ⟨offset, t, t1, hr, -, -, -, k0, k1, hh, hroot, hnodes⟩ := load_ok_inv h
  have hg := readNode_grow env fuel offset none t t1 hr
  have hc := grow_count hg (fun p hp => by cases hp)
  have hrn := grow_rootNodes hg
  rw [k0] at hc hrn
  simp only [Skel.childCount, List.map_nil, List.sum_nil, List.length_nil, Nat.add_zero,
    Nat.zero_add, List.nil_append, Phase.newRoots] at hc hrn
  have hsum : (s1.heap.map (fun nd => nd.children.length)).sum =
      ((skel t1).links.map (fun x => x.2.length)).sum := by
    rw [hh]
    simp only [skel, List.map_map]
    rfl
  have hn : s1.nodes.length = (skel t1).nodes.length := by rw [hnodes]; rfl
  have hr1 : s1.rootNodes.length = (skel t1).rootNodes.length := by rw [hroot]; rfl
  rw [hrn] at hc hr1
  simp only [List.length_singleton] at hc hr1
  rw [hsum, hn, hr1]
  omega

/-- The decode of `familyStream`, evaluated: `load` returns, and the model has the
nodes 0, 1, 2, of which 1 and 2 are the children of 0. -/
theorem familyStream_loaded :
    (load Env.plain 3 (St.init familyStream)).isOk = true ∧
      (load Env.plain 3 (St.init familyStream)).state.nodes = [0, 1, 2] ∧
      (load Env.plain 3 (St.init familyStream)).state.heap.length = 3 ∧
      childrenOf (load Env.plain 3 (St.init familyStream)).state 0 = [1, 2] := by
  decide!

theorem load_node_count_witness :
    (load Env.plain 3 (St.init familyStream)).state.nodes.length =
      1 + ((load Env.plain 3 (St.init familyStream)).state.heap.map
        (fun nd => nd.children.length)).sum ∧
    (load Env.plain 3 (St.init familyStream)).state.nodes.length = 3 :=
  ⟨(load_node_count Env.plain 3 familyStream (load Env.plain 3 (St.init familyStream)).state
    (ok_of_isOk _ familyStream_loaded.1)).1, by rw [familyStream_loaded.2.1]; rfl⟩

/-! ## Parents and children -/

theorem parentOf_skel (s : St) (n : Nat) : (skel s).parentOf n = parentOf s n := by
  unfold Skel.parentOf parentOf skel
  simp only [List.getElem?_map]
  cases s.heap[n]? <;> rfl

theorem childrenOf_skel (s : St) (p : Nat) : (skel s).childrenOf p = childrenOf s p := by
  unfold Skel.childrenOf childrenOf skel
  simp only [List.getElem?_map]
  cases s.heap[p]? <;> rfl

theorem parentOf_lt_length {sk : Skel} {n p : Nat} (h : sk.parentOf n = some p) :
    n < sk.links.length := by
  unfold Skel.parentOf at h
  by_contra hn
  rw [List.getElem?_eq_none (by omega)] at h
  cases h

theorem childrenOf_of_ge {sk : Skel} {p : Nat} (h : sk.links.length ≤ p) :
    sk.childrenOf p = [] := by
  unfold Skel.childrenOf
  rw [List.getElem?_eq_none h]

/-- The links of a shape after a node is linked, entry by entry. -/
theorem link_get (sk : Skel) (parent : Option Nat) (hv : (Phase.call parent).Valid sk) (i : Nat) :
    (sk.link parent).links[i]? =
      if i < sk.links.length then
        (sk.links[i]?).map (fun x => (x.1, if parent = some i then x.2 ++ [sk.links.length] else x.2))
      else if i = sk.links.length then some (parent, [])
      else none := by
  cases parent with
  | none =>
    simp only [Skel.link]
    by_cases hi : i < sk.links.length
    · rw [List.getElem?_append_left hi]
      simp [hi]
    · rw [List.getElem?_append_right (by omega)]
      by_cases hi2 : i = sk.links.length
      · simp [hi2]
      · have : i - sk.links.length ≠ 0 := by omega
        cases hm : i - sk.links.length with
        | zero => omega
        | succ k => simp [hi, hi2]
  | some p =>
    have hp : p < sk.links.length := hv p rfl
    simp only [Skel.link, List.getElem?_modify]
    by_cases hi : i < sk.links.length
    · rw [List.getElem?_append_left hi]
      simp only [hi, if_true]
      cases sk.links[i]? with
      | none => rfl
      | some x =>
        by_cases hpi : p = i
        · simp [hpi]
        · simp [hpi]
    · rw [List.getElem?_append_right (by omega)]
      have hpi : p ≠ i := by omega
      by_cases hi2 : i = sk.links.length
      · simp [hi2, hpi]
        omega
      · cases hm : i - sk.links.length with
        | zero => omega
        | succ k => simp [hi, hi2]

theorem step_parentOf (sk : Skel) (parent : Option Nat) (hv : (Phase.call parent).Valid sk)
    (i : Nat) :
    (sk.step parent).parentOf i =
      if i < sk.links.length then sk.parentOf i
      else if i = sk.links.length then parent else none := by
  unfold Skel.parentOf
  rw [step_links, link_get sk parent hv i]
  by_cases hi : i < sk.links.length
  · simp only [hi, if_true]
    cases sk.links[i]? <;> rfl
  · simp only [hi, if_false]
    by_cases hi2 : i = sk.links.length
    · simp [hi2]
    · simp [hi2]

theorem step_childrenOf (sk : Skel) (parent : Option Nat) (hv : (Phase.call parent).Valid sk)
    (i : Nat) :
    (sk.step parent).childrenOf i =
      if parent = some i then sk.childrenOf i ++ [sk.links.length] else sk.childrenOf i := by
  unfold Skel.childrenOf
  rw [step_links, link_get sk parent hv i]
  by_cases hi : i < sk.links.length
  · simp only [hi, if_true]
    rw [List.getElem?_eq_getElem hi]
    by_cases hp : parent = some i
    · simp [hp]
    · simp [hp]
  · have hp : parent ≠ some i := by
      intro hp
      exact hi (hv i hp)
    rw [List.getElem?_eq_none (by omega)]
    simp only [hi, if_false, hp]
    by_cases hi2 : i = sk.links.length
    · simp [hi2]
    · simp [hi2]


theorem not_mem_childrenOf_of_ge {sk : Skel} (hinv : TreeInv sk) {p n : Nat}
    (hn : sk.links.length ≤ n) : n ∉ sk.childrenOf p := by
  intro hmem
  have := parentOf_lt_length ((hinv.child_iff p n).mp hmem)
  omega

/-- Decoding one node record keeps the forest invariant. -/
theorem step_treeInv (sk : Skel) (parent : Option Nat) (hinv : TreeInv sk)
    (hv : (Phase.call parent).Valid sk) : TreeInv (sk.step parent) := by
  constructor
  · intro p n
    rw [step_childrenOf sk parent hv, step_parentOf sk parent hv]
    by_cases hn : n < sk.links.length
    · simp only [hn, if_true]
      by_cases hp : parent = some p
      · simp only [hp, if_true, List.mem_append, List.mem_singleton]
        rw [hinv.child_iff p n]
        constructor
        · rintro (h | h)
          · exact h
          · omega
        · exact Or.inl
      · simp only [hp, if_false]
        exact hinv.child_iff p n
    · simp only [hn, if_false]
      have hnot : n ∉ sk.childrenOf p := not_mem_childrenOf_of_ge hinv (by omega)
      by_cases hn2 : n = sk.links.length
      · simp only [hn2, if_true]
        by_cases hp : parent = some p
        · simp [hp]
        · simp only [hp, if_false, iff_false]
          rw [← hn2]; exact hnot
      · simp only [hn2, if_false]
        by_cases hp : parent = some p
        · simp [hp, hnot, hn2]
        · simp [hp, hnot]
  · intro p
    rw [step_childrenOf sk parent hv]
    by_cases hp : parent = some p
    · simp only [hp, if_true]
      rw [List.nodup_append]
      refine ⟨hinv.nodup p, List.nodup_singleton _, ?_⟩
      intro a ha hb
      rw [List.mem_singleton] at hb
      subst hb
      exact not_mem_childrenOf_of_ge hinv (Nat.le_refl _) ha
    · simp only [hp, if_false]
      exact hinv.nodup p
  · intro r hr
    rw [step_rootNodes, List.mem_append] at hr
    rw [step_links, link_links_length, step_parentOf sk parent hv]
    rcases hr with hr | hr
    · obtain ⟨h1, h2⟩ := hinv.roots r hr
      simp only [h1, if_true]
      exact ⟨by omega, h2⟩
    · cases parent with
      | none =>
        simp only [List.mem_singleton] at hr
        subst hr
        simp
      | some p => simp at hr
  · intro n p
    rw [step_parentOf sk parent hv]
    by_cases hn : n < sk.links.length
    · simp only [hn, if_true]
      exact hinv.parent_lt n p
    · simp only [hn, if_false]
      by_cases hn2 : n = sk.links.length
      · simp only [hn2, if_true]
        intro hp
        exact hv p hp
      · simp [hn2]

/-- Every successful run keeps the forest invariant. -/
theorem grow_treeInv {ph : Phase} {sk sk1 : Skel} (h : Grow ph sk sk1) :
    ph.Valid sk → TreeInv sk → TreeInv sk1 := by
  induction h with
  | call sk sk1 parent _ ih =>
    intro hv hinv
    exact ih (step_valid sk parent) (step_treeInv sk parent hinv hv)
  | done sk n => intro _ hinv; exact hinv
  | next sk sk1 sk2 n hc _ ih1 ih2 =>
    intro hv hinv
    have hv1 : n < sk.links.length := hv
    have hlen := (grow_length hc).1
    exact ih2 (show n < sk1.links.length by omega)
      (ih1 (fun p hp => by cases hp; exact hv1) hinv)

theorem treeInv_empty : TreeInv ⟨[], [], []⟩ := by
  constructor
  · intro p n; simp [Skel.childrenOf, Skel.parentOf]
  · intro p; simp [Skel.childrenOf]
  · intro r hr; simp at hr
  · intro n p h; simp [Skel.parentOf] at h

/-- C8: in every successfully decoded model, for all nodes `p` and `n`: `n` is in
the children list of `p` exactly when the parent back-reference of `n` is `p`;
`n` occurs there at most once; `n` is in the children lists of at most one
parent; and a node of the root list has no parent and is in no children list. -/
theorem load_parent_children (env : Env) (fuel : Nat) (bytes : List Byte) (s1 : St)
    (h : load env fuel (St.init bytes) = .ok () s1) (p n : Nat) :
    (n ∈ childrenOf s1 p ↔ parentOf s1 n = some p) ∧
      (childrenOf s1 p).count n ≤ 1 ∧
      (∀ p2, n ∈ childrenOf s1 p → n ∈ childrenOf s1 p2 → p = p2) ∧
      (n ∈ s1.rootNodes → parentOf s1 n = none ∧ ∀ q, n ∉ childrenOf s1 q) := by
  obtain ⟨offset, t, t1, hr, -, -, -, k0, k1, -, hroot, -⟩ := load_ok_inv h
  have hg := readNode_grow env fuel offset none t t1 hr
  have hinv : TreeInv (skel s1) := by
    rw [k1]
    refine grow_treeInv hg (fun q hq => by cases hq) ?_
    rw [k0]
    exact treeInv_empty
  have hiff : ∀ q m, m ∈ childrenOf s1 q ↔ parentOf s1 m = some q := by
    intro q m
    rw [← childrenOf_skel, ← parentOf_skel]
    exact hinv.child_iff q m
  refine ⟨hiff p n, ?_, ?_, ?_⟩
  · rw [← childrenOf_skel]
    exact List.nodup_iff_count_le_one.mp (hinv.nodup p) n
  · intro p2 h1 h2
    have e1 := (hiff p n).mp h1
    have e2 := (hiff p2 n).mp h2
    rw [e1] at e2
    exact Option.some.inj e2
  · intro hn
    have hr1 := (hinv.roots n hn).2
    rw [parentOf_skel] at hr1
    refine ⟨hr1, ?_⟩
    intro q hq
    have := (hiff q n).mp hq
    rw [hr1] at this
    cases this

theorem load_parent_children_witness :
    (2 ∈ childrenOf (load Env.plain 3 (St.init familyStream)).state 0 ↔
      parentOf (load Env.plain 3 (St.init familyStream)).state 2 = some 0) ∧
    childrenOf (load Env.plain 3 (St.init familyStream)).state 0 = [1, 2] :=
  ⟨(load_parent_children Env.plain 3 familyStream (load Env.plain 3 (St.init familyStream)).state
    (ok_of_isOk _ familyStream_loaded.1) 0 2).1, familyStream_loaded.2.2.2⟩

/-! ## The flat node list is the pre-order traversal -/

theorem flatMap_congr_mem {α β : Type} (f g : α → List β) :
    ∀ (l : List α), (∀ a, a ∈ l → f a = g a) → l.flatMap f = l.flatMap g
  | [], _ => rfl
  | a :: l, h => by
    rw [List.flatMap_cons, List.flatMap_cons, h a (List.mem_cons_self _ _),
      flatMap_congr_mem f g l (fun b hb => h b (List.mem_cons_of_mem _ hb))]

/-- The traversal of a subtree depends only on the children lists of the nodes
it visits. -/
theorem preorder_congr (sk sk1 : Skel) :
    ∀ (fuel n : Nat), (∀ i, i ∈ sk.preorder fuel n → sk1.childrenOf i = sk.childrenOf i) →
      sk1.preorder fuel n = sk.preorder fuel n
  | 0, _, _ => rfl
  | fuel + 1, n, h => by
    have hn : sk1.childrenOf n = sk.childrenOf n := h n (by simp [Skel.preorder])
    simp only [Skel.preorder, hn]
    congr 1
    apply flatMap_congr_mem
    intro c hc
    apply preorder_congr sk sk1 fuel c
    intro i hi
    apply h
    simp only [Skel.preorder, List.mem_cons, List.mem_flatMap]
    exact Or.inr ⟨c, hc, hi⟩

theorem range_split (a b c : Nat) (h1 : a ≤ b) (h2 : b ≤ c) :
    List.range' a (b - a) ++ List.range' b (c - b) = List.range' a (c - a) := by
  obtain ⟨k, rfl⟩ := Nat.exists_eq_add_of_le h1
  obtain ⟨j, rfl⟩ := Nat.exists_eq_add_of_le h2
  have e1 : a + k - a = k := by omega
  have e2 : a + k + j - (a + k) = j := by omega
  have e3 : a + k + j - a = j + k := by omega
  rw [e1, e2, e3, List.range'_append_1]

/-- What a successful run adds, in terms of the traversal: with `cs` the entries
appended to the children list of the active node, the other children lists of the
nodes that existed are unchanged, the nodes registered are the nodes allocated,
in order, and they are the traversals of `cs`, one after the other. -/
theorem grow_preorder {ph : Phase} {sk sk1 : Skel} (h : Grow ph sk sk1) :
    ph.Valid sk →
      ∃ cs : List Nat,
        (∀ i, i < sk.links.length →
          sk1.childrenOf i = sk.childrenOf i ++ (if ph.active = some i then cs else [])) ∧
        sk1.nodes = sk.nodes ++ List.range' sk.links.length (sk1.links.length - sk.links.length) ∧
        (∀ fuel, sk1.links.length - sk.links.length ≤ fuel →
          cs.flatMap (sk1.preorder fuel) =
            List.range' sk.links.length (sk1.links.length - sk.links.length)) ∧
        (∀ parent, ph = .call parent → cs = [sk.links.length]) := by
  induction h with
  | call sk sk1 parent hg ih =>
    intro hv
    obtain ⟨cs, hA, hB, hC, -⟩ := ih (step_valid sk parent)
    have hlen := (grow_length hg).1
    rw [step_links, link_links_length] at hA hB hC hlen
    have hpar : parent ≠ some sk.links.length := by
      intro hp
      have := hv _ hp
      omega
    have hself : sk1.childrenOf sk.links.length = cs := by
      rw [hA sk.links.length (by omega), step_childrenOf sk parent hv]
      simp [Phase.active, hpar, childrenOf_of_ge (Nat.le_refl sk.links.length)]
    refine ⟨[sk.links.length], ?_, ?_, ?_, fun _ _ => rfl⟩
    · intro i hi
      rw [hA i (by omega), step_childrenOf sk parent hv]
      have hne : ¬ (some sk.links.length = some i) := by
        intro he
        have := Option.some.inj he
        omega
      simp only [Phase.active, hne, if_false, List.append_nil]
      by_cases hp : parent = some i
      · simp [hp]
      · simp [hp]
    · rw [hB, step_nodes, List.append_assoc]
      congr 1
      have : sk1.links.length - sk.links.length = (sk1.links.length - (sk.links.length + 1)) + 1 := by
        omega
      rw [this, List.range'_succ]
      rfl
    · intro fuel hf
      cases fuel with
      | zero => omega
      | succ g =>
        simp only [List.flatMap_cons, List.flatMap_nil, List.append_nil, Skel.preorder]
        rw [hself, hC g (by omega)]
        have : sk1.links.length - sk.links.length = (sk1.links.length - (sk.links.length + 1)) + 1 := by
          omega
        rw [this, List.range'_succ]
  | done sk n =>
    intro _
    refine ⟨[], ?_, ?_, ?_, fun _ h => by cases h⟩
    · intro i _; simp
    · simp
    · intro fuel _; simp
  | next sk sk1 sk2 n hc hl ih1 ih2 =>
    intro hv
    have hv1 : n < sk.links.length := hv
    have hvc : (Phase.call (some n)).Valid sk := fun p hp => by cases hp; exact hv1
    have hlen1 := (grow_length hc).2 _ rfl
    have hlen2 := (grow_length hl).1
    obtain ⟨cs1, hA1, hB1, hC1, hD1⟩ := ih1 hvc
    obtain ⟨cs2, hA2, hB2, hC2, -⟩ := ih2 (show n < sk1.links.length by omega)
    have hcs1 := hD1 _ rfl
    subst hcs1
    refine ⟨sk.links.length :: cs2, ?_, ?_, ?_, fun _ h => by cases h⟩
    · intro i hi
      rw [hA2 i (by omega), hA1 i hi]
      by_cases hni : some n = some i
      · simp [Phase.active, hni]
      · simp [Phase.active, hni]
    · rw [hB2, hB1, List.append_assoc, range_split _ _ _ (by omega) hlen2]
    · intro fuel hf
      have hloc : sk2.preorder fuel sk.links.length = sk1.preorder fuel sk.links.length := by
        apply preorder_congr
        intro i hi
        have hpre := hC1 fuel (by omega)
        simp only [List.flatMap_cons, List.flatMap_nil, List.append_nil] at hpre
        rw [hpre, List.mem_range'_1] at hi
        rw [hA2 i (by omega)]
        have hne : ¬ (some n = some i) := by
          intro he
          have := Option.some.inj he
          omega
        simp [Phase.active, hne]
      have hpre := hC1 fuel (by omega)
      simp only [List.flatMap_cons, List.flatMap_nil, List.append_nil] at hpre
      rw [List.flatMap_cons, hloc, hpre, hC2 fuel (by omega),
        range_split _ _ _ (by omega) hlen2]


/-- C7: in every successfully decoded model the flat node list is exactly the
pre-order traversal of the tree under the root list (followed to any depth that
is at least the number of nodes, so to the end): a node, then the subtrees of its
children in list order, one after the other.  It lists every allocated node
exactly once, in the order of allocation, and a parent stands before its
children. -/
theorem load_nodes_preorder (env : Env) (fuel : Nat) (bytes : List Byte) (s1 : St)
    (h : load env fuel (St.init bytes) = .ok () s1) :
    (∀ depth, s1.heap.length ≤ depth → s1.nodes = s1.rootNodes.flatMap (preorder s1 depth)) ∧
      (∀ depth n, preorder s1 (depth + 1) n = n :: (childrenOf s1 n).flatMap (preorder s1 depth)) ∧
      s1.nodes = List.range s1.heap.length ∧
      s1.nodes.Nodup ∧
      (∀ n p, parentOf s1 n = some p → p < n) := by
  obtain ⟨offset, t, t1, hr, -, -, -, k0, k1, -, -, -⟩ := load_ok_inv h
  have hg := readNode_grow env fuel offset none t t1 hr
  rw [← k1, k0] at hg
  have hinv : TreeInv (skel s1) := grow_treeInv hg (fun q hq => by cases hq) treeInv_empty
  obtain ⟨cs, -, hB, hC, hD⟩ := grow_preorder hg (fun q hq => by cases hq)
  have hcs := hD none rfl
  subst hcs
  have hroot := grow_rootNodes hg
  simp only [List.length_nil, Nat.sub_zero, List.nil_append, Phase.newRoots] at hB hC hroot
  rw [skel_links_length] at hB hC
  have hnodes : s1.nodes = List.range' 0 s1.heap.length := hB
  have hroots : s1.rootNodes = [0] := hroot
  refine ⟨?_, ?_, ?_, ?_, ?_⟩
  · intro depth hd
    rw [hnodes, hroots]
    exact (hC depth hd).symm
  · intro depth n
    unfold preorder
    rw [← childrenOf_skel]
    rfl
  · rw [hnodes, List.range_eq_range']
  · rw [hnodes]
    exact List.nodup_range' 0 s1.heap.length
  · intro n p hp
    rw [← parentOf_skel] at hp
    exact hinv.parent_lt n p hp

theorem load_nodes_preorder_witness :
    (load Env.plain 3 (St.init familyStream)).state.nodes =
      (load Env.plain 3 (St.init familyStream)).state.rootNodes.flatMap
        (preorder (load Env.plain 3 (St.init familyStream)).state 3) ∧
    (load Env.plain 3 (St.init familyStream)).state.nodes = [0, 1, 2] :=
  ⟨(load_nodes_preorder Env.plain 3 familyStream (load Env.plain 3 (St.init familyStream)).state
    (ok_of_isOk _ familyStream_loaded.1)).1 3 (Nat.le_of_eq familyStream_loaded.2.2.1),
    familyStream_loaded.2.1⟩

/-! ## A single root -/

theorem destroyContext_of_node_none {s : St} (h : s.node = none) : destroyContext s = s := by
  unfold destroyContext
  rw [h]

/-- C9: take a stream with first byte zero and a complete header, whose root
record, at `(r + 32) mod 2^32`, is well-formed: its fields and payloads can be
read (so its flags are within the known mask), and the used-count of its children
array, the word at offset 108 of the record, is 0.  Then `load` succeeds, with
any recursion budget of at least one; the model has exactly one node, it is the
only entry of the root list and of the flat node list, and its children list is
empty. -/
theorem load_single_root (env : Env) (fuel : Nat) (bytes : List Byte)
    (children : List Nat) (flags n : Nat) (s2 s3 : St)
    (hlen : 352 ≤ bytes.length) (h0 : byteAt bytes 0 = 0)
    (hfields : readNodeFields env ((le32At bytes 104 + 32) % 2 ^ 32) none
      (headerState (St.init bytes)) = .ok (children, flags) s2)
    (hpayload : readNodePayload env flags s2 = .ok n s3)
    (hcount : le32At bytes ((le32At bytes 104 + 32) % 2 ^ 32 + 108) = 0) :
    load env (fuel + 1) (St.init bytes) = .ok () s3 ∧
      s3.rootNodes = [0] ∧ s3.nodes = [0] ∧ s3.heap.length = 1 ∧
      childrenOf s3 0 = [] ∧ parentOf s3 0 = none := by
  obtain ⟨hc, -, -, -, -, n2, k2⟩ := readNodeFields_inv hfields
  have hmdb : (headerState (St.init bytes)).mdb = bytes := rfl
  rw [hmdb, hcount] at hc
  simp only [List.range_zero, List.map_nil] at hc
  subst hc
  have hheap : (headerState (St.init bytes)).heap.length = 0 := rfl
  rw [hheap] at n2
  obtain ⟨hn, k3, n3, -, -⟩ := readNodePayload_inv hpayload n2
  subst hn
  have hskel : skel s3 = ⟨[(none, [])], [0], [0]⟩ := by
    rw [k3, k2]
    rfl
  have hload : load env (fuel + 1) (St.init bytes) = .ok () s3 := by
    rw [load_eq, loadBody_ok_header env (fuel + 1) bytes hlen h0]
    unfold readNode
    rw [bind_of_ok hfields]
    dsimp only
    rw [bind_of_ok hpayload]
    simp only [forEach, pure_run]
    rw [destroyContext_of_node_none n3]
  have hlinks : (skel s3).links.length = 1 := by rw [hskel]; rfl
  rw [skel_links_length] at hlinks
  refine ⟨hload, ?_, ?_, hlinks, ?_, ?_⟩
  · exact congrArg Skel.rootNodes hskel
  · exact congrArg Skel.nodes hskel
  · rw [← childrenOf_skel, hskel]; rfl
  · rw [← parentOf_skel, hskel]; rfl

theorem load_single_root_witness :
    load Env.plain 1 (St.init singleStream) =
        .ok () (load Env.plain 1 (St.init singleStream)).state ∧
      (load Env.plain 1 (St.init singleStream)).state.nodes = [0] :=
  have h := load_single_root Env.plain 0 singleStream [] 0 0
    (readNodeFields Env.plain 368 none (headerState (St.init singleStream))).state
    (load Env.plain 1 (St.init singleStream)).state
    (by decide!) (by decide!) (by decide!) (by decide!) (by decide!)
  ⟨h.1, h.2.2.1⟩


/-! ## The children of a node -/

theorem forEach_keeps_base (env : Env) (fuel n : Nat)
    (ih : ∀ (offset : Nat) (s s1 : St), readNode env fuel offset (some n) s = .ok () s1 →
      s1.offModelData = s.offModelData ∧ s1.mdb = s.mdb) :
    ∀ (children : List Nat) (s s1 : St),
      forEach children (fun child => do
        let ctx ← getSt
        readNode env fuel ((child + ctx.offModelData) % 2 ^ 32) (some n)) s = .ok () s1 →
      s1.offModelData = s.offModelData ∧ s1.mdb = s.mdb
  | [], s, s1, h => by
    cases h
    exact ⟨rfl, rfl⟩
  | child :: children, s, s1, h => by
    unfold forEach at h
    obtain ⟨_, t1, h1, h⟩ := bind_ok_inv h
    obtain ⟨ctx, t0, h0, h1⟩ := bind_ok_inv h1
    obtain ⟨hctx, e0⟩ := getSt_step h0
    rw [hctx, e0] at h1
    obtain ⟨a1, a2⟩ := ih _ _ _ h1
    obtain ⟨b1, b2⟩ := forEach_keeps_base env fuel n ih children t1 s1 h
    exact ⟨b1.trans a1, b2.trans a2⟩

/-- A successful `readNode` changes neither the stream nor the model-data base. -/
theorem readNode_keeps_base (env : Env) :
    ∀ (fuel offset : Nat) (parent : Option Nat) (s s1 : St),
      readNode env fuel offset parent s = .ok () s1 →
      s1.offModelData = s.offModelData ∧ s1.mdb = s.mdb
  | 0, _, _, _, _, h => by cases h
  | fuel + 1, offset, parent, s, s1, h => by
    unfold readNode at h
    obtain ⟨⟨children, flags⟩, t1, h1, h⟩ := bind_ok_inv h
    dsimp only at h
    obtain ⟨p, t2, h2, h⟩ := bind_ok_inv h
    obtain ⟨-, -, -, m1, o1, n1, -⟩ := readNodeFields_inv h1
    obtain ⟨-, -, -, m2, o2⟩ := readNodePayload_inv h2 n1
    obtain ⟨o3, m3⟩ := forEach_keeps_base env fuel p
      (fun o u u1 hu => readNode_keeps_base env fuel o (some p) u u1 hu) children t2 s1 h
    exact ⟨o3.trans (o2.trans o1), m3.trans (m2.trans m1)⟩

/-- A successful call of `readNode` with parent `n` appends the node it allocates
to the children list of `n`. -/
theorem readNode_appends_child {env : Env} {fuel offset n : Nat} {s s1 : St}
    (h : readNode env fuel offset (some n) s = .ok () s1) (hn : n < s.heap.length) :
    childrenOf s1 n = childrenOf s n ++ [s.heap.length] ∧ s.heap.length < s1.heap.length := by
  have hg := readNode_grow env fuel offset (some n) s s1 h
  have hv : (Phase.call (some n)).Valid (skel s) := by
    intro p hp
    cases hp
    rw [skel_links_length]
    exact hn
  obtain ⟨cs, hA, -, -, hD⟩ := grow_preorder hg hv
  have hcs := hD _ rfl
  subst hcs
  have hlen := (grow_length hg).2 _ rfl
  rw [skel_links_length, skel_links_length] at hlen
  have := hA n (by rw [skel_links_length]; exact hn)
  rw [childrenOf_skel, childrenOf_skel, skel_links_length] at this
  simp only [Phase.active, if_true] at this
  exact ⟨this, hlen⟩

theorem decodedChildren_of_forEach (env : Env) (fuel n : Nat) :
    ∀ (children : List Nat) (s s1 : St), n < s.heap.length → s.offModelData = 32 →
      forEach children (fun child => do
        let ctx ← getSt
        readNode env fuel ((child + ctx.offModelData) % 2 ^ 32) (some n)) s = .ok () s1 →
      ∃ ids, DecodedChildren env fuel n children s ids s1 ∧
        childrenOf s1 n = childrenOf s n ++ ids ∧ ids.length = children.length
  | [], s, s1, _, _, h => by
    cases h
    exact ⟨[], DecodedChildren.nil s, by simp, rfl⟩
  | child :: children, s, s1, hn, h32, h => by
    unfold forEach at h
    obtain ⟨_, t1, h1, h⟩ := bind_ok_inv h
    obtain ⟨ctx, t0, h0, h1⟩ := bind_ok_inv h1
    obtain ⟨hctx, e0⟩ := getSt_step h0
    rw [hctx, e0, h32] at h1
    obtain ⟨hch, hlen⟩ := readNode_appends_child h1 hn
    obtain ⟨o1, -⟩ := readNode_keeps_base env fuel _ _ _ _ h1
    obtain ⟨ids, hd, hc, hl⟩ := decodedChildren_of_forEach env fuel n children t1 s1
      (by omega) (o1.trans h32) h
    refine ⟨s.heap.length :: ids, DecodedChildren.cons _ _ _ _ _ _ h1 hd, ?_, ?_⟩
    · rw [hc, hch, List.append_assoc]
      rfl
    · simp [hl]


/-- C10, amended: a successful `readNode` at `offset`, entered with the
model-data base 32 and a parent that is an allocated node, decodes the record of
node `n` (the node it allocates) and then its children: with `childrenStart` and
`childrenCount` the words at `offset + 104` and `offset + 108`, the children
offsets are the `childrenCount` words `c_i` at
`((childrenStart + 32) mod 2^32) + 4 * i`; the children are decoded by `readNode`
at `(c_i + 32) mod 2^32` with parent `n`, in that order, and the children list of
`n` is the list of the nodes so decoded, in the same order, so it has exactly
`childrenCount` entries. -/
theorem readNode_children (env : Env) (fuel offset : Nat) (parent : Option Nat) (s s3 : St)
    (h : readNode env (fuel + 1) offset parent s = .ok () s3)
    (h32 : s.offModelData = 32)
    (hparent : ∀ p, parent = some p → p < s.heap.length) :
    ∃ (children : List Nat) (flags : Nat) (s1 s2 : St) (ids : List Nat),
      readNodeFields env offset parent s = .ok (children, flags) s1 ∧
      readNodePayload env flags s1 = .ok s.heap.length s2 ∧
      children = (List.range (le32At s.mdb (offset + 108))).map
        (fun i => le32At s.mdb ((le32At s.mdb (offset + 104) + 32) % 2 ^ 32 + 4 * i)) ∧
      DecodedChildren env fuel s.heap.length children s2 ids s3 ∧
      childrenOf s3 s.heap.length = ids ∧
      ids.length = le32At s.mdb (offset + 108) := by
  unfold readNode at h
  obtain ⟨⟨children, flags⟩, t1, h1, h⟩ := bind_ok_inv h
  dsimp only at h
  obtain ⟨p, t2, h2, h⟩ := bind_ok_inv h
  obtain ⟨hc, -, -, -, o1, n1, k1⟩ := readNodeFields_inv h1
  obtain ⟨hp, k2, -, -, o2⟩ := readNodePayload_inv h2 n1
  subst hp
  rw [h32] at hc
  have hv : (Phase.call parent).Valid (skel s) := by
    intro q hq
    rw [skel_links_length]
    exact hparent q hq
  have hstep : skel t2 = (skel s).step parent := by
    rw [k2, k1]
    simp [Skel.step, skel_links_length]
  have hlen2 : s.heap.length < t2.heap.length := by
    have := congrArg (fun sk => sk.links.length) hstep
    simp only [step_links, link_links_length, skel_links_length] at this
    omega
  have hnone : childrenOf t2 s.heap.length = [] := by
    rw [← childrenOf_skel, hstep, step_childrenOf _ _ hv]
    have hne : parent ≠ some s.heap.length := by
      intro hq
      have := hparent _ hq
      omega
    simp only [hne, if_false]
    exact childrenOf_of_ge (by rw [skel_links_length])
  obtain ⟨ids, hd, hch, hl⟩ := decodedChildren_of_forEach env fuel s.heap.length children t2 s3
    hlen2 (o2.trans (o1.trans h32)) h
  refine ⟨children, flags, t1, t2, ids, h1, h2, hc, hd, ?_, ?_⟩
  · rw [hch, hnone]
    rfl
  · rw [hl, hc]
    simp

/-- The decode of the nodes of `familyStream`, evaluated: `readNode` returns when
it is allowed the depth 2. -/
theorem familyStream_decoded :
    readNode Env.plain 2 368 none (headerState (St.init familyStream)) =
      .ok () (readNode Env.plain 2 368 none (headerState (St.init familyStream))).state :=
  ok_of_isOk _ (by decide!)

theorem readNode_children_witness :
    (childrenOf (readNode Env.plain 2 368 none (headerState (St.init familyStream))).state 0).length
      = 2 := by
  obtain ⟨children, flags, s1, s2, ids, -, -, -, -, hc, hl⟩ :=
    readNode_children Env.plain 1 368 none (headerState (St.init familyStream))
      (readNode Env.plain 2 368 none (headerState (St.init familyStream))).state
      familyStream_decoded rfl (fun p hp => by cases hp)
  have h0 : (headerState (St.init familyStream)).heap.length = 0 := rfl
  have hcount : le32At (headerState (St.init familyStream)).mdb (368 + 108) = 2 := by decide!
  rw [h0] at hc
  rw [hc, hl, hcount]

/-- C10 as stated fails where `childrenStart + 32` exceeds 32 bits.  `wrapStream`
decodes successfully; the children array of its root has `childrenStart =
0xFFFFFFE0` and `childrenCount = 1`.  The code reads the child offset at
`(childrenStart + 32) mod 2^32 = 0`, finds 512 and decodes the child at 544; the
word at `childrenStart + 32`, which the claim names, is 0 (it lies past the end
of the stream), and no child is decoded at `0 + 32`. -/
theorem readNode_children_unwrapped_counterexample :
    load Env.plain 2 (St.init wrapStream) = .ok () wrapFinal ∧
      readNode Env.plain 2 368 none wrapStart = .ok () wrapFinal ∧
      readNodePayload Env.plain 0 (readNodeFields Env.plain 368 none wrapStart).state =
        .ok 0 wrapRoot ∧
      le32At wrapStream (368 + 104) = 0xFFFFFFE0 ∧ le32At wrapStream (368 + 108) = 1 ∧
      DecodedChildren Env.plain 1 0
        ((List.range (le32At wrapStream (368 + 108))).map
          (fun i => le32At wrapStream ((le32At wrapStream (368 + 104) + 32) % 2 ^ 32 + 4 * i)))
        wrapRoot [1] wrapFinal ∧
      childrenOf wrapFinal 0 = [1] ∧
      ¬ ∃ ids, DecodedChildren Env.plain 1 0
        ((List.range (le32At wrapStream (368 + 108))).map
          (fun i => le32At wrapStream (le32At wrapStream (368 + 104) + 32 + 4 * i)))
        wrapRoot ids wrapFinal := by
  have hrun : ((List.range (le32At wrapStream (368 + 108))).map
        (fun i => le32At wrapStream ((le32At wrapStream (368 + 104) + 32) % 2 ^ 32 + 4 * i)) =
        [512] ∧
      (List.range (le32At wrapStream (368 + 108))).map
        (fun i => le32At wrapStream (le32At wrapStream (368 + 104) + 32 + 4 * i)) = [0]) ∧
      (readNode Env.plain 1 ((512 + 32) % 2 ^ 32) (some 0) wrapRoot = .ok () wrapFinal ∧
        wrapRoot.heap.length = 1 ∧
        readNode Env.plain 1 ((0 + 32) % 2 ^ 32) (some 0) wrapRoot ≠ .ok () wrapFinal) ∧
      load Env.plain 2 (St.init wrapStream) = .ok () wrapFinal ∧
      readNode Env.plain 2 368 none wrapStart = .ok () wrapFinal ∧
      readNodePayload Env.plain 0 (readNodeFields Env.plain 368 none wrapStart).state =
        .ok 0 wrapRoot ∧
      le32At wrapStream (368 + 104) = 0xFFFFFFE0 ∧ le32At wrapStream (368 + 108) = 1 ∧
      childrenOf wrapFinal 0 = [1] := by
    decide!
  obtain ⟨⟨hgood, hbad⟩, ⟨hcall, hheap, hneg⟩, k1, k2, k3, k4, k5, k6⟩ := hrun
  refine ⟨k1, k2, k3, k4, k5, ?_, k6, ?_⟩
  · rw [hgood]
    have := DecodedChildren.cons 512 [] wrapRoot wrapFinal wrapFinal [] hcall
      (DecodedChildren.nil wrapFinal)
    rw [hheap] at this
    exact this
  · rw [hbad]
    rintro ⟨ids, hd⟩
    cases hd with
    | cons c cs s s1 s2 ids1 hr hrest =>
      cases hrest
      exact hneg hr

theorem index_lt {α : Type} (v : List α) (i : Nat) (h : i < v.length) (s : St) :
    index v i s = .ok v[i] s := by
  simp [index, List.getElem?_eq_getElem h]

theorem index_ge {α : Type} (v : List α) (i : Nat) (h : v.length ≤ i) (s : St) :
    index v i s = .fail .outOfRange s := by
  simp [index, List.getElem?_eq_none h, throwErr]

theorem modifyNode_ok (f : Node → Node) (s : St) (n : Nat) (hn : s.node = some n)
    (hl : n < s.heap.length) :
    modifyNode f s = .ok () { s with heap := s.heap.modify f n } := by
  simp [modifyNode, hn, hl]

theorem modifyNode_null (f : Node → Node) (s : St)
    (h : ∀ n, s.node = some n → s.heap.length ≤ n) :
    modifyNode f s = .fail .nullNode s := by
  unfold modifyNode
  split
  · rename_i n hn
    have := h n hn
    rw [if_neg (by omega)]
  · rfl

/-- A key whose record can be read: the fields are taken from the record at the
cursor, the cursor moves behind the record, and `controllerEffect` does the rest. -/
theorem controllerKey_fields (env : Env) (data : List Float32) (s : St)
    (h : s.pos + 11 ≤ s.mdb.length) :
    controllerKey env data s =
      controllerEffect env data (le32At s.mdb s.pos) (le16At s.mdb (s.pos + 8))
        (byteAt s.mdb (s.pos + 10)) { s with pos := s.pos + 12 } := by
  have h1 : s.pos + 4 ≤ s.mdb.length := by omega
  have h2 : s.pos + 4 + 2 ≤ s.mdb.length := by omega
  have h3 : s.pos + 4 + 2 + 2 ≤ s.mdb.length := by omega
  have h4 : s.pos + 4 + 2 + 2 + 2 ≤ s.mdb.length := by omega
  have h5 : s.pos + 4 + 2 + 2 + 2 + 1 ≤ s.mdb.length := by omega
  unfold controllerKey
  simp only [readUint32LE, readUint16LE, readByte, skip]
  rw [bind_of_ok (readFixed_ok 4 le32At s h1)]
  rw [bind_of_ok (readFixed_ok 2 le16At _ h2)]
  rw [bind_of_ok (readFixed_ok 2 le16At _ h3)]
  rw [bind_of_ok (readFixed_ok 2 le16At _ h4)]
  rw [bind_of_ok (readFixed_ok 1 byteAt _ h5)]
  rfl

theorem controllerKey_other (env : Env) (data : List Float32) (s : St)
    (h : s.pos + 11 ≤ s.mdb.length)
    (h84 : le32At s.mdb s.pos ≠ kControllerTypePosition)
    (h96 : le32At s.mdb s.pos ≠ kControllerTypeOrientation) :
    controllerKey env data s = .ok () { s with pos := s.pos + 12 } := by
  have hcc : byteAt s.mdb (s.pos + 10) ≠ 65535 := by
    have := byteAt_lt s.mdb (s.pos + 10); omega
  rw [controllerKey_fields env data s h]
  simp [controllerEffect, hcc, h84, h96]

theorem controllerKey_position_bad (env : Env) (data : List Float32) (s : St)
    (h : s.pos + 11 ≤ s.mdb.length)
    (h84 : le32At s.mdb s.pos = kControllerTypePosition)
    (h3 : byteAt s.mdb (s.pos + 10) ≠ 3) :
    controllerKey env data s =
      .fail (.positionController (byteAt s.mdb (s.pos + 10))) { s with pos := s.pos + 12 } := by
  have hcc : byteAt s.mdb (s.pos + 10) ≠ 65535 := by
    have := byteAt_lt s.mdb (s.pos + 10); omega
  rw [controllerKey_fields env data s h]
  simp [controllerEffect, hcc, h84, h3, throwErr]

theorem controllerKey_orientation_bad (env : Env) (data : List Float32) (s : St)
    (h : s.pos + 11 ≤ s.mdb.length)
    (h96 : le32At s.mdb s.pos = kControllerTypeOrientation)
    (h4 : byteAt s.mdb (s.pos + 10) ≠ 4) :
    controllerKey env data s =
      .fail (.orientationController (byteAt s.mdb (s.pos + 10))) { s with pos := s.pos + 12 } := by
  have hcc : byteAt s.mdb (s.pos + 10) ≠ 65535 := by
    have := byteAt_lt s.mdb (s.pos + 10); omega
  rw [controllerKey_fields env data s h]
  simp [controllerEffect, hcc, h96, h4, throwErr, kControllerTypeOrientation, kControllerTypePosition]

theorem modify_modify_same {α : Type} (f g : α → α) :
    ∀ (l : List α) (n : Nat), (l.modify f n).modify g n = l.modify (fun a => g (f a)) n
  | [], 0 => rfl
  | [], _ + 1 => rfl
  | _ :: _, 0 => rfl
  | a :: l, n + 1 => by
    simp only [List.modify_succ_cons, modify_modify_same f g l n]

theorem modify_eq_set {α : Type} (f : α → α) (l : List α) (n : Nat) (a : α)
    (h : l[n]? = some a) : l.modify f n = l.set n (f a) := by
  apply List.ext_getElem?
  intro i
  rw [List.getElem?_modify, List.getElem?_set]
  by_cases hi : n = i
  · subst hi
    have hl : n < l.length := by
      rcases Nat.lt_or_ge n l.length with hl | hl
      · exact hl
      · rw [List.getElem?_eq_none hl] at h; cases h
    simp [h, hl]
  · simp [hi]

theorem controllerKey_position_ok (env : Env) (data : List Float32) (s : St) (n di : Nat)
    (nd : Node)
    (h : s.pos + 11 ≤ s.mdb.length)
    (h84 : le32At s.mdb s.pos = kControllerTypePosition)
    (h3 : byteAt s.mdb (s.pos + 10) = 3)
    (hdi : le16At s.mdb (s.pos + 8) = di)
    (hd : di + 2 < data.length)
    (hn : s.node = some n) (hnd : s.heap[n]? = some nd) :
    controllerKey env data s = .ok ()
      { s with
        pos := s.pos + 12
        heap := s.heap.set n { nd with
          position := ((nd.position.set 0 data[di]).set 1 data[di + 1]).set 2 data[di + 2] } } := by
  have hl : n < s.heap.length := by
    rcases Nat.lt_or_ge n s.heap.length with hl | hl
    · exact hl
    · rw [List.getElem?_eq_none hl] at hnd; cases hnd
  rw [controllerKey_fields env data s h]
  simp [controllerEffect, h3, h84, hdi, index_lt data di (by omega), index_lt data (di + 1) (by omega),
    index_lt data (di + 2) (by omega), modifyNode, hn, hl, modify_modify_same]
  rw [modify_eq_set _ _ _ _ hnd]

theorem controllerKey_orientation_ok (env : Env) (data : List Float32) (s : St) (n di : Nat)
    (nd : Node)
    (h : s.pos + 11 ≤ s.mdb.length)
    (h96 : le32At s.mdb s.pos = kControllerTypeOrientation)
    (h4 : byteAt s.mdb (s.pos + 10) = 4)
    (hdi : le16At s.mdb (s.pos + 8) = di)
    (hd : di + 3 < data.length)
    (hn : s.node = some n) (hnd : s.heap[n]? = some nd) :
    controllerKey env data s = .ok ()
      { s with
        pos := s.pos + 12
        heap := s.heap.set n { nd with
          orientation := (((nd.orientation.set 0 data[di]).set 1 data[di + 1]).set 2
            data[di + 2]).set 3 (env.quatAngle data[di + 3]) } } := by
  have hl : n < s.heap.length := by
    rcases Nat.lt_or_ge n s.heap.length with hl | hl
    · exact hl
    · rw [List.getElem?_eq_none hl] at hnd; cases hnd
  rw [controllerKey_fields env data s h]
  simp [controllerEffect, h4, h96, hdi, index_lt data di (by omega), index_lt data (di + 1) (by omega),
    index_lt data (di + 2) (by omega), index_lt data (di + 3) (by omega), modifyNode, hn, hl,
    modify_modify_same, kControllerTypeOrientation, kControllerTypePosition]
  rw [modify_eq_set _ _ _ _ hnd]

theorem controllerKey_short (env : Env) (data : List Float32) (s : St)
    (h : ¬ s.pos + 11 ≤ s.mdb.length) :
    ∃ s1, controllerKey env data s = .fail .readError s1 := by
  simp only [controllerKey, readUint32LE, readUint16LE, readByte, bind_run, readFixed]
  by_cases h1 : s.pos + 4 ≤ s.mdb.length
  · by_cases h2 : s.pos + 4 + 2 ≤ s.mdb.length
    · by_cases h3 : s.pos + 4 + 2 + 2 ≤ s.mdb.length
      · by_cases h4 : s.pos + 4 + 2 + 2 + 2 ≤ s.mdb.length
        · have h5 : ¬ s.pos + 4 + 2 + 2 + 2 + 1 ≤ s.mdb.length := by omega
          simp [h1, h2, h3, h4, h5]
        · simp [h1, h2, h3, h4]
      · simp [h1, h2, h3]
    · simp [h1, h2]
  · simp [h1]

theorem failsIn_index_lt {α : Type} {P : Err → Prop} (v : List α) (i : Nat) (h : i < v.length) :
    FailsIn P (index v i) := by
  unfold FailsIn
  intro s e s1 hf
  rw [index_lt v i h] at hf
  cases hf

/-- A key whose buffer accesses are within the buffer does not index it out of
range. -/
theorem controllerKey_in_range (env : Env) (data : List Float32) (s : St)
    (hb : le32At s.mdb s.pos = kControllerTypePosition ∨
        le32At s.mdb s.pos = kControllerTypeOrientation →
      le16At s.mdb (s.pos + 8) + byteAt s.mdb (s.pos + 10) ≤ data.length)
    (s1 : St) : controllerKey env data s ≠ .fail .outOfRange s1 := by
  intro hf
  by_cases h : s.pos + 11 ≤ s.mdb.length
  · by_cases h84 : le32At s.mdb s.pos = kControllerTypePosition
    · by_cases h3 : byteAt s.mdb (s.pos + 10) = 3
      · have hb1 := hb (Or.inl h84)
        rw [h3] at hb1
        rw [controllerKey_fields env data s h] at hf
        refine @failsIn_elim _ (fun e => e ≠ .outOfRange) _ ?_ _ _ _ hf rfl
        unfold controllerEffect
        repeat' first
          | exact failsIn_index_lt _ _ (by omega)
          | exact failsIn_modifyNode (by simp) _
          | exact failsIn_throwErr (by simp)
          | exact failsIn_pure _ _
          | apply failsIn_bind
          | intro _
          | split
        all_goals simp_all [kControllerTypeOrientation, kControllerTypePosition]
      · rw [controllerKey_position_bad env data s h h84 h3] at hf
        cases hf
    · by_cases h96 : le32At s.mdb s.pos = kControllerTypeOrientation
      · by_cases h4 : byteAt s.mdb (s.pos + 10) = 4
        · have hb1 := hb (Or.inr h96)
          rw [h4] at hb1
          rw [controllerKey_fields env data s h] at hf
          refine @failsIn_elim _ (fun e => e ≠ .outOfRange) _ ?_ _ _ _ hf rfl
          unfold controllerEffect
          repeat' first
            | exact failsIn_index_lt _ _ (by omega)
            | exact failsIn_modifyNode (by simp) _
            | exact failsIn_throwErr (by simp)
            | exact failsIn_pure _ _
            | apply failsIn_bind
            | intro _
            | split
        · rw [controllerKey_orientation_bad env data s h h96 h4] at hf
          cases hf
      · rw [controllerKey_other env data s h h84 h96] at hf
        cases hf
  · obtain ⟨s2, h2⟩ := controllerKey_short env data s h
    rw [h2] at hf
    cases hf

/-- The loop of `parseNodeControllers` over keys none of which is a position or
an orientation key: only the cursor moves. -/
theorem forLoop_controllerKey_other (env : Env) (data : List Float32) :
    ∀ (count i : Nat) (s : St), s.pos + 12 * count ≤ s.mdb.length →
      (∀ j, j < count → le32At s.mdb (s.pos + 12 * j) ≠ kControllerTypePosition ∧
        le32At s.mdb (s.pos + 12 * j) ≠ kControllerTypeOrientation) →
      forLoop count i (fun _ => controllerKey env data) s =
        .ok () { s with pos := s.pos + 12 * count }
  | 0, _, s, _, _ => rfl
  | count + 1, i, s, hr, ht => by
    have h0 := ht 0 (by omega)
    rw [Nat.mul_zero, Nat.add_zero] at h0
    unfold forLoop
    rw [bind_of_ok (controllerKey_other env data s (by omega) h0.1 h0.2)]
    rw [forLoop_controllerKey_other env data count (i + 1) _ (by simp only []; omega)]
    · simp only [Res.ok.injEq, true_and]
      congr 1
      omega
    · intro j hj
      have := ht (j + 1) (by omega)
      simp only []
      rw [show s.pos + 12 + 12 * j = s.pos + 12 * (j + 1) by omega]
      exact this

theorem keeps_modifyNode {β : Type} (proj : St → β) (f : Node → Node)
    (h : ∀ (s : St) (l : List Node), proj { s with heap := l } = proj s) :
    Keeps proj (modifyNode f) := by
  unfold Keeps; intro s
  unfold Model_Witcher.modifyNode
  split
  · split
    · exact h s _
    · rfl
  · rfl

theorem keeps_controllerEffect (env : Env) (data : List Float32) (type dataIndex columnCount : Nat) :
    Keeps (fun t : St => (t.pos, t.mdb)) (controllerEffect env data type dataIndex columnCount) := by
  unfold controllerEffect
  repeat' first
    | exact keeps_modifyNode _ _ (fun _ _ => rfl)
    | exact keeps_index _ _ _
    | exact keeps_throwErr _ _
    | exact keeps_pure _ _
    | apply keeps_bind
    | intro _
    | split

/-- What a successful key leaves of the cursor and the stream. -/
theorem controllerKey_step {env : Env} {data : List Float32} {s s1 : St} {a : Unit}
    (h : controllerKey env data s = .ok a s1) : s1.pos = s.pos + 12 ∧ s1.mdb = s.mdb := by
  by_cases hr : s.pos + 11 ≤ s.mdb.length
  · rw [controllerKey_fields env data s hr] at h
    have := keeps_ok (keeps_controllerEffect env data _ _ _) h
    simp only [Prod.mk.injEq] at this
    exact this
  · obtain ⟨s2, h2⟩ := controllerKey_short env data s hr
    rw [h2] at h
    cases h

theorem set3_of_length {α : Type} (l : List α) (a b c : α) (h : l.length = 3) :
    ((l.set 0 a).set 1 b).set 2 c = [a, b, c] := by
  rcases l with _ | ⟨x, _ | ⟨y, _ | ⟨z, _ | _⟩⟩⟩ <;> simp_all

theorem set4_of_length {α : Type} (l : List α) (a b c d : α) (h : l.length = 4) :
    (((l.set 0 a).set 1 b).set 2 c).set 3 d = [a, b, c, d] := by
  rcases l with _ | ⟨x, _ | ⟨y, _ | ⟨z, _ | ⟨w, _ | _⟩⟩⟩⟩ <;> simp_all

/-- The run of `parseNodeControllers` in terms of its loop: the cursor goes to
`offset`, and comes back when the loop returns. -/
theorem parseNodeControllers_run (env : Env) (offset count : Nat) (data : List Float32) (s : St) :
    parseNodeControllers env offset count data s =
      match forLoop count 0 (fun _ => controllerKey env data) { s with pos := offset } with
      | .ok _ t => .ok () { t with pos := s.pos }
      | .fail e t => .fail e t := by
  simp only [parseNodeControllers, seekTo, bind_run]
  cases forLoop count 0 (fun _ => controllerKey env data) { s with pos := offset } <;> rfl

theorem forLoop_controllerKey_in_range (env : Env) (data : List Float32) (mdb : List Byte)
    (offset : Nat) :
    ∀ (count k i : Nat) (s : St), s.mdb = mdb → s.pos = offset + 12 * k →
      (∀ j, k ≤ j → j < k + count →
        le32At mdb (offset + 12 * j) = kControllerTypePosition ∨
          le32At mdb (offset + 12 * j) = kControllerTypeOrientation →
        le16At mdb (offset + 12 * j + 8) + byteAt mdb (offset + 12 * j + 10) ≤ data.length) →
      ∀ s1, forLoop count i (fun _ => controllerKey env data) s ≠ .fail .outOfRange s1
  | 0, _, _, _, _, _, _, _ => by
    intro h; cases h
  | count + 1, k, i, s, hm, hp, hb, s1 => by
    intro hf
    unfold forLoop at hf
    simp only [bind_run] at hf
    cases hk : controllerKey env data s with
    | ok a t =>
      rw [hk] at hf
      obtain ⟨hp1, hm1⟩ := controllerKey_step hk
      exact forLoop_controllerKey_in_range env data mdb offset count (k + 1) (i + 1) t
        (hm1.trans hm) (by omega) (fun j hj1 hj2 => hb j (by omega) (by omega)) s1 hf
    | fail e t =>
      rw [hk] at hf
      simp only [Res.fail.injEq] at hf
      obtain ⟨he, ht⟩ := hf
      subst he
      refine controllerKey_in_range env data s ?_ t hk
      rw [hm, hp]
      exact hb k (Nat.le_refl k) (by omega)

/-- C15: a controller key whose type tag is the position type 84, read at the
cursor with `dataIndex = di`.  If its column count is not 3, the decode fails
with the malformed-position-controller error for that count.  If it is 3 and
`di + 2` is within the controller data, the key returns, the position of the
node `ctx.node` becomes `(data[di], data[di + 1], data[di + 2])`, and nothing
else of the node (in particular not its orientation) or of the state changes but
the cursor, which is behind the key. -/
theorem controllerKey_position (env : Env) (data : List Float32) (s : St) (n di : Nat)
    (nd : Node) (hread : s.pos + 11 ≤ s.mdb.length)
    (htype : le32At s.mdb s.pos = kControllerTypePosition)
    (hdi : le16At s.mdb (s.pos + 8) = di) :
    kControllerTypePosition = 84 ∧
    (byteAt s.mdb (s.pos + 10) ≠ 3 →
      controllerKey env data s =
        .fail (.positionController (byteAt s.mdb (s.pos + 10))) { s with pos := s.pos + 12 }) ∧
    (byteAt s.mdb (s.pos + 10) = 3 → ∀ (hd : di + 2 < data.length),
      s.node = some n → s.heap[n]? = some nd → nd.position.length = 3 →
      controllerKey env data s = .ok ()
        { s with
          pos := s.pos + 12
          heap := s.heap.set n { nd with position := [data[di], data[di + 1], data[di + 2]] } }) := by
  refine ⟨rfl, controllerKey_position_bad env data s hread htype, ?_⟩
  intro h3 hd hn hnd hlen
  rw [controllerKey_position_ok env data s n di nd hread htype h3 hdi hd hn hnd,
    set3_of_length _ _ _ _ hlen]

theorem controllerKey_position_witness :
    controllerKey Env.plain [7, 8, 9, 10] (St.withNode (keyBytes 84 1 3)) = .ok ()
      { St.withNode (keyBytes 84 1 3) with
        pos := 12
        heap := [{ Node.new with position := [8, 9, 10] }] } :=
  (controllerKey_position Env.plain [7, 8, 9, 10] (St.withNode (keyBytes 84 1 3)) 0 1 Node.new
    (by decide) (by decide) (by decide)).2.2 (by decide) (by decide) rfl rfl rfl

/-- C16, amended: a controller key whose type tag is the orientation type 96,
read at the cursor with `dataIndex = di`.  If its column count is not 4, the
decode fails with the malformed-orientation-controller error for that count.  If
it is 4 and `di + 3` is within the controller data, the key returns and, with
`(x, y, z, w) = data[di .. di + 3]`, the four orientation values of the node
become `(x, y, z, a)` where `a` is `rad2deg(acos(w) * 2.0)`; nothing else of the
node or of the state changes but the cursor. -/
theorem controllerKey_orientation (env : Env) (data : List Float32) (s : St) (n di : Nat)
    (nd : Node) (hread : s.pos + 11 ≤ s.mdb.length)
    (htype : le32At s.mdb s.pos = kControllerTypeOrientation)
    (hdi : le16At s.mdb (s.pos + 8) = di) :
    kControllerTypeOrientation = 96 ∧
    (byteAt s.mdb (s.pos + 10) ≠ 4 →
      controllerKey env data s =
        .fail (.orientationController (byteAt s.mdb (s.pos + 10))) { s with pos := s.pos + 12 }) ∧
    (byteAt s.mdb (s.pos + 10) = 4 → ∀ (hd : di + 3 < data.length),
      s.node = some n → s.heap[n]? = some nd → nd.orientation.length = 4 →
      controllerKey env data s = .ok ()
        { s with
          pos := s.pos + 12
          heap := s.heap.set n { nd with
            orientation := [data[di], data[di + 1], data[di + 2], env.quatAngle data[di + 3]] } }) := by
  refine ⟨rfl, controllerKey_orientation_bad env data s hread htype, ?_⟩
  intro h4 hd hn hnd hlen
  rw [controllerKey_orientation_ok env data s n di nd hread htype h4 hdi hd hn hnd,
    set4_of_length _ _ _ _ _ hlen]

theorem controllerKey_orientation_witness :
    controllerKey Env.plain identityQuaternion (St.withNode (keyBytes 96 0 4)) = .ok ()
      { St.withNode (keyBytes 96 0 4) with
        pos := 12
        heap := [{ Node.new with orientation := [0, 0, 0, Env.plain.quatAngle 0x3F800000] }] } :=
  (controllerKey_orientation Env.plain identityQuaternion (St.withNode (keyBytes 96 0 4)) 0 0
    Node.new (by decide) (by decide) (by decide)).2.2 (by decide) (by decide) rfl rfl rfl

/-- C16 as stated fails on the identity quaternion.  The key `keyBytes 96 0 4`
with the controller data `(0, 0, 0, 1)` decodes, whatever `rad2deg(acos(w) * 2.0)`
computes, to the orientation values `(0, 0, 0, rad2deg(acos(1) * 2.0))`: the
first three are the quaternion's `x`, `y` and `z` as read.  No value among them is
`180` (bit pattern `0x43340000`), which the claim gives for yaw and pitch. -/
theorem controllerKey_orientation_euler_counterexample :
    (∀ env : Env, ∃ s1, controllerKey env identityQuaternion (St.withNode (keyBytes 96 0 4)) =
        .ok () s1 ∧
      s1.heap.map Node.orientation = [[0, 0, 0, env.quatAngle 0x3F800000]]) ∧
    ¬ ∃ env : Env, ∃ s1 nd, controllerKey env identityQuaternion (St.withNode (keyBytes 96 0 4)) =
        .ok () s1 ∧ s1.heap[0]? = some nd ∧ 0x43340000 ∈ nd.orientation.take 3 := by
  have key : ∀ env : Env,
      controllerKey env identityQuaternion (St.withNode (keyBytes 96 0 4)) = .ok ()
        { St.withNode (keyBytes 96 0 4) with
          pos := 12
          heap := [{ Node.new with orientation := [0, 0, 0, env.quatAngle 0x3F800000] }] } := by
    intro env
    rw [controllerKey_orientation_ok env identityQuaternion (St.withNode (keyBytes 96 0 4)) 0 0
      Node.new (by decide) (by decide) (by decide) (by decide) (by decide) rfl rfl]
    rfl
  constructor
  · intro env
    exact ⟨_, key env, rfl⟩
  · rintro ⟨env, s1, nd, h1, h2, h3⟩
    rw [key env] at h1
    cases h1
    simp only [List.getElem?_cons_zero, Option.some.injEq] at h2
    subst h2
    simp [Node.new] at h3

/-- C17: a controller-key array of `count` keys at `offset`, none of which has the
type tag 84 or 96, all `12 * count` bytes of which are readable.  For every
controller-data buffer `data`, whatever the column counts and data indices of the
keys, `parseNodeControllers` returns and leaves the whole state as it was: the
node's position and orientation are unchanged and the cursor is where it was on
entry.  This holds for the empty buffer too, in which every index would be out
of range: the buffer is never indexed. -/
theorem parseNodeControllers_unrecognized (env : Env) (offset count : Nat)
    (data : List Float32) (s : St) (hread : offset + 12 * count ≤ s.mdb.length)
    (htags : ∀ j, j < count → le32At s.mdb (offset + 12 * j) ≠ kControllerTypePosition ∧
      le32At s.mdb (offset + 12 * j) ≠ kControllerTypeOrientation) :
    parseNodeControllers env offset count data s = .ok () s ∧
      parseNodeControllers env offset count [] s = .ok () s := by
  have h : ∀ d : List Float32, parseNodeControllers env offset count d s = .ok () s := by
    intro d
    rw [parseNodeControllers_run,
      forLoop_controllerKey_other env d count 0 { s with pos := offset } hread htags]
  exact ⟨h data, h []⟩

theorem parseNodeControllers_unrecognized_witness :
    parseNodeControllers Env.plain 4 2 [] (St.withNode (zeroBytes 4 ++ keyBytes 1 9 255 ++
        keyBytes 2 7 3)) =
      .ok () (St.withNode (zeroBytes 4 ++ keyBytes 1 9 255 ++ keyBytes 2 7 3)) :=
  (parseNodeControllers_unrecognized Env.plain 4 2 []
    (St.withNode (zeroBytes 4 ++ keyBytes 1 9 255 ++ keyBytes 2 7 3)) (by decide)
    (by decide)).1

theorem controllerKey_position_out_of_range (env : Env) (data : List Float32) (s : St) (n : Nat)
    (h : s.pos + 11 ≤ s.mdb.length)
    (h84 : le32At s.mdb s.pos = kControllerTypePosition)
    (h3 : byteAt s.mdb (s.pos + 10) = 3)
    (hd : data.length ≤ le16At s.mdb (s.pos + 8) + 2)
    (hn : s.node = some n) (hl : n < s.heap.length) :
    ∃ s1, controllerKey env data s = .fail .outOfRange s1 := by
  rw [controllerKey_fields env data s h]
  by_cases h0 : le16At s.mdb (s.pos + 8) < data.length
  · by_cases h1 : le16At s.mdb (s.pos + 8) + 1 < data.length
    · simp [controllerEffect, h3, h84, index_lt data _ h0, index_lt data _ h1,
        index_ge data (le16At s.mdb (s.pos + 8) + 2) hd, modifyNode, hn, hl]
    · simp [controllerEffect, h3, h84, index_lt data _ h0,
        index_ge data (le16At s.mdb (s.pos + 8) + 1) (by omega), modifyNode, hn, hl]
  · simp [controllerEffect, h3, h84, index_ge data (le16At s.mdb (s.pos + 8)) (by omega)]

/-- C18: `parseNodeControllers` does not check the data index of a key against
the controller-data buffer.  When the first key of the array is a position key
with column count 3 whose `dataIndex + 2` is not below the length of the buffer
(as for every such key on the empty buffer), and `ctx.node` is an allocated node,
the decode raises none of its errors and indexes the buffer out of range.
Conversely, when `dataIndex + columnCount` is at most the length of the buffer for
every position and orientation key of the array, no access to the buffer is out
of range. -/
theorem parseNodeControllers_data_bounds (env : Env) (offset count : Nat)
    (data : List Float32) (s : St) :
    (∀ n, offset + 11 ≤ s.mdb.length → le32At s.mdb offset = kControllerTypePosition →
      byteAt s.mdb (offset + 10) = 3 → data.length ≤ le16At s.mdb (offset + 8) + 2 →
      s.node = some n → n < s.heap.length →
      ∃ s1, parseNodeControllers env offset (count + 1) data s = .fail .outOfRange s1) ∧
    ((∀ j, j < count →
        le32At s.mdb (offset + 12 * j) = kControllerTypePosition ∨
          le32At s.mdb (offset + 12 * j) = kControllerTypeOrientation →
        le16At s.mdb (offset + 12 * j + 8) + byteAt s.mdb (offset + 12 * j + 10) ≤ data.length) →
      ∀ s1, parseNodeControllers env offset count data s ≠ .fail .outOfRange s1) := by
  constructor
  · intro n hr h84 h3 hd hn hl
    obtain ⟨s1, h1⟩ := controllerKey_position_out_of_range env data { s with pos := offset } n
      hr h84 h3 hd hn hl
    refine ⟨s1, ?_⟩
    rw [parseNodeControllers_run]
    unfold forLoop
    rw [bind_of_fail h1]
  · intro hb s1 hf
    rw [parseNodeControllers_run] at hf
    cases hl : forLoop count 0 (fun _ => controllerKey env data) { s with pos := offset } with
    | ok a t => rw [hl] at hf; cases hf
    | fail e t =>
      rw [hl] at hf
      simp only [Res.fail.injEq] at hf
      obtain ⟨he, ht⟩ := hf
      subst he
      exact forLoop_controllerKey_in_range env data s.mdb offset count 0 0 { s with pos := offset }
        rfl rfl (fun j _ hj => hb j (by omega)) t hl

theorem parseNodeControllers_data_bounds_witness :
    (∃ s1, parseNodeControllers Env.plain 0 1 [] (St.withNode (keyBytes 84 0 3)) =
      .fail .outOfRange s1) ∧
    ∀ s1, parseNodeControllers Env.plain 0 1 [7, 8, 9] (St.withNode (keyBytes 84 0 3)) ≠
      .fail .outOfRange s1 :=
  ⟨(parseNodeControllers_data_bounds Env.plain 0 0 [] (St.withNode (keyBytes 84 0 3))).1 0
      (by decide) (by decide) (by decide) (by decide) rfl (by decide),
    (parseNodeControllers_data_bounds Env.plain 0 1 [7, 8, 9] (St.withNode (keyBytes 84 0 3))).2
      (by decide)⟩

theorem textureOfLine_eq_none {line : List Byte}
    (h : beginsWith line (ascii "texture texture0 ") = false ∧
      beginsWith line (ascii "texture tex ") = false) : textureOfLine line = none := by
  simp [textureOfLine, h.1, h.2]

theorem textureOfLine_eq_some {line : List Byte}
    (h : beginsWith line (ascii "texture texture0 ") = true ∨
      beginsWith line (ascii "texture tex ") = true) :
    textureOfLine line =
      some (line.drop (if beginsWith line (ascii "texture texture0 ") then 17 else 12)) := by
  unfold textureOfLine
  by_cases h0 : beginsWith line (ascii "texture texture0 ") = true
  · simp [h0]
  · have h1 : beginsWith line (ascii "texture tex ") = true := by
      rcases h with h | h
      · exact absurd h h0
      · exact h
    simp [h0, h1]

/-- The second loop over the texture-info lines (lines 364-380): the name is that
of the last line that yields one, and the name on entry if no line does. -/
theorem forEach_scanTextureLine :
    ∀ (lines : List (List Byte)) (s : St), forEach lines scanTextureLine s =
      .ok () { s with texture := ((lines.filterMap textureOfLine).getLast?).getD s.texture }
  | [], _ => rfl
  | line :: rest, s => by
    unfold forEach
    simp only [bind_run, scanTextureLine]
    cases hl : textureOfLine line with
    | none =>
      simp only [List.filterMap_cons, hl]
      exact forEach_scanTextureLine rest s
    | some name =>
      simp only [List.filterMap_cons, hl]
      rw [forEach_scanTextureLine rest _, List.getLast?_cons]
      rfl

/-- C20: the scan of the trimmed lines of a texture-info table, in table order.
The resolved texture name `ctx.texture` becomes the text behind the prefix
`"texture texture0 "` (17 characters) or `"texture tex "` (12 characters) of the
last line that begins with one of the two; lines before it do not matter.  If no
line begins with either prefix the name stays what it was, empty when it was
empty.  The lines `"texture texture0 A"`, `"texture texture0 B"` resolve to
`"B"`. -/
theorem scanTextureLine_last_match (lines : List (List Byte)) (s : St) :
    forEach lines scanTextureLine s =
        .ok () { s with texture := ((lines.filterMap textureOfLine).getLast?).getD s.texture } ∧
      (∀ (before after : List (List Byte)) (line : List Byte),
        lines = before ++ line :: after →
        (beginsWith line (ascii "texture texture0 ") = true ∨
          beginsWith line (ascii "texture tex ") = true) →
        (∀ l ∈ after, beginsWith l (ascii "texture texture0 ") = false ∧
          beginsWith l (ascii "texture tex ") = false) →
        (forEach lines scanTextureLine s).state.texture =
          line.drop (if beginsWith line (ascii "texture texture0 ") then 17 else 12)) ∧
      ((∀ l ∈ lines, beginsWith l (ascii "texture texture0 ") = false ∧
          beginsWith l (ascii "texture tex ") = false) →
        (forEach lines scanTextureLine s).state.texture = s.texture ∧
          (s.texture = [] → (forEach lines scanTextureLine s).state.texture = [])) ∧
      (ascii "texture texture0 ").length = 17 ∧ (ascii "texture tex ").length = 12 ∧
      (forEach [ascii "texture texture0 A", ascii "texture texture0 B"] scanTextureLine
        s).state.texture = ascii "B" := by
  refine ⟨forEach_scanTextureLine lines s, ?_, ?_, by decide, by decide, ?_⟩
  · intro before after line hl hm ha
    have hafter : after.filterMap textureOfLine = [] := by
      rw [List.filterMap_eq_nil_iff]
      intro l hmem
      exact textureOfLine_eq_none (ha l hmem)
    rw [forEach_scanTextureLine, hl]
    simp only [Res.state, List.filterMap_append, List.filterMap_cons,
      textureOfLine_eq_some hm, hafter, List.getLast?_concat, Option.getD_some]
  · intro hn
    have hall : lines.filterMap textureOfLine = [] := by
      rw [List.filterMap_eq_nil_iff]
      intro l hmem
      exact textureOfLine_eq_none (hn l hmem)
    rw [forEach_scanTextureLine, hall]
    exact ⟨rfl, fun h => h⟩
  · rw [forEach_scanTextureLine]
    have : ([ascii "texture texture0 A", ascii "texture texture0 B"].filterMap
        textureOfLine).getLast? = some (ascii "B") := by decide
    simp only [this, Res.state, Option.getD_some]

theorem scanTextureLine_last_match_witness :
    (forEach [ascii "texture tex first", ascii "texture texture0 second", ascii "other"]
        scanTextureLine (St.init [])).state.texture = ascii "second" ∧
      (forEach [ascii "other"] scanTextureLine (St.init [])).state.texture = [] :=
  ⟨(scanTextureLine_last_match
      [ascii "texture tex first", ascii "texture texture0 second", ascii "other"]
      (St.init [])).2.1 [ascii "texture tex first"] [ascii "other"] (ascii "texture texture0 second")
      rfl (by decide) (by decide),
    ((scanTextureLine_last_match [ascii "other"] (St.init [])).2.2.1 (by decide)).2 rfl⟩

/-! ## Symbolic execution of a successful decode -/

theorem readFixed_bind_ok {α β : Type} (n : Nat) (value : List Byte → Nat → α)
    (f : α → Parser β) (s s2 : St) (b : β) :
    (readFixed n value >>= f) s = .ok b s2 ↔
      s.pos + n ≤ s.mdb.length ∧ f (value s.mdb s.pos) { s with pos := s.pos + n } = .ok b s2 := by
  simp only [bind_run, readFixed]
  by_cases h : s.pos + n ≤ s.mdb.length
  · simp [h]
  · simp [h]

theorem skip_bind {β : Type} (n : Nat) (f : Unit → Parser β) (s : St) :
    (skip n >>= f) s = f () { s with pos := s.pos + n } := rfl

theorem seekTo_bind {β : Type} (n : Nat) (f : Nat → Parser β) (s : St) :
    (seekTo n >>= f) s = f s.pos { s with pos := n } := rfl

theorem seek_bind {β : Type} (n : Nat) (f : Unit → Parser β) (s : St) :
    (seek n >>= f) s = f () { s with pos := n } := rfl

theorem getSt_bind {β : Type} (f : St → Parser β) (s : St) : (getSt >>= f) s = f s s := rfl

theorem fn_bind {β : Type} (g : St → St) (f : Unit → Parser β) (s : St) :
    ((fun t => Res.ok () (g t) : Parser Unit) >>= f) s = f () (g s) := rfl

theorem pure_bind_run {α β : Type} (a : α) (f : α → Parser β) (s : St) :
    (pure a >>= f) s = f a s := rfl

theorem modifyNode_bind_ok {β : Type} (g : Node → Node) (f : Unit → Parser β) (s s2 : St)
    (b : β) :
    (modifyNode g >>= f) s = .ok b s2 ↔
      ∃ n, s.node = some n ∧ n < s.heap.length ∧
        f () { s with heap := s.heap.modify g n } = .ok b s2 := by
  simp only [bind_run, modifyNode]
  cases hn : s.node with
  | none => simp
  | some n =>
    by_cases hl : n < s.heap.length
    · simp [hl]
    · simp [hl]

theorem modifyNode_bind_of {β : Type} (g : Node → Node) (f : Unit → Parser β) (s : St) (n : Nat)
    (hn : s.node = some n) (hl : n < s.heap.length) :
    (modifyNode g >>= f) s = f () { s with heap := s.heap.modify g n } := by
  simp only [bind_run, modifyNode, hn, hl, if_true]

theorem modifyNode_ok_iff (g : Node → Node) (s s2 : St) (b : Unit) :
    modifyNode g s = .ok b s2 ↔
      ∃ n, s.node = some n ∧ n < s.heap.length ∧ s2 = { s with heap := s.heap.modify g n } := by
  simp only [modifyNode]
  cases hn : s.node with
  | none => simp
  | some n =>
    by_cases hl : n < s.heap.length
    · simp [hl, eq_comm]
    · simp [hl]

/-- The warnings of `readArray` on the descriptor at `p`. -/
theorem readArray_bind_ok {β : Type} (f : Nat × Nat → Parser β) (s s2 : St) (b : β) :
    (readArray >>= f) s = .ok b s2 ↔
      s.pos + 12 ≤ s.mdb.length ∧
        f (le32At s.mdb s.pos, le32At s.mdb (s.pos + 4))
          { s with
            pos := s.pos + 12
            log := s.log ++ (if le32At s.mdb (s.pos + 4) = le32At s.mdb (s.pos + 8) then []
              else [.arrayCount (le32At s.mdb (s.pos + 4)) (le32At s.mdb (s.pos + 8))]) } =
          .ok b s2 := by
  by_cases h : s.pos + 12 ≤ s.mdb.length
  · rw [bind_of_ok (readArray_ok s h)]
    by_cases hc : le32At s.mdb (s.pos + 4) = le32At s.mdb (s.pos + 8)
    · simp [h, hc]
    · simp [h, hc]
  · obtain ⟨s1, h1⟩ := readArray_fail s h
    rw [bind_of_fail h1]
    simp [h]

theorem storeVertex_bind_ok {β : Type} (i : Nat) (v : Float32) (f : Unit → Parser β)
    (s s2 : St) (b : β) :
    (storeVertex i v >>= f) s = .ok b s2 ↔
      i < s.vertices.length ∧ f () { s with vertices := s.vertices.set i v } = .ok b s2 := by
  simp only [bind_run, storeVertex]
  by_cases h : i < s.vertices.length
  · simp [h]
  · simp [h]

theorem storeVertex_ok_iff (i : Nat) (v : Float32) (s s2 : St) (b : Unit) :
    storeVertex i v s = .ok b s2 ↔
      i < s.vertices.length ∧ s2 = { s with vertices := s.vertices.set i v } := by
  simp only [storeVertex]
  by_cases h : i < s.vertices.length
  · simp [h, eq_comm]
  · simp [h]

theorem storeVertexTexture_bind_ok {β : Type} (i : Nat) (v : Float32) (f : Unit → Parser β)
    (s s2 : St) (b : β) :
    (storeVertexTexture i v >>= f) s = .ok b s2 ↔
      i < s.verticesTexture.length ∧
        f () { s with verticesTexture := s.verticesTexture.set i v } = .ok b s2 := by
  simp only [bind_run, storeVertexTexture]
  by_cases h : i < s.verticesTexture.length
  · simp [h]
  · simp [h]

theorem storeVertexTexture_ok_iff (i : Nat) (v : Float32) (s s2 : St) (b : Unit) :
    storeVertexTexture i v s = .ok b s2 ↔
      i < s.verticesTexture.length ∧
        s2 = { s with verticesTexture := s.verticesTexture.set i v } := by
  simp only [storeVertexTexture]
  by_cases h : i < s.verticesTexture.length
  · simp [h, eq_comm]
  · simp [h]

theorem storeFace_bind_ok {β : Type} (i : Nat) (v : Nat) (f : Unit → Parser β)
    (s s2 : St) (b : β) :
    (storeFace i v >>= f) s = .ok b s2 ↔
      i < s.faces.length ∧ f () { s with faces := s.faces.set i v } = .ok b s2 := by
  simp only [bind_run, storeFace]
  by_cases h : i < s.faces.length
  · simp [h]
  · simp [h]

theorem storeFace_ok_iff (i : Nat) (v : Nat) (s s2 : St) (b : Unit) :
    storeFace i v s = .ok b s2 ↔
      i < s.faces.length ∧ s2 = { s with faces := s.faces.set i v } := by
  simp only [storeFace]
  by_cases h : i < s.faces.length
  · simp [h, eq_comm]
  · simp [h]

theorem fn_ok_iff (g : St → St) (s s2 : St) (b : Unit) :
    (fun t => Res.ok () (g t) : Parser Unit) s = .ok b s2 ↔ s2 = g s := by
  simp [eq_comm]

/-- The body of the vertex loop, when it returns. -/
theorem readVertex_ok_iff (i : Nat) (s s1 : St) (b : Unit) :
    readVertex i s = .ok b s1 ↔
      s.pos + 12 ≤ s.mdb.length ∧ (3 * i + 0) % 2 ^ 32 < s.vertices.length ∧
        (3 * i + 1) % 2 ^ 32 < s.vertices.length ∧ (3 * i + 2) % 2 ^ 32 < s.vertices.length ∧
        s1 = { s with
          pos := s.pos + 12
          vertices := ((s.vertices.set ((3 * i + 0) % 2 ^ 32) (le32At s.mdb s.pos)).set
            ((3 * i + 1) % 2 ^ 32) (le32At s.mdb (s.pos + 4))).set ((3 * i + 2) % 2 ^ 32)
            (le32At s.mdb (s.pos + 8)) } := by
  unfold readVertex
  simp only [readIEEEFloatLE, readFixed_bind_ok, storeVertex_bind_ok, storeVertex_ok_iff,
    List.length_set]
  constructor
  · rintro ⟨h1, h2, h3, h4, h5, h6, h7⟩
    refine ⟨by omega, h2, h4, h6, ?_⟩
    rw [h7]
  · rintro ⟨h1, h2, h3, h4, h5⟩
    refine ⟨by omega, h2, by omega, h3, by omega, h4, ?_⟩
    rw [h5]

theorem set3_getElem? {α : Type} (l : List α) (b q : Nat) (f : Nat → α) (h : b + 2 < l.length) :
    (((l.set b (f 0)).set (b + 1) (f 1)).set (b + 2) (f 2))[q]? =
      if b ≤ q ∧ q < b + 3 then some (f (q - b)) else l[q]? := by
  have h0 : b < l.length := by omega
  have h1 : b + 1 < l.length := by omega
  simp only [List.getElem?_set, List.length_set, h, h0, h1, if_true]
  by_cases e2 : b + 2 = q
  · subst e2
    have : b ≤ b + 2 ∧ b + 2 < b + 3 := by omega
    simp [this]
  · by_cases e1 : b + 1 = q
    · subst e1
      have : b ≤ b + 1 ∧ b + 1 < b + 3 := by omega
      simp [this]
    · by_cases e0 : b = q
      · subst e0
        simp
      · have : ¬ (b ≤ q ∧ q < b + 3) := by omega
        simp [e0, e1, e2, this]

/-- A loop whose iteration `i` reads a record of `S` bytes at the cursor and
stores three values taken from it in the entries `3 * i`, `3 * i + 1` and
`3 * i + 2` (in `uint32` arithmetic) of a buffer: where the cursor ends, that
the indices were within the buffer, and, when the indices cannot wrap, what the
buffer holds. -/
theorem forLoop_store3 {γ : Type} (body : Nat → Parser Unit) (get : St → List Nat)
    (rest : St → γ) (S : Nat) (val : List Byte → Nat → Nat → Nat) (Inv : St → Prop)
    (hstep : ∀ i s s1, Inv s → body i s = .ok () s1 →
      (∀ k, k < 3 → (3 * i + k) % 2 ^ 32 < (get s).length) ∧
      s1.pos = s.pos + S ∧ s1.mdb = s.mdb ∧ rest s1 = rest s ∧ Inv s1 ∧
      get s1 = (((get s).set ((3 * i + 0) % 2 ^ 32) (val s.mdb s.pos 0)).set
        ((3 * i + 1) % 2 ^ 32) (val s.mdb s.pos 1)).set ((3 * i + 2) % 2 ^ 32)
        (val s.mdb s.pos 2)) :
    ∀ count i s s1, Inv s → forLoop count i body s = .ok () s1 →
      s1.pos = s.pos + S * count ∧ s1.mdb = s.mdb ∧ rest s1 = rest s ∧
      (get s1).length = (get s).length ∧
      (∀ j, i ≤ j → j < i + count → ∀ k, k < 3 → (3 * j + k) % 2 ^ 32 < (get s).length) ∧
      (3 * (i + count) ≤ 2 ^ 32 → ∀ q, (get s1)[q]? =
        if 3 * i ≤ q ∧ q < 3 * (i + count) then
          some (val s.mdb (s.pos + S * (q / 3 - i)) (q % 3))
        else (get s)[q]?)
  | 0, i, s, s1, _, h => by
    cases h
    refine ⟨rfl, rfl, rfl, rfl, ?_, ?_⟩
    · intro j h1 h2; omega
    · intro _ q
      have : ¬ (3 * i ≤ q ∧ q < 3 * (i + 0)) := by omega
      rw [if_neg this]
  | count + 1, i, s, s1, hinv, h => by
    unfold forLoop at h
    obtain ⟨_, t, hb, hl⟩ := bind_ok_inv h
    obtain ⟨b1, p1, m1, r1, i1, g1⟩ := hstep i s t hinv hb
    obtain ⟨p2, m2, r2, l2, b2, c2⟩ := forLoop_store3 body get rest S val Inv hstep count (i + 1) t
      s1 i1 hl
    have lt : (get t).length = (get s).length := by
      rw [g1]; simp only [List.length_set]
    refine ⟨?_, m2.trans m1, r2.trans r1, l2.trans lt, ?_, ?_⟩
    · rw [p2, p1, Nat.mul_succ]; omega
    · intro j h1 h2 k hk
      by_cases hj : j = i
      · subst hj; exact b1 k hk
      · have := b2 j (by omega) (by omega) k hk
        rw [lt] at this
        exact this
    · intro hw q
      have c3 := c2 (by omega) q
      rw [c3, m1, p1]
      have e0 : (3 * i + 0) % 2 ^ 32 = 3 * i := by omega
      have e1 : (3 * i + 1) % 2 ^ 32 = 3 * i + 1 := by omega
      have e2 : (3 * i + 2) % 2 ^ 32 = 3 * i + 2 := by omega
      have hb2 := b1 2 (by omega)
      rw [e2] at hb2
      by_cases hq1 : 3 * (i + 1) ≤ q ∧ q < 3 * (i + 1 + count)
      · have hq : 3 * i ≤ q ∧ q < 3 * (i + (count + 1)) := by omega
        rw [if_pos hq1, if_pos hq]
        have : q / 3 - i = (q / 3 - (i + 1)) + 1 := by omega
        rw [this, Nat.mul_succ]
        congr 2
        omega
      · rw [if_neg hq1, g1, e0, e1, e2, set3_getElem? (get s) (3 * i) q (val s.mdb s.pos) hb2]
        by_cases hq0 : 3 * i ≤ q ∧ q < 3 * i + 3
        · have hq : 3 * i ≤ q ∧ q < 3 * (i + (count + 1)) := by omega
          rw [if_pos hq0, if_pos hq]
          have z : q / 3 - i = 0 := by omega
          have z2 : q - 3 * i = q % 3 := by omega
          rw [z, z2, Nat.mul_zero, Nat.add_zero]
        · have hq : ¬ (3 * i ≤ q ∧ q < 3 * (i + (count + 1))) := by omega
          rw [if_neg hq0, if_neg hq]

theorem bind_assoc_run {α β γ : Type} (m : Parser α) (g : α → Parser β) (f : β → Parser γ) :
    (m >>= g) >>= f = m >>= fun a => g a >>= f := by
  funext s
  simp only [bind_run]
  cases m s <;> rfl

theorem skip_ok_iff (n : Nat) (s s2 : St) (b : Unit) :
    skip n s = .ok b s2 ↔ s2 = { s with pos := s.pos + n } := by
  simp [skip, eq_comm]

theorem pure_ok_iff {α : Type} (a b : α) (s s2 : St) :
    (pure a : Parser α) s = .ok b s2 ↔ b = a ∧ s2 = s := by
  simp [eq_comm]

/-- The body of the texture coordinate loop, when it returns. -/
theorem readVertexTexture_ok_iff (i : Nat) (s s1 : St) (b : Unit) :
    readVertexTexture i s = .ok b s1 ↔
      s.pos + 8 ≤ s.mdb.length ∧ (3 * i + 0) % 2 ^ 32 < s.verticesTexture.length ∧
        (3 * i + 1) % 2 ^ 32 < s.verticesTexture.length ∧
        (3 * i + 2) % 2 ^ 32 < s.verticesTexture.length ∧
        s1 = { s with
          pos := s.pos + 8
          verticesTexture := ((s.verticesTexture.set ((3 * i + 0) % 2 ^ 32)
            (le32At s.mdb s.pos)).set ((3 * i + 1) % 2 ^ 32) (le32At s.mdb (s.pos + 4))).set
            ((3 * i + 2) % 2 ^ 32) 0 } := by
  unfold readVertexTexture
  simp only [readIEEEFloatLE, readFixed_bind_ok, storeVertexTexture_bind_ok,
    storeVertexTexture_ok_iff, List.length_set]
  constructor
  · rintro ⟨h1, h2, h3, h4, h5, h6⟩
    refine ⟨by omega, h2, h4, h5, ?_⟩
    rw [h6]
  · rintro ⟨h1, h2, h3, h4, h5⟩
    refine ⟨by omega, h2, by omega, h3, h4, ?_⟩
    rw [h5]

/-- The body of the face loop, when it returns. -/
theorem readFace_ok_iff (i : Nat) (s s1 : St) (b : Unit) :
    readFace i s = .ok b s1 ↔
      s.pos + faceIndexOffset s.fileVersion + 12 ≤ s.mdb.length ∧
        (3 * i + 0) % 2 ^ 32 < s.faces.length ∧ (3 * i + 1) % 2 ^ 32 < s.faces.length ∧
        (3 * i + 2) % 2 ^ 32 < s.faces.length ∧
        s1 = { s with
          pos := s.pos + faceStride s.fileVersion
          faces := ((s.faces.set ((3 * i + 0) % 2 ^ 32)
            (le32At s.mdb (s.pos + faceIndexOffset s.fileVersion))).set ((3 * i + 1) % 2 ^ 32)
            (le32At s.mdb (s.pos + faceIndexOffset s.fileVersion + 4))).set
            ((3 * i + 2) % 2 ^ 32) (le32At s.mdb (s.pos + faceIndexOffset s.fileVersion + 8)) } := by
  unfold readFace
  by_cases hv : s.fileVersion = 133
  · simp only [readUint32LE, readFixed_bind_ok, storeFace_bind_ok, skip_bind, getSt_bind, hv,
      beq_self_eq_true, if_true, skip_ok_iff, List.length_set, faceStride, faceIndexOffset]
    constructor
    · rintro ⟨h1, h2, h3, h4, h5, h6, h7⟩
      refine ⟨by omega, h2, h4, h6, ?_⟩
      rw [h7]
    · rintro ⟨h1, h2, h3, h4, h5⟩
      refine ⟨by omega, h2, by omega, h3, by omega, h4, ?_⟩
      rw [h5]
  · have hv2 : (s.fileVersion == 133) = false := by simpa using hv
    simp only [readUint32LE, readFixed_bind_ok, storeFace_bind_ok, skip_bind, getSt_bind, hv, hv2,
      Bool.false_eq_true, if_false, pure_bind_run, pure_ok_iff, List.length_set, faceStride,
      faceIndexOffset, true_and]
    constructor
    · rintro ⟨h1, h2, h3, h4, h5, h6, h7⟩
      refine ⟨by omega, h2, h4, h6, ?_⟩
      rw [h7]
    · rintro ⟨h1, h2, h3, h4, h5⟩
      refine ⟨by omega, h2, by omega, h3, by omega, h4, ?_⟩
      rw [h5]

theorem no_wrap_of_bounds (count L : Nat) (hL : L = (3 * count) % 2 ^ 32)
    (hb : ∀ j, j < count → ∀ k, k < 3 → (3 * j + k) % 2 ^ 32 < L) : 3 * count < 2 ^ 32 := by
  by_contra hc
  have h1 := hb (L / 3) (by omega) (L % 3) (by omega)
  omega

/-- The loop of `forLoop_store3` run from index 0 on a buffer that was resized to
`3 * count` elements in `uint32` arithmetic: the count cannot have wrapped, and
the whole buffer is determined by the stream. -/
theorem forLoop_store3_full {γ : Type} (body : Nat → Parser Unit) (get : St → List Nat)
    (rest : St → γ) (S : Nat) (val : List Byte → Nat → Nat → Nat) (Inv : St → Prop)
    (hstep : ∀ i s s1, Inv s → body i s = .ok () s1 →
      (∀ k, k < 3 → (3 * i + k) % 2 ^ 32 < (get s).length) ∧
      s1.pos = s.pos + S ∧ s1.mdb = s.mdb ∧ rest s1 = rest s ∧ Inv s1 ∧
      get s1 = (((get s).set ((3 * i + 0) % 2 ^ 32) (val s.mdb s.pos 0)).set
        ((3 * i + 1) % 2 ^ 32) (val s.mdb s.pos 1)).set ((3 * i + 2) % 2 ^ 32)
        (val s.mdb s.pos 2))
    (count : Nat) (s s1 : St) (hinv : Inv s) (hlen : (get s).length = (3 * count) % 2 ^ 32)
    (h : forLoop count 0 body s = .ok () s1) :
    3 * count < 2 ^ 32 ∧ s1.pos = s.pos + S * count ∧ s1.mdb = s.mdb ∧ rest s1 = rest s ∧
      get s1 = (List.range (3 * count)).map (fun q => val s.mdb (s.pos + S * (q / 3)) (q % 3)) := by
  obtain ⟨p, m, r, l, b, c⟩ := forLoop_store3 body get rest S val Inv hstep count 0 s s1 hinv h
  have hw : 3 * count < 2 ^ 32 :=
    no_wrap_of_bounds count (get s).length hlen (fun j hj k hk => b j (by omega) (by omega) k hk)
  refine ⟨hw, p, m, r, ?_⟩
  have hl3 : (get s).length = 3 * count := by omega
  apply List.ext_getElem?
  intro q
  rw [c (by omega) q]
  by_cases hq : q < 3 * count
  · have : 3 * 0 ≤ q ∧ q < 3 * (0 + count) := by omega
    rw [if_pos this, List.getElem?_map, List.getElem?_range hq]
    simp
  · have : ¬ (3 * 0 ≤ q ∧ q < 3 * (0 + count)) := by omega
    rw [if_neg this, List.getElem?_eq_none (by omega), List.getElem?_eq_none (by simp; omega)]

theorem forLoop_readVertex_inv (count : Nat) (s s1 : St)
    (hlen : s.vertices.length = (3 * count) % 2 ^ 32)
    (h : forLoop count 0 readVertex s = .ok () s1) :
    3 * count < 2 ^ 32 ∧
      s1 = { s with
        pos := s.pos + 12 * count
        vertices := (List.range (3 * count)).map
          (fun q => le32At s.mdb (s.pos + 12 * (q / 3) + 4 * (q % 3))) } := by
  obtain ⟨hw, p, m, r, g⟩ := forLoop_store3_full readVertex St.vertices
    (fun t => { t with pos := 0, vertices := [] }) 12 (fun d p k => le32At d (p + 4 * k))
    (fun _ => True)
    (by
      intro i s s1 _ hb
      obtain ⟨-, b0, b1, b2, e⟩ := (readVertex_ok_iff i s s1 ()).1 hb
      subst e
      refine ⟨?_, rfl, rfl, rfl, trivial, rfl⟩
      intro k hk
      have : k = 0 ∨ k = 1 ∨ k = 2 := by omega
      rcases this with rfl | rfl | rfl
      · exact b0
      · exact b1
      · exact b2)
    count s s1 trivial hlen h
  refine ⟨hw, ?_⟩
  cases s; cases s1
  simp only [St.mk.injEq] at r p m g ⊢
  simp_all

theorem forLoop_readVertexTexture_inv (count : Nat) (s s1 : St)
    (hlen : s.verticesTexture.length = (3 * count) % 2 ^ 32)
    (h : forLoop count 0 readVertexTexture s = .ok () s1) :
    3 * count < 2 ^ 32 ∧
      s1 = { s with
        pos := s.pos + 8 * count
        verticesTexture := (List.range (3 * count)).map
          (fun q => if q % 3 = 2 then 0 else le32At s.mdb (s.pos + 8 * (q / 3) + 4 * (q % 3))) } := by
  obtain ⟨hw, p, m, r, g⟩ := forLoop_store3_full readVertexTexture St.verticesTexture
    (fun t => { t with pos := 0, verticesTexture := [] }) 8
    (fun d p k => if k = 2 then 0 else le32At d (p + 4 * k))
    (fun _ => True)
    (by
      intro i s s1 _ hb
      obtain ⟨-, b0, b1, b2, e⟩ := (readVertexTexture_ok_iff i s s1 ()).1 hb
      subst e
      refine ⟨?_, rfl, rfl, rfl, trivial, rfl⟩
      intro k hk
      have : k = 0 ∨ k = 1 ∨ k = 2 := by omega
      rcases this with rfl | rfl | rfl
      · exact b0
      · exact b1
      · exact b2)
    count s s1 trivial hlen h
  refine ⟨hw, ?_⟩
  cases s; cases s1
  simp only [St.mk.injEq] at r p m g ⊢
  simp_all

theorem forLoop_readFace_inv (count : Nat) (s s1 : St)
    (hlen : s.faces.length = (3 * count) % 2 ^ 32)
    (h : forLoop count 0 readFace s = .ok () s1) :
    3 * count < 2 ^ 32 ∧
      s1 = { s with
        pos := s.pos + faceStride s.fileVersion * count
        faces := (List.range (3 * count)).map
          (fun q => le32At s.mdb (s.pos + faceStride s.fileVersion * (q / 3) +
            faceIndexOffset s.fileVersion + 4 * (q % 3))) } := by
  obtain ⟨hw, p, m, r, g⟩ := forLoop_store3_full readFace St.faces
    (fun t => { t with pos := 0, faces := [] }) (faceStride s.fileVersion)
    (fun d p k => le32At d (p + faceIndexOffset s.fileVersion + 4 * k))
    (fun t => t.fileVersion = s.fileVersion)
    (by
      intro i t t1 hv hb
      obtain ⟨-, b0, b1, b2, e⟩ := (readFace_ok_iff i t t1 ()).1 hb
      subst e
      refine ⟨?_, by rw [hv], rfl, rfl, hv, by simp only [hv, Nat.mul_zero, Nat.add_zero]⟩
      intro k hk
      have : k = 0 ∨ k = 1 ∨ k = 2 := by omega
      rcases this with rfl | rfl | rfl
      · exact b0
      · exact b1
      · exact b2)
    count s s1 rfl hlen h
  refine ⟨hw, ?_⟩
  cases s; cases s1
  simp only [St.mk.injEq] at r p m g ⊢
  simp_all

theorem length_resize (v : List Nat) (n : Nat) : (resize v n).length = n := by
  simp only [resize, List.length_append, List.length_take, List.length_replicate]
  omega

theorem readTextureLine_run (s : St) :
    readTextureLine s =
      .ok (trim (lineOf (s.mdb.drop s.pos))) { s with pos := textureLineEnd s.mdb s.pos } := rfl

theorem collect_readTextureLine :
    ∀ (count : Nat) (s : St), collect count readTextureLine s =
      .ok (textureLines s.mdb count s.pos) { s with pos := textureLinesEnd s.mdb count s.pos }
  | 0, _ => rfl
  | count + 1, s => by
    unfold collect
    rw [bind_of_ok (readTextureLine_run s),
      bind_of_ok (collect_readTextureLine count _)]
    rfl

/-- The last edit of `readMesh` to the stream state behind the array
descriptors (lines 308-309), as one step. -/
theorem texData_bind_ok {β : Type} (v : Nat) (f : Unit → Parser β) (s s2 : St) (b : β) :
    ((if v == 133 then
        (readFixed 4 le32At >>= fun offTexData =>
          (fun t => Res.ok () { t with offTexData := offTexData } : Parser Unit))
      else pure ()) >>= f) s = .ok b s2 ↔
      (v = 133 → s.pos + 4 ≤ s.mdb.length) ∧
        f () { s with
          pos := if v = 133 then s.pos + 4 else s.pos
          offTexData := if v = 133 then le32At s.mdb s.pos else s.offTexData } = .ok b s2 := by
  by_cases hv : v = 133
  · subst hv
    simp only [beq_self_eq_true, if_true, bind_assoc_run, readFixed_bind_ok, fn_bind, true_implies]
  · have hv2 : (v == 133) = false := by simpa using hv
    simp only [hv2, hv, Bool.false_eq_true, if_false, pure_bind_run, false_implies, true_and]

theorem collect_readTextureLine_bind {β : Type} (count : Nat) (f : List (List Byte) → Parser β)
    (s : St) :
    (collect count readTextureLine >>= f) s =
      f (textureLines s.mdb count s.pos) { s with pos := textureLinesEnd s.mdb count s.pos } :=
  bind_of_ok (collect_readTextureLine count s)

theorem forEach_scanTextureLine_bind {β : Type} (lines : List (List Byte)) (f : Unit → Parser β)
    (s : St) :
    (forEach lines scanTextureLine >>= f) s =
      f () { s with texture := ((lines.filterMap textureOfLine).getLast?).getD s.texture } :=
  bind_of_ok (forEach_scanTextureLine lines s)

/-- A `readMesh` that returns was entered with `ctx.node` an allocated node. -/
theorem readMesh_node {s s2 : St} (h : readMesh s = .ok () s2) :
    ∃ n, s.node = some n ∧ n < s.heap.length := by
  unfold readMesh at h
  rw [skip_bind, readUint32LE, readFixed_bind_ok] at h
  obtain ⟨-, h⟩ := h
  rw [skip_bind, readIEEEFloatLE, readFixed_bind_ok] at h
  obtain ⟨-, h⟩ := h
  rw [modifyNode_bind_ok] at h
  obtain ⟨n, hn, hl, -⟩ := h
  exact ⟨n, hn, hl⟩

set_option maxHeartbeats 1600000 in
/-- What a successful `readMesh` has read and done, in full: `ctx.node` was an
allocated node; the mesh sub-record up to its word at byte 760, the ten array
descriptors (and the word behind them for version 133) and, unless the first
texture name is `"NULL"`, the two words of the texture-info table were within the
stream; the three counts times 3 fit 32 bits; and the state it leaves is
`meshState` with the log `meshLog`. -/
theorem readMesh_inv {s s2 : St} (h : readMesh s = .ok () s2) :
    ∃ n nd, s.node = some n ∧ s.heap[n]? = some nd ∧ s.pos + 764 ≤ s.mdb.length ∧
      meshArraysAt s + 124 ≤ s.mdb.length ∧
      (s.fileVersion = 133 → meshArraysAt s + 128 ≤ s.mdb.length) ∧
      (meshTexture0 s ≠ ascii "NULL" → meshTextureInfoAt s + 8 ≤ s.mdb.length) ∧
      3 * meshArrayCount s 0 < 2 ^ 32 ∧ 3 * meshArrayCount s 4 < 2 ^ 32 ∧
      3 * meshArrayCount s 9 < 2 ^ 32 ∧ s2 = meshState s n nd (meshLog s) := by
  obtain ⟨n, hn, hl⟩ := readMesh_node h
  have hnd : s.heap[n]? = some s.heap[n] := List.getElem?_eq_getElem hl
  refine ⟨n, s.heap[n], hn, hnd, ?_⟩
  unfold readMesh at h
  simp only [readUint32LE, readIEEEFloatLE, readUint32BE, readASCII, readFixed_bind_ok, skip_bind,
    modifyNode_bind_of _ _ _ n, hn, hl, List.length_modify, seekTo_bind, getSt_bind,
    readArray_bind_ok, fn_bind, texData_bind_ok, modify_modify_same] at h
  repeat (have hb := h.1; replace h := h.2)
  have hver := hb
  replace h := bind_ok_inv h
  obtain ⟨_, t, hloop, h⟩ := h
  obtain ⟨hw0, ht⟩ := forLoop_readVertex_inv _ _ _ (length_resize _ _) hloop
  subst ht
  clear hloop
  simp only [fn_bind, seekTo_bind] at h
  replace h := bind_ok_inv h
  obtain ⟨_, t, hloop, h⟩ := h
  obtain ⟨hw4, ht⟩ := forLoop_readVertexTexture_inv _ _ _ (length_resize _ _) hloop
  subst ht
  clear hloop
  simp only [fn_bind, seekTo_bind] at h
  replace h := bind_ok_inv h
  obtain ⟨_, t, hloop, h⟩ := h
  obtain ⟨hw9, ht⟩ := forLoop_readFace_inv _ _ _ (length_resize _ _) hloop
  subst ht
  clear hloop
  simp only [Nat.add_assoc, Nat.reduceAdd] at h hw0 hw4 hw9 hver
  have hb764 : s.pos + 764 ≤ s.mdb.length := by omega
  have hc0 : 3 * meshArrayCount s 0 < 2 ^ 32 := by
    simpa only [meshArrayCount, meshArraysAt, Nat.add_assoc, Nat.reduceAdd, Nat.mul_zero,
      Nat.add_zero, Nat.reduceMul] using hw0
  have hc4 : 3 * meshArrayCount s 4 < 2 ^ 32 := by
    simpa only [meshArrayCount, meshArraysAt, Nat.add_assoc, Nat.reduceAdd, Nat.mul_zero,
      Nat.add_zero, Nat.reduceMul] using hw4
  have hc9 : 3 * meshArrayCount s 9 < 2 ^ 32 := by
    simpa only [meshArrayCount, meshArraysAt, Nat.add_assoc, Nat.reduceAdd, Nat.mul_zero,
      Nat.add_zero, Nat.reduceMul] using hw9
  have hA : meshArraysAt s + 124 ≤ s.mdb.length := by
    unfold meshArraysAt; omega
  have hA2 : s.fileVersion = 133 → meshArraysAt s + 128 ≤ s.mdb.length := by
    intro hv
    have := hver hv
    unfold meshArraysAt; omega
  clear hw0 hw4 hw9 hver
  by_cases ht0 : meshTexture0 s = ascii "NULL"
  · have ht1 := ht0
    unfold meshTexture0 at ht1
    simp only [ht1, bne_self_eq_false, Bool.false_eq_true, if_false, modifyNode_bind_of _ _ _ n,
      hn, hl, List.length_modify, seekTo_bind, pure_ok_iff, modify_modify_same, true_and] at h
    subst h
    refine ⟨hb764, hA, hA2, fun hne => absurd ht0 hne, hc0, hc4, hc9, ?_⟩
    simp only [meshState, meshVertices, meshTexCoords, meshFaces, meshTexData, meshTexture,
      meshNode, meshLog, meshArrayWarning, meshArrayCount, meshArrayStart, meshArraysAt, ht0,
      if_true, Nat.add_assoc, Nat.reduceAdd, Nat.reduceMul, Nat.mul_zero, Nat.add_zero, hn,
      modify_eq_set _ _ _ _ hnd]
  · have ht1 := ht0
    unfold meshTexture0 at ht1
    have ht2 : (cString (List.take 64 (List.drop (s.pos + 148) s.mdb)) != ascii "NULL") = true := by
      simpa using ht1
    simp only [ht2, if_true, bind_assoc_run, getSt_bind, seek_bind, readFixed_bind_ok,
      collect_readTextureLine_bind, forEach_scanTextureLine_bind, seekTo_bind, pure_ok_iff,
      true_and, beq_iff_eq] at h
    obtain ⟨-, hx, h⟩ := h
    subst h
    have hX : meshTextureInfoAt s + 8 ≤ s.mdb.length := by
      simp only [meshTextureInfoAt, meshTexData, meshArraysAt]
      by_cases hv : s.fileVersion = 133
      · simp only [hv, if_true] at hx ⊢
        omega
      · simp only [hv, if_false] at hx ⊢
        omega
    refine ⟨hb764, hA, hA2, fun _ => hX, hc0, hc4, hc9, ?_⟩
    simp only [meshState, meshVertices, meshTexCoords, meshFaces, meshTexData, meshTexture,
      meshTextureInfoAt, meshNode, meshLog, meshArrayWarning, meshArrayCount, meshArrayStart,
      meshArraysAt, ht0, if_false, Nat.add_assoc, Nat.reduceAdd, Nat.reduceMul, Nat.mul_zero,
      Nat.add_zero, hn, modify_eq_set _ _ _ _ hnd]
    by_cases hv : s.fileVersion = 133
    · simp only [hv, if_true]
    · simp only [hv, if_false]

theorem index_bind_ok {β : Type} (v : List Nat) (i : Nat) (f : Nat → Parser β) (s s2 : St)
    (b : β) :
    (index v i >>= f) s = .ok b s2 ↔ i < v.length ∧ f (v.getD i 0) s = .ok b s2 := by
  by_cases h : i < v.length
  · rw [bind_of_ok (index_lt v i h s)]
    simp [h, List.getD_eq_getElem?_getD, List.getElem?_eq_getElem h]
  · rw [bind_of_fail (index_ge v i (by omega) s)]
    simp [h]

theorem corner_bind_ok {β : Type} (v faces : List Nat) (i k : Nat)
    (f : List Float32 → Parser β) (s s2 : St) (b : β) :
    (corner v faces i k >>= f) s = .ok b s2 ↔
      3 * i + k < faces.length ∧
        (3 * faces.getD (3 * i + k) 0 + 0) % 2 ^ 32 < v.length ∧
        (3 * faces.getD (3 * i + k) 0 + 1) % 2 ^ 32 < v.length ∧
        (3 * faces.getD (3 * i + k) 0 + 2) % 2 ^ 32 < v.length ∧
        f (cornerOf v (faces.getD (3 * i + k) 0)) s = .ok b s2 := by
  unfold corner
  simp only [bind_assoc_run, index_bind_ok, pure_bind_run, cornerOf]

theorem processFace_ok_iff (i : Nat) (s s1 : St) (b : Unit) :
    processFace i s = .ok b s1 ↔
      FaceInRange s i ∧ ∃ n, s.node = some n ∧ n < s.heap.length ∧
        s1 = { s with
          heap := s.heap.modify (fun nd => { nd with faces := nd.faces.set i (faceOf s i) }) n } := by
  unfold processFace
  simp only [getSt_bind, corner_bind_ok, modifyNode_ok_iff, FaceInRange, faceOf]
  constructor
  · rintro ⟨a0, a1, a2, a3, b0, b1, b2, b3, c0, c1, c2, c3, d0, d1, d2, d3, e0, e1, e2, e3,
      f0, f1, f2, f3, h⟩
    refine ⟨?_, h⟩
    intro k hk
    have : k = 0 ∨ k = 1 ∨ k = 2 := by omega
    rcases this with rfl | rfl | rfl
    · refine ⟨a0, ?_⟩
      intro c hc
      have : c = 0 ∨ c = 1 ∨ c = 2 := by omega
      rcases this with rfl | rfl | rfl
      · exact ⟨a1, d1⟩
      · exact ⟨a2, d2⟩
      · exact ⟨a3, d3⟩
    · refine ⟨b0, ?_⟩
      intro c hc
      have : c = 0 ∨ c = 1 ∨ c = 2 := by omega
      rcases this with rfl | rfl | rfl
      · exact ⟨b1, e1⟩
      · exact ⟨b2, e2⟩
      · exact ⟨b3, e3⟩
    · refine ⟨c0, ?_⟩
      intro c hc
      have : c = 0 ∨ c = 1 ∨ c = 2 := by omega
      rcases this with rfl | rfl | rfl
      · exact ⟨c1, f1⟩
      · exact ⟨c2, f2⟩
      · exact ⟨c3, f3⟩
  · rintro ⟨hr, h⟩
    obtain ⟨a0, a⟩ := hr 0 (by omega)
    obtain ⟨b0, b⟩ := hr 1 (by omega)
    obtain ⟨c0, c⟩ := hr 2 (by omega)
    exact ⟨a0, (a 0 (by omega)).1, (a 1 (by omega)).1, (a 2 (by omega)).1,
      b0, (b 0 (by omega)).1, (b 1 (by omega)).1, (b 2 (by omega)).1,
      c0, (c 0 (by omega)).1, (c 1 (by omega)).1, (c 2 (by omega)).1,
      a0, (a 0 (by omega)).2, (a 1 (by omega)).2, (a 2 (by omega)).2,
      b0, (b 0 (by omega)).2, (b 1 (by omega)).2, (b 2 (by omega)).2,
      c0, (c 0 (by omega)).2, (c 1 (by omega)).2, (c 2 (by omega)).2, h⟩

theorem bind_ok_iff {α β : Type} (m : Parser α) (f : α → Parser β) (s s2 : St) (b : β) :
    (m >>= f) s = .ok b s2 ↔ ∃ a t, m s = .ok a t ∧ f a t = .ok b s2 := by
  constructor
  · exact bind_ok_inv
  · rintro ⟨a, t, h1, h2⟩
    rw [bind_of_ok h1, h2]

theorem modify_id_fun {α : Type} : ∀ (l : List α) (n : Nat), l.modify (fun a => a) n = l
  | [], 0 => rfl
  | [], _ + 1 => rfl
  | _ :: _, 0 => rfl
  | a :: l, n + 1 => by
    simp only [List.modify_succ_cons, modify_id_fun l n]

/-- The loop of `processNode` over the faces (lines 391-413): it returns exactly
when every element it reads exists, and then has stored the faces `faceOf`. -/
theorem forLoop_processFace_iff (n : Nat) :
    ∀ (count i0 : Nat) (s s1 : St), s.node = some n → n < s.heap.length →
      (forLoop count i0 processFace s = .ok () s1 ↔
        (∀ i, i0 ≤ i → i < i0 + count → FaceInRange s i) ∧
        s1 = { s with
          heap := s.heap.modify (fun nd => { nd with
            faces := (List.range' i0 count).foldl (fun l i => l.set i (faceOf s i)) nd.faces })
            n })
  | 0, i0, s, s1, _, _ => by
    have e : s.heap.modify (fun nd => { nd with
        faces := (List.range' i0 0).foldl (fun l i => l.set i (faceOf s i)) nd.faces }) n =
        s.heap := modify_id_fun s.heap n
    rw [e]
    constructor
    · intro h
      cases h
      exact ⟨fun i h1 h2 => by omega, rfl⟩
    · rintro ⟨-, h⟩
      rw [h]
      rfl
  | count + 1, i0, s, s1, hn, hl => by
    unfold forLoop
    rw [bind_ok_iff]
    constructor
    · rintro ⟨_, t, h1, h2⟩
      obtain ⟨hr, m, hm, -, ht⟩ := (processFace_ok_iff i0 s t ()).1 h1
      rw [hn] at hm
      cases hm
      have hnt : t.node = some n := by rw [ht]; exact hn
      have hlt : n < t.heap.length := by rw [ht]; simpa using hl
      obtain ⟨hr2, hs1⟩ := (forLoop_processFace_iff n count (i0 + 1) t s1 hnt hlt).1 h2
      subst ht
      refine ⟨?_, ?_⟩
      · intro i h1 h2
        by_cases hi : i = i0
        · subst hi; exact hr
        · exact hr2 i (by omega) (by omega)
      · rw [hs1]
        simp only [modify_modify_same, List.range'_succ, List.foldl_cons]
        rfl
    · rintro ⟨hr, hs1⟩
      have ht : ∃ t, t = { s with
          heap := s.heap.modify (fun nd => { nd with faces := nd.faces.set i0 (faceOf s i0) }) n } :=
        ⟨_, rfl⟩
      obtain ⟨t, ht⟩ := ht
      have hnt : t.node = some n := by rw [ht]; exact hn
      have hlt : n < t.heap.length := by rw [ht]; simpa using hl
      refine ⟨(), t, (processFace_ok_iff i0 s t ()).2 ⟨hr i0 (by omega) (by omega), n, hn, hl, ht⟩,
        ?_⟩
      rw [forLoop_processFace_iff n count (i0 + 1) t s1 hnt hlt]
      subst ht
      refine ⟨fun i h1 h2 => hr i (by omega) (by omega), ?_⟩
      rw [hs1]
      simp only [modify_modify_same, List.range'_succ, List.foldl_cons]
      rfl

theorem foldl_set_getElem? {α : Type} (mk : Nat → α) :
    ∀ (count i0 : Nat) (l : List α) (q : Nat),
      ((List.range' i0 count).foldl (fun l i => l.set i (mk i)) l)[q]? =
        if i0 ≤ q ∧ q < i0 + count ∧ q < l.length then some (mk q) else l[q]?
  | 0, i0, l, q => by
    have : ¬ (i0 ≤ q ∧ q < i0 + 0 ∧ q < l.length) := by omega
    rw [if_neg this]
    rfl
  | count + 1, i0, l, q => by
    rw [List.range'_succ, List.foldl_cons, foldl_set_getElem? mk count (i0 + 1) _ q,
      List.length_set, List.getElem?_set]
    by_cases h1 : i0 + 1 ≤ q ∧ q < i0 + 1 + count ∧ q < l.length
    · have : i0 ≤ q ∧ q < i0 + (count + 1) ∧ q < l.length := by omega
      rw [if_pos h1, if_pos this]
    · rw [if_neg h1]
      by_cases h2 : i0 = q
      · subst h2
        by_cases h3 : i0 < l.length
        · have : i0 ≤ i0 ∧ i0 < i0 + (count + 1) ∧ i0 < l.length := by omega
          rw [if_pos rfl, if_pos h3, if_pos this]
        · have : ¬ (i0 ≤ i0 ∧ i0 < i0 + (count + 1) ∧ i0 < l.length) := by omega
          rw [if_pos rfl, if_neg h3, if_neg this, List.getElem?_eq_none (by omega)]
      · have : ¬ (i0 ≤ q ∧ q < i0 + (count + 1) ∧ q < l.length) := by omega
        rw [if_neg h2, if_neg this]

theorem foldl_set_range {α : Type} (mk : Nat → α) (count : Nat) (l : List α)
    (h : l.length = count) :
    (List.range' 0 count).foldl (fun l i => l.set i (mk i)) l = (List.range count).map mk := by
  apply List.ext_getElem?
  intro q
  rw [foldl_set_getElem?]
  by_cases hq : q < count
  · have : 0 ≤ q ∧ q < 0 + count ∧ q < l.length := by omega
    rw [if_pos this, List.getElem?_map, List.getElem?_range hq]
    rfl
  · have : ¬ (0 ≤ q ∧ q < 0 + count ∧ q < l.length) := by omega
    rw [if_neg this, List.getElem?_eq_none (by omega), List.getElem?_eq_none (by simp; omega)]

/-- The texture request of `processNode` (lines 415-420) followed by the clearing
of the scratch buffers (lines 422-425), from a state in which `ctx.node` is the
allocated node `n`: both outcomes of `TextureMan.get` leave a result. -/
theorem processNode_tail (env : Env) (tex : List Byte) (c : Bool) (t : St) (n : Nat)
    (hn : t.node = some n) (hl : n < t.heap.length) :
    ((if c then (do
        (fun s => .ok () { s with requests := s.requests ++ [tex] } : Parser Unit)
        match env.textureGet tex with
        | some handle => modifyNode (fun n => { n with texture := some handle })
        | none => modifyNode (fun n => { n with texture := none }))
      else pure ()) >>= fun _ =>
      (fun s => .ok () { s with texture := [], vertices := [], verticesTexture := [], faces := [] } :
        Parser Unit)) t =
    .ok () { t with
      texture := []
      vertices := []
      verticesTexture := []
      faces := []
      requests := if c then t.requests ++ [tex] else t.requests
      heap := if c then t.heap.modify (fun nd => { nd with texture := env.textureGet tex }) n
        else t.heap } := by
  cases c with
  | false => rfl
  | true =>
    simp only [if_true, bind_assoc_run, fn_bind]
    cases env.textureGet tex with
    | none =>
      simp only [modifyNode_bind_of _ _ _ n, hn, hl]
    | some handle =>
      simp only [modifyNode_bind_of _ _ _ n, hn, hl]

theorem length_resize_faces (l : List Face) (count : Nat) :
    (l.take count ++ List.replicate (count - l.length) Face.zero).length = count := by
  simp only [List.length_append, List.length_take, List.length_replicate]
  omega

/-- The state that the steps of `processNode` leave, one after the other, is
`processState`. -/
theorem processState_eq (env : Env) (s : St) (n : Nat) (nd : Node) (hnd : s.heap[n]? = some nd) :
    ({ s with
      texture := []
      vertices := []
      verticesTexture := []
      faces := []
      requests := if wantsTexture s then s.requests ++ [s.texture] else s.requests
      heap := if wantsTexture s then
          ((s.heap.modify (fun nd => { nd with
            faces := nd.faces.take (s.faces.length / 3) ++
              List.replicate (s.faces.length / 3 - nd.faces.length) Face.zero }) n).modify
            (fun nd => { nd with
              faces := (List.range' 0 (s.faces.length / 3)).foldl
                (fun l i => l.set i (faceOf s i)) nd.faces }) n).modify
            (fun nd => { nd with texture := env.textureGet s.texture }) n
        else
          (s.heap.modify (fun nd => { nd with
            faces := nd.faces.take (s.faces.length / 3) ++
              List.replicate (s.faces.length / 3 - nd.faces.length) Face.zero }) n).modify
            (fun nd => { nd with
              faces := (List.range' 0 (s.faces.length / 3)).foldl
                (fun l i => l.set i (faceOf s i)) nd.faces }) n } : St) =
      processState env s n nd := by
  unfold processState
  cases wantsTexture s with
  | false =>
    simp only [Bool.false_eq_true, if_false, modify_modify_same]
    rw [modify_eq_set _ _ _ _ hnd]
    simp only [foldl_set_range _ _ _ (length_resize_faces _ _)]
  | true =>
    simp only [if_true, modify_modify_same]
    rw [modify_eq_set _ _ _ _ hnd]
    simp only [foldl_set_range _ _ _ (length_resize_faces _ _)]

/-- When `processNode` returns, and what it has done then: the state it leaves is
`processState`. -/
theorem processNode_ok_iff (env : Env) (s s2 : St) :
    processNode env s = .ok () s2 ↔
      ∃ n nd, s.node = some n ∧ s.heap[n]? = some nd ∧
        (∀ i, i < s.faces.length / 3 → FaceInRange s i) ∧ s2 = processState env s n nd := by
  unfold processNode
  rw [getSt_bind, modifyNode_bind_ok]
  constructor
  · rintro ⟨n, hn, hl, h⟩
    obtain ⟨a, t, hloop, htail⟩ := bind_ok_inv h
    obtain ⟨hr, ht⟩ := (forLoop_processFace_iff n _ 0 _ t (by exact hn) (by simpa using hl)).1 hloop
    have hnt : t.node = some n := by rw [ht]; exact hn
    have hlt : n < t.heap.length := by rw [ht]; simpa using hl
    have hnd : s.heap[n]? = some s.heap[n] := List.getElem?_eq_getElem hl
    replace htail := (processNode_tail env s.texture
      (!s.texture.isEmpty && s.texture != ascii "NULL") t n hnt hlt).symm.trans htail
    simp only [Res.ok.injEq, true_and] at htail
    refine ⟨n, s.heap[n], hn, hnd, fun i hi => hr i (by omega) (by omega), ?_⟩
    rw [← processState_eq env s n _ hnd, ← htail, ht]
    rfl
  · rintro ⟨n, nd, hn, hnd, hr, hs2⟩
    have hl : n < s.heap.length := by
      rcases Nat.lt_or_ge n s.heap.length with hl | hl
      · exact hl
      · rw [List.getElem?_eq_none hl] at hnd; cases hnd
    refine ⟨n, hn, hl, ?_⟩
    have ht : ∃ t : St, t = { s with
        heap := (s.heap.modify (fun nd => { nd with
          faces := nd.faces.take (s.faces.length / 3) ++
            List.replicate (s.faces.length / 3 - nd.faces.length) Face.zero }) n).modify
          (fun nd => { nd with
            faces := (List.range' 0 (s.faces.length / 3)).foldl
              (fun l i => l.set i (faceOf s i)) nd.faces }) n } := ⟨_, rfl⟩
    obtain ⟨t, ht⟩ := ht
    have hnt : t.node = some n := by rw [ht]; exact hn
    have hlt : n < t.heap.length := by rw [ht]; simpa using hl
    have hloop : forLoop (s.faces.length / 3) 0 processFace { s with
        heap := s.heap.modify (fun nd => { nd with
          faces := nd.faces.take (s.faces.length / 3) ++
            List.replicate (s.faces.length / 3 - nd.faces.length) Face.zero }) n } = .ok () t :=
      (forLoop_processFace_iff n _ 0 _ t (by exact hn) (by simpa using hl)).2
        ⟨fun i _ hi => hr i (by omega), ht⟩
    rw [bind_of_ok hloop]
    refine (processNode_tail env s.texture
      (!s.texture.isEmpty && s.texture != ascii "NULL") t n hnt hlt).trans ?_
    rw [hs2, ← processState_eq env s n _ hnd, ht]
    rfl

theorem recentMesh_ok : readMesh recentMesh = .ok () (readMesh recentMesh).state :=
  ok_of_isOk _ (by decide!)

theorem legacyMesh_ok : readMesh legacyMesh = .ok () (readMesh legacyMesh).state :=
  ok_of_isOk _ (by decide!)

theorem nullMesh_ok : readMesh nullMesh = .ok () (readMesh nullMesh).state :=
  ok_of_isOk _ (by decide!)

theorem namelessMesh_ok : readMesh namelessMesh = .ok () (readMesh namelessMesh).state :=
  ok_of_isOk _ (by decide!)

/-- C11: every `readMesh` that returns, entered with the cursor at `p`, leaves the
cursor at `p + 768`, the end of the mesh sub-record, whatever the file version,
the offsets of the mesh arrays, vertices, texture coordinates and faces, and
whether the texture-info table was read. -/
theorem readMesh_cursor (s s2 : St) (h : readMesh s = .ok () s2) : s2.pos = s.pos + 768 := by
  obtain ⟨n, nd, -, -, -, -, -, -, -, -, -, hs⟩ := readMesh_inv h
  rw [hs]
  rfl

theorem readMesh_cursor_witness :
    (readMesh recentMesh).state.pos = recentMesh.pos + 768 ∧
      (readMesh legacyMesh).state.pos = legacyMesh.pos + 768 ∧
      (readMesh nullMesh).state.pos = nullMesh.pos + 768 :=
  ⟨readMesh_cursor recentMesh _ recentMesh_ok, readMesh_cursor legacyMesh _ legacyMesh_ok,
    readMesh_cursor nullMesh _ nullMesh_ok⟩

theorem getElem?_map_range {α : Type} (f : Nat → α) (n q : Nat) (h : q < n) :
    ((List.range n).map f)[q]? = some (f q) := by
  rw [List.getElem?_map, List.getElem?_range h]
  rfl

/-- C14, amended: a face record is `S` bytes, `S = 32` for every version but 133
(five skipped words and the three indices) and `S = 48` for version 133 (eight
skipped words, the three indices, and one more skipped word).  After a
`readMesh` that returns, with `facesStart` and `facesCount` the fields of the
tenth array descriptor, there are `facesCount` faces, and index `k` of face `i`
is the little-endian word at
`((rawDataBase + facesStart) mod 2^32) + i * S + F + 4 * k`, where `F = 20` for
every version but 133 and `F = 32` for version 133. -/
theorem readMesh_face_indices (s s2 : St) (h : readMesh s = .ok () s2) :
    s2.faces.length = 3 * meshArrayCount s 9 ∧
      (∀ i k, i < meshArrayCount s 9 → k < 3 → s2.faces[3 * i + k]? =
        some (le32At s.mdb ((s.offRawData + meshArrayStart s 9) % 2 ^ 32 +
          faceStride s.fileVersion * i + faceIndexOffset s.fileVersion + 4 * k))) ∧
      faceStride 133 = 48 ∧ faceIndexOffset 133 = 32 ∧
      (∀ v, v ≠ 133 → faceStride v = 32 ∧ faceIndexOffset v = 20) := by
  obtain ⟨n, nd, -, -, -, -, -, -, -, -, -, hs⟩ := readMesh_inv h
  refine ⟨?_, ?_, rfl, rfl, ?_⟩
  · rw [hs]
    simp [meshState, meshFaces]
  · intro i k hi hk
    rw [hs]
    simp only [meshState, meshFaces]
    rw [getElem?_map_range _ _ _ (by omega)]
    have h1 : (3 * i + k) / 3 = i := by omega
    have h2 : (3 * i + k) % 3 = k := by omega
    rw [h1, h2]
  · intro v hv
    simp [faceStride, faceIndexOffset, hv]

theorem readMesh_face_indices_witness :
    (readMesh recentMesh).state.faces.length = 3 * meshArrayCount recentMesh 9 ∧
      (readMesh legacyMesh).state.faces.length = 3 * meshArrayCount legacyMesh 9 :=
  ⟨(readMesh_face_indices recentMesh _ recentMesh_ok).1,
    (readMesh_face_indices legacyMesh _ legacyMesh_ok).1⟩

theorem legacyMesh_state :
    (readMesh legacyMesh).state = meshState legacyMesh 0 Node.new (meshLog legacyMesh) := by
  obtain ⟨n, nd, hn, hnd, -, -, -, -, -, -, -, hs⟩ := readMesh_inv legacyMesh_ok
  have e1 : n = 0 := by
    have : legacyMesh.node = some 0 := rfl
    rw [this] at hn
    cases hn
    rfl
  subst e1
  have e2 : nd = Node.new := by
    have : legacyMesh.heap[0]? = some Node.new := rfl
    rw [this] at hnd
    cases hnd
    rfl
  subst e2
  exact hs

/-- C14 as stated fails for version 133.  `legacyMesh` is a mesh of version 133
with the raw-data base `0xFFFFFFF0` and one face, whose 48-byte record at 936
holds the words 1, 0, 1 at bytes 32, 36 and 40 and 0 elsewhere.  The decode
returns and the face indices are 1, 0, 1.  The claim names the three trailing
words of the record: at the offset it writes, `rawDataBase + facesStart + 36`
without the reduction modulo 2^32, they lie behind the end of the stream and
read as 0, 0, 0; the trailing words of the record that was read, at bytes 36, 40
and 44, are 0, 1, 0. -/
theorem readMesh_face_indices_trailing_counterexample :
    readMesh legacyMesh = .ok () (readMesh legacyMesh).state ∧
      legacyMesh.fileVersion = 133 ∧
      (readMesh legacyMesh).state.faces = [1, 0, 1] ∧
      legacyMesh.offRawData + meshArrayStart legacyMesh 9 = 2 ^ 32 + 936 ∧
      (legacyMesh.offRawData + meshArrayStart legacyMesh 9) % 2 ^ 32 = 936 ∧
      [le32At legacyMesh.mdb (2 ^ 32 + 936 + 36), le32At legacyMesh.mdb (2 ^ 32 + 936 + 40),
        le32At legacyMesh.mdb (2 ^ 32 + 936 + 44)] = [0, 0, 0] ∧
      [le32At legacyMesh.mdb (936 + 36), le32At legacyMesh.mdb (936 + 40),
        le32At legacyMesh.mdb (936 + 44)] = [0, 1, 0] ∧
      [le32At legacyMesh.mdb (936 + 32), le32At legacyMesh.mdb (936 + 36),
        le32At legacyMesh.mdb (936 + 40)] = [1, 0, 1] := by
  refine ⟨legacyMesh_ok, rfl, ?_, by decide!, by decide!, by decide!, by decide!, by decide!⟩
  rw [legacyMesh_state]
  exact (by decide! : (meshState legacyMesh 0 Node.new (meshLog legacyMesh)).faces = [1, 0, 1])

/-- C27, amended: after the seek to `(rawDataBase + meshArraysOffset) mod 2^32`
and the skip of 4 bytes, `readMesh` reads ten 12-byte array descriptors (120
bytes), each by a call of `readArray`: the first is that of the vertices, the
fifth that of the texture coordinates 0, the tenth and last that of the faces;
for version 133 the texture-data base is the word behind those ten descriptors,
for every other version it is not touched. -/
theorem readMesh_descriptors (s s2 : St) (h : readMesh s = .ok () s2) :
    meshArraysAt s = (s.offRawData + le32At s.mdb (s.pos + 8)) % 2 ^ 32 ∧
      meshArraysAt s + 4 + 12 * 10 ≤ s.mdb.length ∧
      s2.vertices.length = 3 * le32At s.mdb (meshArraysAt s + 4 + 12 * 0 + 4) ∧
      s2.verticesTexture.length = 3 * le32At s.mdb (meshArraysAt s + 4 + 12 * 4 + 4) ∧
      s2.faces.length = 3 * le32At s.mdb (meshArraysAt s + 4 + 12 * 9 + 4) ∧
      s2.log = meshLog s ∧
      (s.fileVersion = 133 → meshArraysAt s + 4 + 12 * 10 + 4 ≤ s.mdb.length ∧
        s2.offTexData = le32At s.mdb (meshArraysAt s + 4 + 12 * 10)) ∧
      (s.fileVersion ≠ 133 → s2.offTexData = s.offTexData) := by
  obtain ⟨n, nd, -, -, -, hA, hA2, -, -, -, -, hs⟩ := readMesh_inv h
  refine ⟨rfl, by omega, ?_, ?_, ?_, ?_, ?_, ?_⟩
  · rw [hs]; simp [meshState, meshVertices, meshArrayCount]
  · rw [hs]; simp [meshState, meshTexCoords, meshArrayCount]
  · rw [hs]; simp [meshState, meshFaces, meshArrayCount]
  · rw [hs]; rfl
  · intro hv
    refine ⟨by have := hA2 hv; omega, ?_⟩
    rw [hs]
    simp [meshState, meshTexData, hv]
  · intro hv
    rw [hs]
    simp [meshState, meshTexData, hv]

theorem readMesh_descriptors_witness :
    (readMesh legacyMesh).state.faces.length =
        3 * le32At legacyMesh.mdb (meshArraysAt legacyMesh + 4 + 12 * 9 + 4) ∧
      (readMesh legacyMesh).state.offTexData =
        le32At legacyMesh.mdb (meshArraysAt legacyMesh + 4 + 12 * 10) :=
  ⟨(readMesh_descriptors legacyMesh _ legacyMesh_ok).2.2.2.2.1,
    ((readMesh_descriptors legacyMesh _ legacyMesh_ok).2.2.2.2.2.2.1 rfl).2⟩

/-- C27 as stated fails: the face array is the tenth descriptor, not the seventh.
On `legacyMesh` (version 133, mesh arrays at 768) the decode returns with one
face, three face indices; the seventh descriptor, at `768 + 4 + 12 * 6`, has the
count 0 and the tenth, at `768 + 4 + 12 * 9`, the count 1.  The texture-data base
becomes the word at `768 + 4 + 120`, which is 1000; the word behind the seventh
descriptor, at `768 + 4 + 84`, is 0. -/
theorem readMesh_seven_descriptors_counterexample :
    readMesh legacyMesh = .ok () (readMesh legacyMesh).state ∧
      legacyMesh.fileVersion = 133 ∧ meshArraysAt legacyMesh = 768 ∧
      (readMesh legacyMesh).state.faces.length = 3 ∧
      le32At legacyMesh.mdb (768 + 4 + 12 * 6 + 4) = 0 ∧
      le32At legacyMesh.mdb (768 + 4 + 12 * 9 + 4) = 1 ∧
      (readMesh legacyMesh).state.offTexData = 1000 ∧
      le32At legacyMesh.mdb (768 + 4 + 120) = 1000 ∧
      le32At legacyMesh.mdb (768 + 4 + 84) = 0 := by
  refine ⟨legacyMesh_ok, rfl, by decide!, ?_, by decide!, by decide!, ?_, by decide!,
    by decide!⟩
  · rw [legacyMesh_state]
    exact (by decide! :
      (meshState legacyMesh 0 Node.new (meshLog legacyMesh)).faces.length = 3)
  · rw [legacyMesh_state]
    exact (by decide! : (meshState legacyMesh 0 Node.new (meshLog legacyMesh)).offTexData = 1000)

/-- C28: after a `readMesh` that returns, entered at `p` with `ctx.node` the node
`n`: the ambient, diffuse and specular colours of the node are the floats 0 to 2,
3 to 5 and 6 to 8, and its shininess the float 9, of the ten consecutive
little-endian floats at `p + 88`, as bit patterns; the mesh arrays are sought at
the raw-data base plus the word at `p + 8` (in `uint32` arithmetic), and the first
texture name, which decides the render flag, is the text of the 64 bytes at
`p + 148`. -/
theorem readMesh_material (s s2 : St) (n : Nat) (nd : Node) (h : readMesh s = .ok () s2)
    (hn : s.node = some n) (hnd : s.heap[n]? = some nd) (ha : nd.ambient.length = 3)
    (hd : nd.diffuse.length = 3) (hsp : nd.specular.length = 3) :
    ∃ nd2, s2.heap[n]? = some nd2 ∧
      nd2.ambient = [le32At s.mdb (s.pos + 88), le32At s.mdb (s.pos + 88 + 4),
        le32At s.mdb (s.pos + 88 + 8)] ∧
      nd2.diffuse = [le32At s.mdb (s.pos + 88 + 12), le32At s.mdb (s.pos + 88 + 16),
        le32At s.mdb (s.pos + 88 + 20)] ∧
      nd2.specular = [le32At s.mdb (s.pos + 88 + 24), le32At s.mdb (s.pos + 88 + 28),
        le32At s.mdb (s.pos + 88 + 32)] ∧
      nd2.shininess = le32At s.mdb (s.pos + 88 + 36) ∧
      nd2.render = (if cString ((s.mdb.drop (s.pos + 148)).take 64) = ascii "NULL" then false
        else nd.render) ∧
      meshArraysAt s = (s.offRawData + le32At s.mdb (s.pos + 8)) % 2 ^ 32 ∧
      s2 = meshState s n nd (meshLog s) := by
  obtain ⟨n1, nd1, hn1, hnd1, -, -, -, -, -, -, -, hs⟩ := readMesh_inv h
  rw [hn] at hn1
  cases hn1
  rw [hnd] at hnd1
  cases hnd1
  have hl : n < s.heap.length := by
    rcases Nat.lt_or_ge n s.heap.length with hl | hl
    · exact hl
    · rw [List.getElem?_eq_none hl] at hnd; cases hnd
  refine ⟨meshNode s nd, ?_, ?_, ?_, ?_, rfl, rfl, rfl, hs⟩
  · rw [hs]
    simp [meshState, hl]
  · exact set3_of_length _ _ _ _ ha
  · exact set3_of_length _ _ _ _ hd
  · exact set3_of_length _ _ _ _ hsp

theorem readMesh_material_witness :
    ∃ nd2, (readMesh recentMesh).state.heap[0]? = some nd2 ∧ nd2.ambient = [1, 2, 3] ∧
      nd2.diffuse = [4, 5, 6] ∧ nd2.specular = [7, 8, 9] ∧ nd2.shininess = 10 := by
  obtain ⟨nd2, h1, h2, h3, h4, h5, -⟩ := readMesh_material recentMesh _ 0 Node.new recentMesh_ok
    rfl rfl rfl rfl rfl
  refine ⟨nd2, h1, ?_, ?_, ?_, ?_⟩
  · rw [h2]; decide!
  · rw [h3]; decide!
  · rw [h4]; decide!
  · rw [h5]; decide!

/-- C22: after a `readMesh` that returns and whose first texture name is not
`"NULL"`, the texture-info table was read at the absolute offset `X`, where `X` is
`(rawDataBase + T) mod 2^32` for version 133, `T` being the word behind the ten
array descriptors, which is the texture-data base from then on, and
`(textureDataBase + offTextureInfo) mod 2^32` for every other version,
`offTextureInfo` being the word at byte 760 of the mesh sub-record: the two words
at `X` were within the stream, the first is the number of lines, the lines are
read from `X + 8` on, and the resolved texture name is that of the last line that
yields one. -/
theorem readMesh_texture_info (s s2 : St) (h : readMesh s = .ok () s2)
    (hne : meshTexture0 s ≠ ascii "NULL") :
    meshTextureInfoAt s =
        (if s.fileVersion = 133 then
          (s.offRawData + le32At s.mdb (meshArraysAt s + 4 + 12 * 10)) % 2 ^ 32
        else (s.offTexData + le32At s.mdb (s.pos + 760)) % 2 ^ 32) ∧
      meshTextureInfoAt s + 8 ≤ s.mdb.length ∧
      s2.texture = (((textureLines s.mdb (le32At s.mdb (meshTextureInfoAt s))
        (meshTextureInfoAt s + 8)).filterMap textureOfLine).getLast?).getD s.texture ∧
      (s.fileVersion = 133 → s2.offTexData = le32At s.mdb (meshArraysAt s + 4 + 12 * 10)) ∧
      (s.fileVersion ≠ 133 → s2.offTexData = s.offTexData) := by
  obtain ⟨n, nd, -, -, -, -, -, hX, -, -, -, hs⟩ := readMesh_inv h
  refine ⟨?_, hX hne, ?_, ?_, ?_⟩
  · simp only [meshTextureInfoAt, meshTexData]
    by_cases hv : s.fileVersion = 133
    · simp only [hv, if_true]
    · simp only [hv, if_false]
  · rw [hs]
    simp only [meshState, meshTexture, hne, if_false]
  · intro hv
    rw [hs]
    simp [meshState, meshTexData, hv]
  · intro hv
    rw [hs]
    simp [meshState, meshTexData, hv]

theorem readMesh_texture_info_witness :
    meshTextureInfoAt recentMesh + 8 ≤ recentMesh.mdb.length ∧
      meshTextureInfoAt legacyMesh + 8 ≤ legacyMesh.mdb.length :=
  ⟨(readMesh_texture_info recentMesh _ recentMesh_ok (by decide!)).2.1,
    (readMesh_texture_info legacyMesh _ legacyMesh_ok (by decide!)).2.1⟩

/-- The end of `readNodePayload` (lines 220-223): the node is registered and
`ctx.node` reset. -/
theorem registerNode_ok_iff (s2 s3 : St) (p : Nat) :
    ((getSt >>= fun ctx =>
      match ctx.node with
      | none => throwErr .nullNode
      | some parent =>
          (fun s => .ok () { s with nodes := s.nodes ++ [parent], node := none } : Parser Unit) >>=
            fun _ => pure parent : Parser Nat) s2 = .ok p s3) ↔
      s2.node = some p ∧ s3 = { s2 with nodes := s2.nodes ++ [p], node := none } := by
  rw [getSt_bind]
  cases hn : s2.node with
  | none => simp [throwErr]
  | some n =>
    simp only [fn_bind, pure_run, Res.ok.injEq, Option.some.injEq]
    constructor
    · rintro ⟨h1, h2⟩
      subst h1
      exact ⟨rfl, h2.symm⟩
    · rintro ⟨h1, h2⟩
      subst h1
      exact ⟨rfl, h2.symm⟩

/-- When `readNodePayload` returns, and what it has done then: the flags have no
bit above bit 17, `readMesh` has run exactly if bit 5 is set, then `processNode`,
and the node is registered. -/
theorem readNodePayload_ok_iff (env : Env) (flags : Nat) (s s3 : St) (p : Nat) :
    readNodePayload env flags s = .ok p s3 ↔
      flags &&& 0xFFFC0000 = 0 ∧
      ∃ s1 s2, (if flags &&& kNodeFlagHasMesh = 0 then s1 = s else readMesh s = .ok () s1) ∧
        processNode env s1 = .ok () s2 ∧ s2.node = some p ∧
        s3 = { s2 with nodes := s2.nodes ++ [p], node := none } := by
  unfold readNodePayload
  by_cases hf : flags &&& 0xFFFC0000 = 0
  · have hf2 : ((flags &&& 0xFFFC0000) != 0) = false := by simp [hf]
    simp only [hf2, Bool.false_eq_true, if_false, pure_bind_run]
    simp only [hf, true_and]
    by_cases hm : flags &&& kNodeFlagHasMesh = 0
    · have hm2 : ((flags &&& kNodeFlagHasMesh) != 0) = false := by simp [hm]
      simp only [hm2, Bool.false_eq_true, if_false, pure_bind_run]
      simp only [hm, if_true]
      rw [bind_ok_iff]
      constructor
      · rintro ⟨_, s2, h1, h2⟩
        exact ⟨s, s2, rfl, h1, (registerNode_ok_iff s2 s3 p).1 h2⟩
      · rintro ⟨s1, s2, e, h1, h2⟩
        subst e
        exact ⟨(), s2, h1, (registerNode_ok_iff s2 s3 p).2 h2⟩
    · have hm2 : ((flags &&& kNodeFlagHasMesh) != 0) = true := by simp [hm]
      simp only [hm2, if_true]
      simp only [hm, if_false]
      rw [bind_ok_iff]
      constructor
      · rintro ⟨_, s1, h1, h2⟩
        rw [bind_ok_iff] at h2
        obtain ⟨_, s2, h2, h3⟩ := h2
        exact ⟨s1, s2, h1, h2, (registerNode_ok_iff s2 s3 p).1 h3⟩
      · rintro ⟨s1, s2, h1, h2, h3⟩
        refine ⟨(), s1, h1, ?_⟩
        rw [bind_ok_iff]
        exact ⟨(), s2, h2, (registerNode_ok_iff s2 s3 p).2 h3⟩
  · have hf2 : ((flags &&& 0xFFFC0000) != 0) = true := by simp [hf]
    simp only [hf2, if_true]
    simp only [hf, false_and, iff_false]
    intro h
    cases h

/-- The state a `readMesh` that returns leaves on a test mesh. -/
theorem readMesh_state_of (s : St) (nd : Node) (h : readMesh s = .ok () (readMesh s).state)
    (hn : s.node = some 0) (hnd : s.heap[0]? = some nd) :
    (readMesh s).state = meshState s 0 nd (meshLog s) := by
  obtain ⟨n, nd1, hn1, hnd1, -, -, -, -, -, -, -, hs⟩ := readMesh_inv h
  rw [hn] at hn1
  cases hn1
  rw [hnd] at hnd1
  cases hnd1
  exact hs

theorem getElem?_set_self_of_some {α : Type} (l : List α) (n : Nat) (a b : α)
    (h : l[n]? = some a) : (l.set n b)[n]? = some b := by
  have hl : n < l.length := by
    rcases Nat.lt_or_ge n l.length with hl | hl
    · exact hl
    · rw [List.getElem?_eq_none hl] at h; cases h
  exact List.getElem?_set_self hl

/-- A `processNode` that returns, in terms of the node `ctx.node` points to. -/
theorem processNode_inv {env : Env} {s s3 : St} {n : Nat} {nd : Node}
    (hp : processNode env s = .ok () s3) (hn : s.node = some n) (hnd : s.heap[n]? = some nd) :
    (∀ i, i < s.faces.length / 3 → FaceInRange s i) ∧ s3 = processState env s n nd := by
  obtain ⟨n1, nd1, hn1, hnd1, hr, hs⟩ := (processNode_ok_iff env s s3).1 hp
  rw [hn] at hn1
  cases hn1
  rw [hnd] at hnd1
  cases hnd1
  exact ⟨hr, hs⟩

theorem processState_node (env : Env) (s : St) (n : Nat) (nd : Node)
    (hnd : s.heap[n]? = some nd) :
    (processState env s n nd).heap[n]? = some { nd with
      faces := (List.range (s.faces.length / 3)).map (faceOf s)
      texture := if wantsTexture s then env.textureGet s.texture else nd.texture } :=
  getElem?_set_self_of_some _ _ _ _ hnd

theorem nullMesh_processed :
    processNode Env.plain (readMesh nullMesh).state =
      .ok () (processNode Env.plain (readMesh nullMesh).state).state := by
  rw [readMesh_state_of nullMesh Node.new nullMesh_ok rfl rfl]
  exact ok_of_isOk _ (by decide!)

/-- C19: a mesh node whose first texture name, the text of the 64 bytes at byte
148 of the mesh sub-record, is exactly `"NULL"`, decoded by `readMesh` and then
`processNode` from a context whose texture name is empty.  Behind `readMesh` the
render flag of the node is false and the texture name of the context is still
empty (no texture-info table is read for it: the cursor and the name are as
`meshState` says, whatever follows in the stream); `processNode` then issues no
request to the texture manager, and the node keeps the texture it had, none for
a node just constructed. -/
theorem readMesh_null_texture (env : Env) (s s2 s3 : St) (n : Nat) (nd : Node)
    (hnull : meshTexture0 s = ascii "NULL") (hn : s.node = some n)
    (hnd : s.heap[n]? = some nd) (htex : s.texture = []) (h : readMesh s = .ok () s2)
    (hp : processNode env s2 = .ok () s3) :
    meshTexture0 s = cString ((s.mdb.drop (s.pos + 148)).take 64) ∧
      s2 = meshState s n nd (meshLog s) ∧ s2.texture = [] ∧
      (∃ nd2, s2.heap[n]? = some nd2 ∧ nd2.render = false ∧ nd2.texture = nd.texture) ∧
      s3.requests = s.requests ∧
      ∃ nd3, s3.heap[n]? = some nd3 ∧ nd3.render = false ∧ nd3.texture = nd.texture := by
  obtain ⟨n1, nd1, hn1, hnd1, -, -, -, -, -, -, -, hs⟩ := readMesh_inv h
  rw [hn] at hn1
  cases hn1
  rw [hnd] at hnd1
  cases hnd1
  have ht2 : s2.texture = [] := by
    rw [hs]
    simp [meshState, meshTexture, hnull, htex]
  have hh2 : s2.heap[n]? = some (meshNode s nd) := by
    rw [hs]
    exact getElem?_set_self_of_some _ _ _ _ hnd
  have hn2 : s2.node = some n := by
    rw [hs]
    exact hn
  obtain ⟨-, hs3⟩ := processNode_inv hp hn2 hh2
  have hw : wantsTexture s2 = false := by
    simp [wantsTexture, ht2]
  refine ⟨rfl, hs, ht2, ⟨meshNode s nd, hh2, ?_, rfl⟩, ?_, ?_⟩
  · simp [meshNode, hnull]
  · rw [hs3]
    simp only [processState, hw, Bool.false_eq_true, if_false]
    rw [hs]
    rfl
  · rw [hs3]
    refine ⟨_, processState_node env s2 n _ hh2, ?_, ?_⟩
    · simp [meshNode, hnull]
    · simp [hw, meshNode]

theorem readMesh_null_texture_witness :
    (readMesh nullMesh).state.texture = [] ∧
      (processNode Env.plain (readMesh nullMesh).state).state.requests = nullMesh.requests :=
  ⟨(readMesh_null_texture Env.plain nullMesh _ _ 0 Node.new (by decide!) rfl rfl rfl nullMesh_ok
      nullMesh_processed).2.2.1,
    (readMesh_null_texture Env.plain nullMesh _ _ 0 Node.new (by decide!) rfl rfl rfl nullMesh_ok
      nullMesh_processed).2.2.2.2.1⟩

theorem namelessMesh_processed :
    processNode Env.plain (readMesh namelessMesh).state =
      .ok () (processNode Env.plain (readMesh namelessMesh).state).state := by
  rw [readMesh_state_of namelessMesh Node.new namelessMesh_ok rfl rfl]
  exact ok_of_isOk _ (by decide!)

/-- C21, amended: a mesh node whose first texture name is empty (the slot at byte
148 of the mesh sub-record starts with a NUL byte) is decoded like a node with
any other name than `"NULL"`: the render flag of the node is not touched, the two
words of the texture-info table were within the stream and the texture name is
resolved from its lines, and `processNode` issues a request for that name exactly
when it is not empty and not `"NULL"`. -/
theorem readMesh_empty_texture (env : Env) (s s2 s3 : St) (n : Nat) (nd : Node)
    (hempty : meshTexture0 s = []) (hn : s.node = some n) (hnd : s.heap[n]? = some nd)
    (h : readMesh s = .ok () s2) (hp : processNode env s2 = .ok () s3) :
    meshTexture0 s = cString ((s.mdb.drop (s.pos + 148)).take 64) ∧
      meshTextureInfoAt s + 8 ≤ s.mdb.length ∧
      s2.texture = (((textureLines s.mdb (le32At s.mdb (meshTextureInfoAt s))
        (meshTextureInfoAt s + 8)).filterMap textureOfLine).getLast?).getD s.texture ∧
      (∃ nd2, s2.heap[n]? = some nd2 ∧ nd2.render = nd.render) ∧
      s3.requests = (if !s2.texture.isEmpty && s2.texture != ascii "NULL" then
        s.requests ++ [s2.texture] else s.requests) ∧
      ∃ nd3, s3.heap[n]? = some nd3 ∧ nd3.render = nd.render := by
  have hne : meshTexture0 s ≠ ascii "NULL" := by
    rw [hempty]
    decide
  obtain ⟨n1, nd1, hn1, hnd1, -, -, -, hX, -, -, -, hs⟩ := readMesh_inv h
  rw [hn] at hn1
  cases hn1
  rw [hnd] at hnd1
  cases hnd1
  have hh2 : s2.heap[n]? = some (meshNode s nd) := by
    rw [hs]
    exact getElem?_set_self_of_some _ _ _ _ hnd
  have hn2 : s2.node = some n := by
    rw [hs]
    exact hn
  have hr2 : s2.requests = s.requests := by
    rw [hs]
    rfl
  obtain ⟨-, hs3⟩ := processNode_inv hp hn2 hh2
  refine ⟨rfl, hX hne, ?_, ⟨meshNode s nd, hh2, ?_⟩, ?_, ?_⟩
  · rw [hs]
    simp only [meshState, meshTexture, hne, if_false]
  · simp [meshNode, hne]
  · rw [hs3]
    simp only [processState, wantsTexture, hr2]
  · rw [hs3]
    refine ⟨_, processState_node env s2 n _ hh2, ?_⟩
    simp [meshNode, hne]

theorem readMesh_empty_texture_witness :
    meshTextureInfoAt namelessMesh + 8 ≤ namelessMesh.mdb.length :=
  (readMesh_empty_texture Env.plain namelessMesh _ _ 0 Node.new (by decide!) rfl rfl
    namelessMesh_ok namelessMesh_processed).2.1

/-- C21 as stated fails: an empty first texture name is not treated like `"NULL"`.
`namelessMesh` is a mesh whose first texture-name slot is all zero, with a
texture-info table of the lines `texture texture0 A` and `texture texture0 B`.
`readMesh` and `processNode` return; the table is read: the resolved texture name
is `"B"`; the render flag of the node is still true; and `processNode` requests
the texture `"B"`. -/
theorem readMesh_empty_texture_skipped_counterexample :
    readMesh namelessMesh = .ok () (readMesh namelessMesh).state ∧
      processNode Env.plain (readMesh namelessMesh).state =
        .ok () (processNode Env.plain (readMesh namelessMesh).state).state ∧
      meshTexture0 namelessMesh = [] ∧
      (readMesh namelessMesh).state.texture = ascii "B" ∧
      (readMesh namelessMesh).state.heap.map Node.render = [true] ∧
      (processNode Env.plain (readMesh namelessMesh).state).state.heap.map Node.render = [true] ∧
      (processNode Env.plain (readMesh namelessMesh).state).state.requests = [ascii "B"] := by
  refine ⟨namelessMesh_ok, namelessMesh_processed, by decide!, ?_, ?_, ?_, ?_⟩
  · rw [readMesh_state_of namelessMesh Node.new namelessMesh_ok rfl rfl]
    exact (by decide! :
      (meshState namelessMesh 0 Node.new (meshLog namelessMesh)).texture = ascii "B")
  · rw [readMesh_state_of namelessMesh Node.new namelessMesh_ok rfl rfl]
    exact (by decide! :
      (meshState namelessMesh 0 Node.new (meshLog namelessMesh)).heap.map Node.render = [true])
  · rw [readMesh_state_of namelessMesh Node.new namelessMesh_ok rfl rfl]
    exact (by decide! :
      (processNode Env.plain (meshState namelessMesh 0 Node.new
        (meshLog namelessMesh))).state.heap.map Node.render = [true])
  · rw [readMesh_state_of namelessMesh Node.new namelessMesh_ok rfl rfl]
    exact (by decide! :
      (processNode Env.plain (meshState namelessMesh 0 Node.new
        (meshLog namelessMesh))).state.requests = [ascii "B"])

/-- C23: `processNode` with a texture manager whose lookup of the resolved texture
name fails.  The lookup is attempted, and the name recorded as requested, exactly
when the name is not empty and not `"NULL"`.  Whether `processNode` returns does
not depend on the outcome of the lookup.  When it returns, the faces of the node
are built, the texture of the node is empty if the lookup was attempted, and
`ctx.node` is still the node; `readNodePayload` then returns as well, with the
node registered, so that `readNode` goes on to the children. -/
theorem processNode_texture_failure (env : Env) (s : St)
    (hfail : env.textureGet s.texture = none) :
    wantsTexture s = (!s.texture.isEmpty && s.texture != ascii "NULL") ∧
      (∀ env2 : Env, (∃ s2, processNode env s = .ok () s2) ↔
        (∃ s2, processNode env2 s = .ok () s2)) ∧
      (∀ s2, processNode env s = .ok () s2 → ∃ n nd, s.node = some n ∧ s.heap[n]? = some nd ∧
        s2.node = some n ∧
        s2.requests = (if wantsTexture s then s.requests ++ [s.texture] else s.requests) ∧
        s2.heap[n]? = some { nd with
          faces := (List.range (s.faces.length / 3)).map (faceOf s)
          texture := if wantsTexture s then none else nd.texture } ∧
        ∀ flags, flags &&& 0xFFFC0000 = 0 → flags &&& kNodeFlagHasMesh = 0 →
          readNodePayload env flags s =
            .ok n { s2 with nodes := s2.nodes ++ [n], node := none }) := by
  refine ⟨rfl, ?_, ?_⟩
  · intro env2
    constructor
    · rintro ⟨s2, h⟩
      obtain ⟨n, nd, hn, hnd, hr, -⟩ := (processNode_ok_iff env s s2).1 h
      exact ⟨_, (processNode_ok_iff env2 s _).2 ⟨n, nd, hn, hnd, hr, rfl⟩⟩
    · rintro ⟨s2, h⟩
      obtain ⟨n, nd, hn, hnd, hr, -⟩ := (processNode_ok_iff env2 s s2).1 h
      exact ⟨_, (processNode_ok_iff env s _).2 ⟨n, nd, hn, hnd, hr, rfl⟩⟩
  · intro s2 h
    obtain ⟨n, nd, hn, hnd, hr, hs⟩ := (processNode_ok_iff env s s2).1 h
    have hn2 : s2.node = some n := by
      rw [hs]
      exact hn
    refine ⟨n, nd, hn, hnd, hn2, ?_, ?_, ?_⟩
    · rw [hs]
      rfl
    · rw [hs, processState_node env s n nd hnd, hfail]
    · intro flags hf hm
      rw [readNodePayload_ok_iff]
      exact ⟨hf, s, s2, by rw [if_pos hm], h, hn2, rfl⟩

theorem processNode_texture_failure_witness :
    ∃ n nd, (readMesh recentMesh).state.node = some n ∧
      (readMesh recentMesh).state.heap[n]? = some nd ∧
      (processNode Env.plain (readMesh recentMesh).state).state.node = some n := by
  have hp : processNode Env.plain (readMesh recentMesh).state =
      .ok () (processNode Env.plain (readMesh recentMesh).state).state := by
    rw [readMesh_state_of recentMesh Node.new recentMesh_ok rfl rfl]
    exact ok_of_isOk _ (by decide!)
  obtain ⟨n, nd, h1, h2, h3, -⟩ :=
    (processNode_texture_failure Env.plain (readMesh recentMesh).state rfl).2.2 _ hp
  exact ⟨n, nd, h1, h2, h3⟩

theorem keeps_newNode {β : Type} (proj : St → β) (parent : Option Nat)
    (h : ∀ (s : St) (l : List Node) (m : Option Nat) (r : List Nat),
      proj { s with heap := l, node := m, rootNodes := r } = proj s) :
    Keeps proj (newNode parent) := by
  unfold Keeps; intro s
  unfold newNode
  cases parent with
  | none => exact h s _ _ _
  | some p => exact h s _ _ s.rootNodes

/-- The scratch buffers of the context: `ctx.vertices`, `ctx.verticesTexture`,
`ctx.faces` and `ctx.texture` are not touched before the payload of a node. -/
theorem keeps_scratch_readNodeFields (env : Env) (offset : Nat) (parent : Option Nat) :
    Keeps (fun s : St => (s.vertices, s.verticesTexture, s.faces, s.texture))
      (readNodeFields env offset parent) := by
  unfold readNodeFields Model_Witcher.parseNodeControllers controllerKey readArray
    readOffsetArray readFloatsArray readUint32LE readUint16LE readByte readIEEEFloatLE readASCII
    seekTo skip warning getSt
  repeat' first
    | (refine keeps_readFixed ?_ _ _; intro _ _; rfl)
    | (refine keeps_modifyNode _ _ ?_; intro _ _; rfl)
    | (refine keeps_newNode _ _ ?_; intro _ _ _ _; rfl)
    | exact keeps_index _ _ _
    | exact keeps_throwErr _ _
    | exact keeps_pure _ _
    | (refine keeps_fn _ _ ?_; intro _; rfl)
    | apply keeps_forLoop
    | apply keeps_collect
    | apply keeps_bind
    | intro _
    | split

theorem readNodeFields_scratch (env : Env) (offset : Nat) (parent : Option Nat) (s : St)
    (h : (s.vertices, s.verticesTexture, s.faces, s.texture) = ([], [], [], [])) :
    (readNodeFields env offset parent s).state.vertices = [] ∧
      (readNodeFields env offset parent s).state.verticesTexture = [] ∧
      (readNodeFields env offset parent s).state.faces = [] ∧
      (readNodeFields env offset parent s).state.texture = [] := by
  have hk := keeps_elim (keeps_scratch_readNodeFields env offset parent) s
  rw [h] at hk
  simp only [Prod.mk.injEq] at hk
  exact hk

/-- C26: the payload of a node.  `readMesh` runs exactly if bit 5 (`0x20`) of the
flags is set.  For flags within bits 0 to 17 with bit 5 clear, whatever other
bits are set, and scratch buffers that are empty, `readNodePayload` returns with
the cursor where it was: no byte behind the flags is consumed; the node has no
faces, and its texture, material and render flag are those it had, the defaults
of a node just constructed.  The scratch buffers are empty behind every payload
and are not touched by the decode of the fields of the next node, so they are
empty at the start of every payload. -/
theorem readNodePayload_without_mesh (env : Env) (flags : Nat) (s : St) (n : Nat) (nd : Node)
    (hflags : flags &&& 0xFFFC0000 = 0) (hmesh : flags &&& kNodeFlagHasMesh = 0)
    (hn : s.node = some n) (hnd : s.heap[n]? = some nd) (hv : s.vertices = [])
    (hvt : s.verticesTexture = []) (hf : s.faces = []) (ht : s.texture = []) :
    kNodeFlagHasMesh = 0x20 ∧
      readNodePayload env flags s = .ok n
        { s with
          node := none
          nodes := s.nodes ++ [n]
          heap := s.heap.set n { nd with faces := [] } } ∧
      (∀ flags2 p s3, readNodePayload env flags2 s = .ok p s3 →
        (flags2 &&& kNodeFlagHasMesh ≠ 0 →
          ∃ s1 s2, readMesh s = .ok () s1 ∧ processNode env s1 = .ok () s2 ∧
            s3 = { s2 with nodes := s2.nodes ++ [p], node := none }) ∧
        (flags2 &&& kNodeFlagHasMesh = 0 →
          ∃ s2, processNode env s = .ok () s2 ∧
            s3 = { s2 with nodes := s2.nodes ++ [p], node := none }) ∧
        s3.vertices = [] ∧ s3.verticesTexture = [] ∧ s3.faces = [] ∧ s3.texture = []) ∧
      (∀ offset parent r s1, readNodeFields env offset parent s = .ok r s1 →
        s1.vertices = [] ∧ s1.verticesTexture = [] ∧ s1.faces = [] ∧ s1.texture = []) := by
  refine ⟨rfl, ?_, ?_, ?_⟩
  · rw [readNodePayload_ok_iff]
    refine ⟨hflags, s, processState env s n nd, by rw [if_pos hmesh],
      (processNode_ok_iff env s _).2 ⟨n, nd, hn, hnd, ?_, rfl⟩, hn, ?_⟩
    · intro i hi
      rw [hf] at hi
      simp at hi
    · have hw : wantsTexture s = false := by simp [wantsTexture, ht]
      cases s
      simp only [processState, hw] at *
      subst hv hvt hf ht
      simp
  · intro flags2 p s3 h
    obtain ⟨-, s1, s2, h1, h2, h3, h4⟩ := (readNodePayload_ok_iff env flags2 s s3 p).1 h
    obtain ⟨m, md, -, -, -, hs2⟩ := (processNode_ok_iff env s1 s2).1 h2
    refine ⟨?_, ?_, ?_, ?_, ?_, ?_⟩
    · intro hm
      rw [if_neg hm] at h1
      exact ⟨s1, s2, h1, h2, h4⟩
    · intro hm
      rw [if_pos hm] at h1
      subst h1
      exact ⟨s2, h2, h4⟩
    · rw [h4, hs2]; rfl
    · rw [h4, hs2]; rfl
    · rw [h4, hs2]; rfl
    · rw [h4, hs2]; rfl
  · intro offset parent r s1 h
    have := keeps_ok (keeps_scratch_readNodeFields env offset parent) h
    simp only [Prod.mk.injEq] at this
    rw [hv, hvt, hf, ht] at this
    exact this

theorem readNodePayload_without_mesh_witness :
    readNodePayload Env.plain 0x1FFDF
        (readNodeFields Env.plain 368 none (headerState (St.init singleStream))).state =
      .ok 0
        { (readNodeFields Env.plain 368 none (headerState (St.init singleStream))).state with
          node := none
          nodes :=
            (readNodeFields Env.plain 368 none (headerState (St.init singleStream))).state.nodes ++
              [0]
          heap :=
            (readNodeFields Env.plain 368 none
              (headerState (St.init singleStream))).state.heap.set 0
              { Node.new with faces := [] } } :=
  have hk := readNodeFields_scratch Env.plain 368 none (headerState (St.init singleStream)) rfl
  (readNodePayload_without_mesh Env.plain 0x1FFDF
    (readNodeFields Env.plain 368 none (headerState (St.init singleStream))).state 0 Node.new
    (by decide) (by decide) (by decide!) (by decide!) hk.1 hk.2.1 hk.2.2.1 hk.2.2.2).2.1

theorem cornerOf_eq_take (v : List Float32) (j : Nat) (h : 3 * j + 2 < v.length)
    (hv : v.length ≤ 2 ^ 32) : cornerOf v j = (v.drop (3 * j)).take 3 := by
  have e0 : (3 * j + 0) % 2 ^ 32 = 3 * j := Nat.mod_eq_of_lt (by omega)
  have e1 : (3 * j + 1) % 2 ^ 32 = 3 * j + 1 := Nat.mod_eq_of_lt (by omega)
  have e2 : (3 * j + 2) % 2 ^ 32 = 3 * j + 2 := Nat.mod_eq_of_lt (by omega)
  unfold cornerOf
  rw [e0, e1, e2]
  apply List.ext_getElem?
  intro q
  rw [List.getElem?_take]
  by_cases hq : q < 3
  · rw [if_pos hq, List.getElem?_drop]
    have : q = 0 ∨ q = 1 ∨ q = 2 := by omega
    rcases this with rfl | rfl | rfl
    · simp [List.getD_eq_getElem?_getD, List.getElem?_eq_getElem (show 3 * j < v.length by omega)]
    · simp [List.getD_eq_getElem?_getD,
        List.getElem?_eq_getElem (show 3 * j + 1 < v.length by omega)]
    · simp [List.getD_eq_getElem?_getD,
        List.getElem?_eq_getElem (show 3 * j + 2 < v.length by omega)]
  · rw [if_neg hq]
    have : 3 ≤ q := by omega
    obtain ⟨r, rfl⟩ := Nat.exists_eq_add_of_le this
    simp

theorem faceOf_vertices (s : St) (i k : Nat) (hk : k < 3) :
    (faceOf s i).vertices[k]? = some (cornerOf s.vertices (s.faces.getD (3 * i + k) 0)) := by
  have : k = 0 ∨ k = 1 ∨ k = 2 := by omega
  rcases this with rfl | rfl | rfl <;> rfl

theorem faceOf_verticesTexture (s : St) (i k : Nat) (hk : k < 3) :
    (faceOf s i).verticesTexture[k]? =
      some (cornerOf s.verticesTexture (s.faces.getD (3 * i + k) 0)) := by
  have : k = 0 ∨ k = 1 ∨ k = 2 := by omega
  rcases this with rfl | rfl | rfl <;> rfl

theorem meshState_lengths (s : St) (n : Nat) (nd : Node) (log : List Warning) :
    (meshState s n nd log).vertices.length = 3 * meshArrayCount s 0 ∧
      (meshState s n nd log).verticesTexture.length = 3 * meshArrayCount s 4 ∧
      (meshState s n nd log).faces.length = 3 * meshArrayCount s 9 := by
  simp [meshState, meshVertices, meshTexCoords, meshFaces]

/-- C12: a mesh decoded by `readMesh` whose face indices are all below the vertex
count `v` (the count of the first array descriptor) and the texture coordinate
count `t` (that of the fifth), with `f` the count of the tenth descriptor.  The
three buffers hold `3 * v`, `3 * t` and `3 * f` values; `processNode` returns;
the node then has exactly `f` faces, and corner `k` of face `i`, with `j` the
`k`-th index of face `i`, has as position the `j`-th triple of the decoded
vertices and as texture coordinates the `j`-th triple of the decoded texture
coordinates. -/
theorem processNode_face_corners (env : Env) (s s2 : St) (n : Nat) (nd : Node)
    (hn : s.node = some n) (hnd : s.heap[n]? = some nd) (h : readMesh s = .ok () s2)
    (hidx : ∀ q, q < 3 * meshArrayCount s 9 →
      s2.faces.getD q 0 < meshArrayCount s 0 ∧ s2.faces.getD q 0 < meshArrayCount s 4) :
    s2.vertices.length = 3 * meshArrayCount s 0 ∧
      s2.verticesTexture.length = 3 * meshArrayCount s 4 ∧
      s2.faces.length = 3 * meshArrayCount s 9 ∧
      ∃ s3 nd3, processNode env s2 = .ok () s3 ∧ s3.heap[n]? = some nd3 ∧
        nd3.faces.length = meshArrayCount s 9 ∧
        ∀ i k, i < meshArrayCount s 9 → k < 3 →
          ∃ fc, nd3.faces[i]? = some fc ∧
            fc.vertices[k]? =
              some ((s2.vertices.drop (3 * s2.faces.getD (3 * i + k) 0)).take 3) ∧
            fc.verticesTexture[k]? =
              some ((s2.verticesTexture.drop (3 * s2.faces.getD (3 * i + k) 0)).take 3) := by
  obtain ⟨n1, nd1, hn1, hnd1, -, -, -, -, hc0, hc4, hc9, hs⟩ := readMesh_inv h
  rw [hn] at hn1
  cases hn1
  rw [hnd] at hnd1
  cases hnd1
  obtain ⟨lv, lt, lf⟩ := meshState_lengths s n nd (meshLog s)
  rw [← hs] at lv lt lf
  have hh2 : s2.heap[n]? = some (meshNode s nd) := by
    rw [hs]
    exact getElem?_set_self_of_some _ _ _ _ hnd
  have hn2 : s2.node = some n := by
    rw [hs]
    exact hn
  have hdiv : s2.faces.length / 3 = meshArrayCount s 9 := by omega
  refine ⟨lv, lt, lf, processState env s2 n (meshNode s nd), _, ?_,
    processState_node env s2 n _ hh2, ?_, ?_⟩
  · refine (processNode_ok_iff env s2 _).2 ⟨n, _, hn2, hh2, ?_, rfl⟩
    intro i hi k hk
    refine ⟨by omega, ?_⟩
    intro c hc
    obtain ⟨h0, h4⟩ := hidx (3 * i + k) (by omega)
    have e : (3 * s2.faces.getD (3 * i + k) 0 + c) % 2 ^ 32 =
        3 * s2.faces.getD (3 * i + k) 0 + c := Nat.mod_eq_of_lt (by omega)
    rw [e]
    omega
  · simp [hdiv]
  · intro i k hi hk
    obtain ⟨h0, h4⟩ := hidx (3 * i + k) (by omega)
    refine ⟨faceOf s2 i, ?_, ?_, ?_⟩
    · show ((List.range (s2.faces.length / 3)).map (faceOf s2))[i]? = some (faceOf s2 i)
      exact getElem?_map_range _ _ _ (by omega)
    · rw [faceOf_vertices s2 i k hk, cornerOf_eq_take _ _ (by omega) (by omega)]
    · rw [faceOf_verticesTexture s2 i k hk, cornerOf_eq_take _ _ (by omega) (by omega)]

theorem processNode_face_corners_witness :
    (readMesh recentMesh).state.vertices.length = 3 * meshArrayCount recentMesh 0 ∧
      (readMesh recentMesh).state.verticesTexture.length = 3 * meshArrayCount recentMesh 4 ∧
      (readMesh recentMesh).state.faces.length = 3 * meshArrayCount recentMesh 9 :=
  have hidx : ∀ q, q < 3 * meshArrayCount recentMesh 9 →
      (readMesh recentMesh).state.faces.getD q 0 < meshArrayCount recentMesh 0 ∧
        (readMesh recentMesh).state.faces.getD q 0 < meshArrayCount recentMesh 4 := by
    rw [readMesh_state_of recentMesh Node.new recentMesh_ok rfl rfl]
    exact (by decide! : ∀ q, q < 3 * meshArrayCount recentMesh 9 →
      (meshState recentMesh 0 Node.new (meshLog recentMesh)).faces.getD q 0 <
          meshArrayCount recentMesh 0 ∧
        (meshState recentMesh 0 Node.new (meshLog recentMesh)).faces.getD q 0 <
          meshArrayCount recentMesh 4)
  have h := processNode_face_corners Env.plain recentMesh _ 0 Node.new rfl rfl recentMesh_ok hidx
  ⟨h.1, h.2.1, h.2.2.1⟩

theorem forLoop_reads_in_stream (body : Nat → Parser Unit) (S : Nat)
    (hstep : ∀ i s s1, body i s = .ok () s1 →
      s.pos + S ≤ s.mdb.length ∧ s1.pos = s.pos + S ∧ s1.mdb = s.mdb) :
    ∀ count i s s1, forLoop count i body s = .ok () s1 → count ≠ 0 →
      s.pos + S * count ≤ s.mdb.length
  | 0, _, _, _, _, h0 => absurd rfl h0
  | count + 1, i, s, s1, h, _ => by
    obtain ⟨_, t, hb, hr⟩ := bind_ok_inv (show (body i >>= fun _ => forLoop count (i + 1) body) s =
      .ok () s1 from h)
    obtain ⟨b1, b2, b3⟩ := hstep i s t hb
    by_cases hc : count = 0
    · subst hc
      omega
    · have := forLoop_reads_in_stream body S hstep count (i + 1) t s1 hr hc
      rw [b2, b3] at this
      rw [Nat.mul_add]
      omega

set_option maxHeartbeats 1600000 in
/-- The vertices and the texture coordinates that a successful `readMesh` has read
lie within the stream. -/
theorem readMesh_reads_in_stream {s s2 : St} (h : readMesh s = .ok () s2) :
    (meshArrayCount s 0 ≠ 0 →
      (s.offRawData + meshArrayStart s 0) % 2 ^ 32 + 12 * meshArrayCount s 0 ≤ s.mdb.length) ∧
    (meshArrayCount s 4 ≠ 0 →
      (s.offRawData + meshArrayStart s 4) % 2 ^ 32 + 8 * meshArrayCount s 4 ≤ s.mdb.length) := by
  obtain ⟨n, hn, hl⟩ := readMesh_node h
  unfold readMesh at h
  simp only [readUint32LE, readIEEEFloatLE, readUint32BE, readASCII, readFixed_bind_ok, skip_bind,
    modifyNode_bind_of _ _ _ n, hn, hl, List.length_modify, seekTo_bind, getSt_bind,
    readArray_bind_ok, fn_bind, texData_bind_ok, modify_modify_same] at h
  repeat (have hb := h.1; replace h := h.2)
  replace h := bind_ok_inv h
  obtain ⟨_, t, hloop, h⟩ := h
  have hr0 := forLoop_reads_in_stream readVertex 12
    (fun i s s1 hb => by
      obtain ⟨b, -, -, -, e⟩ := (readVertex_ok_iff i s s1 ()).1 hb
      subst e
      exact ⟨b, rfl, rfl⟩) _ _ _ _ hloop
  obtain ⟨-, ht⟩ := forLoop_readVertex_inv _ _ _ (length_resize _ _) hloop
  subst ht
  clear hloop
  simp only [fn_bind, seekTo_bind] at h
  replace h := bind_ok_inv h
  obtain ⟨_, t, hloop, h⟩ := h
  have hr4 := forLoop_reads_in_stream readVertexTexture 8
    (fun i s s1 hb => by
      obtain ⟨b, -, -, -, e⟩ := (readVertexTexture_ok_iff i s s1 ()).1 hb
      subst e
      exact ⟨b, rfl, rfl⟩) _ _ _ _ hloop
  clear hloop h
  simp only [Nat.add_assoc, Nat.reduceAdd] at hr0 hr4
  constructor
  · simpa only [meshArrayCount, meshArrayStart, meshArraysAt, Nat.add_assoc, Nat.reduceAdd,
      Nat.mul_zero, Nat.add_zero, Nat.reduceMul] using hr0
  · simpa only [meshArrayCount, meshArrayStart, meshArraysAt, Nat.add_assoc, Nat.reduceAdd,
      Nat.mul_zero, Nat.add_zero, Nat.reduceMul] using hr4

theorem wrappedMesh_ok : readMesh wrappedMesh = .ok () (readMesh wrappedMesh).state :=
  ok_of_isOk _ (by decide!)

theorem wrappedMesh_processed :
    processNode Env.plain (readMesh wrappedMesh).state =
      .ok () (processNode Env.plain (readMesh wrappedMesh).state).state := by
  rw [readMesh_state_of wrappedMesh Node.new wrappedMesh_ok rfl rfl]
  exact ok_of_isOk _ (by decide!)

theorem cornerOf_third (v : List Float32) (j t : Nat) (hj : j < t)
    (ht : 3 * t < 2 ^ 32) (hz : ∀ i, i < t → v[3 * i + 2]? = some 0) :
    ∃ x y, cornerOf v j = [x, y, 0] := by
  refine ⟨v.getD ((3 * j + 0) % 2 ^ 32) 0, v.getD ((3 * j + 1) % 2 ^ 32) 0, ?_⟩
  have e2 : (3 * j + 2) % 2 ^ 32 = 3 * j + 2 := Nat.mod_eq_of_lt (by omega)
  have e3 : v.getD (3 * j + 2) 0 = 0 := by
    rw [List.getD_eq_getElem?_getD, hz j hj]
    rfl
  unfold cornerOf
  rw [e2, e3]

/-- C13, amended: the vertices and the texture coordinates 0 of a mesh decoded by
`readMesh`, with `start` and `count` the fields of the first and of the fifth array
descriptor.  The values read lie within the stream.  Vertex `i` is the three
little-endian floats at `((rawDataBase + verticesStart) mod 2^32) + 12 * i`, and
texture coordinate `i` is the two little-endian floats at
`((rawDataBase + tVerts0Start) mod 2^32) + 8 * i` followed by a third component
0.  The third texture-coordinate component of a corner of a face that
`processNode` builds is 0 for every corner whose face index is below the texture
coordinate count. -/
theorem readMesh_vertices (env : Env) (s s2 : St) (n : Nat) (nd : Node)
    (hn : s.node = some n) (hnd : s.heap[n]? = some nd) (h : readMesh s = .ok () s2) :
    (meshArrayCount s 0 ≠ 0 →
      (s.offRawData + meshArrayStart s 0) % 2 ^ 32 + 12 * meshArrayCount s 0 ≤ s.mdb.length) ∧
    (meshArrayCount s 4 ≠ 0 →
      (s.offRawData + meshArrayStart s 4) % 2 ^ 32 + 8 * meshArrayCount s 4 ≤ s.mdb.length) ∧
    s2.vertices.length = 3 * meshArrayCount s 0 ∧
    s2.verticesTexture.length = 3 * meshArrayCount s 4 ∧
    (∀ i c, i < meshArrayCount s 0 → c < 3 → s2.vertices[3 * i + c]? =
      some (le32At s.mdb ((s.offRawData + meshArrayStart s 0) % 2 ^ 32 + 12 * i + 4 * c))) ∧
    (∀ i, i < meshArrayCount s 4 →
      s2.verticesTexture[3 * i]? =
        some (le32At s.mdb ((s.offRawData + meshArrayStart s 4) % 2 ^ 32 + 8 * i)) ∧
      s2.verticesTexture[3 * i + 1]? =
        some (le32At s.mdb ((s.offRawData + meshArrayStart s 4) % 2 ^ 32 + 8 * i + 4)) ∧
      s2.verticesTexture[3 * i + 2]? = some 0) ∧
    ∀ s3, processNode env s2 = .ok () s3 →
      ∃ nd3, s3.heap[n]? = some nd3 ∧ nd3.faces.length = meshArrayCount s 9 ∧
        ∀ i k, i < meshArrayCount s 9 → k < 3 →
          s2.faces.getD (3 * i + k) 0 < meshArrayCount s 4 →
          ∃ fc x y, nd3.faces[i]? = some fc ∧ fc.verticesTexture[k]? = some [x, y, 0] := by
  obtain ⟨r0, r4⟩ := readMesh_reads_in_stream h
  obtain ⟨n1, nd1, hn1, hnd1, -, -, -, -, hc0, hc4, hc9, hs⟩ := readMesh_inv h
  rw [hn] at hn1
  cases hn1
  rw [hnd] at hnd1
  cases hnd1
  obtain ⟨lv, lt, lf⟩ := meshState_lengths s n nd (meshLog s)
  rw [← hs] at lv lt lf
  have hh2 : s2.heap[n]? = some (meshNode s nd) := by
    rw [hs]
    exact getElem?_set_self_of_some _ _ _ _ hnd
  have hn2 : s2.node = some n := by
    rw [hs]
    exact hn
  have hdiv : s2.faces.length / 3 = meshArrayCount s 9 := by omega
  have hv : ∀ i c, i < meshArrayCount s 0 → c < 3 → s2.vertices[3 * i + c]? =
      some (le32At s.mdb ((s.offRawData + meshArrayStart s 0) % 2 ^ 32 + 12 * i + 4 * c)) := by
    intro i c hi hc
    have e : s2.vertices = meshVertices s := by rw [hs]; rfl
    rw [e]
    unfold meshVertices
    rw [getElem?_map_range _ _ _ (by omega)]
    have e1 : (3 * i + c) / 3 = i := by omega
    have e2 : (3 * i + c) % 3 = c := by omega
    rw [e1, e2]
  have htc : ∀ i c, i < meshArrayCount s 4 → c < 3 → s2.verticesTexture[3 * i + c]? =
      some (if c = 2 then 0 else
        le32At s.mdb ((s.offRawData + meshArrayStart s 4) % 2 ^ 32 + 8 * i + 4 * c)) := by
    intro i c hi hc
    have e : s2.verticesTexture = meshTexCoords s := by rw [hs]; rfl
    rw [e]
    unfold meshTexCoords
    rw [getElem?_map_range _ _ _ (by omega)]
    have e1 : (3 * i + c) / 3 = i := by omega
    have e2 : (3 * i + c) % 3 = c := by omega
    rw [e1, e2]
  refine ⟨r0, r4, lv, lt, hv, ?_, ?_⟩
  · intro i hi
    exact ⟨htc i 0 hi (by omega), htc i 1 hi (by omega), htc i 2 hi (by omega)⟩
  · intro s3 hp
    obtain ⟨-, hs3⟩ := processNode_inv hp hn2 hh2
    rw [hs3]
    refine ⟨_, processState_node env s2 n _ hh2, ?_, ?_⟩
    · simp [hdiv]
    · intro i k hi hk hj
      obtain ⟨x, y, e⟩ := cornerOf_third s2.verticesTexture _ _ hj hc4
        (fun i hi => htc i 2 hi (by omega))
      refine ⟨faceOf s2 i, x, y, ?_, ?_⟩
      · show ((List.range (s2.faces.length / 3)).map (faceOf s2))[i]? = some (faceOf s2 i)
        exact getElem?_map_range _ _ _ (by omega)
      · rw [faceOf_verticesTexture s2 i k hk, e]

theorem readMesh_vertices_witness :
    (readMesh legacyMesh).state.vertices.length = 3 * meshArrayCount legacyMesh 0 ∧
      (readMesh legacyMesh).state.verticesTexture.length = 3 * meshArrayCount legacyMesh 4 :=
  have h := readMesh_vertices Env.plain legacyMesh _ 0 Node.new rfl rfl legacyMesh_ok
  ⟨h.2.2.1, h.2.2.2.1⟩

/-- C13 as stated fails.  `wrappedMesh` is a mesh of version 133 with the raw-data
base `0xFFFFFFF0`, two vertices, two texture coordinates and one face with the
indices `0x55555556`, 0 and 1.  `readMesh` and `processNode` return.  The sum
of the raw-data base and the start of the vertices is beyond the stream, the
vertices are read at that sum modulo `2^32`.  The decoded texture coordinates
are `(21, 22, 0)` and `(23, 24, 0)`, and the first corner of the face, whose
index times 3 is 2 in `uint32` arithmetic, has the texture coordinates
`(0, 23, 24)`: its third component is not 0. -/
theorem readMesh_vertices_wrapped_counterexample :
    readMesh wrappedMesh = .ok () (readMesh wrappedMesh).state ∧
      processNode Env.plain (readMesh wrappedMesh).state =
        .ok () (processNode Env.plain (readMesh wrappedMesh).state).state ∧
      wrappedMesh.mdb.length < wrappedMesh.offRawData + meshArrayStart wrappedMesh 0 ∧
      (wrappedMesh.offRawData + meshArrayStart wrappedMesh 0) % 2 ^ 32 = 896 ∧
      (readMesh wrappedMesh).state.vertices = [11, 12, 13, 14, 15, 16] ∧
      (readMesh wrappedMesh).state.verticesTexture = [21, 22, 0, 23, 24, 0] ∧
      (readMesh wrappedMesh).state.faces = [0x55555556, 0, 1] ∧
      (processNode Env.plain (readMesh wrappedMesh).state).state.heap.map
          (fun nd => nd.faces.map Face.verticesTexture) =
        [[[[0, 23, 24], [21, 22, 0], [23, 24, 0]]]] := by
  refine ⟨wrappedMesh_ok, wrappedMesh_processed, by decide!, by decide!, ?_, ?_, ?_, ?_⟩
  · rw [readMesh_state_of wrappedMesh Node.new wrappedMesh_ok rfl rfl]
    exact (by decide! :
      (meshState wrappedMesh 0 Node.new (meshLog wrappedMesh)).vertices =
        [11, 12, 13, 14, 15, 16])
  · rw [readMesh_state_of wrappedMesh Node.new wrappedMesh_ok rfl rfl]
    exact (by decide! :
      (meshState wrappedMesh 0 Node.new (meshLog wrappedMesh)).verticesTexture =
        [21, 22, 0, 23, 24, 0])
  · rw [readMesh_state_of wrappedMesh Node.new wrappedMesh_ok rfl rfl]
    exact (by decide! :
      (meshState wrappedMesh 0 Node.new (meshLog wrappedMesh)).faces = [0x55555556, 0, 1])
  · rw [readMesh_state_of wrappedMesh Node.new wrappedMesh_ok rfl rfl]
    exact (by decide! :
      (processNode Env.plain (meshState wrappedMesh 0 Node.new
        (meshLog wrappedMesh))).state.heap.map (fun nd => nd.faces.map Face.verticesTexture) =
        [[[[0, 23, 24], [21, 22, 0], [23, 24, 0]]]])

theorem failsIn_controllerEffect (env : Env) (data : List Float32) (type dataIndex columnCount : Nat)
    (h : columnCount ≠ 0xFFFF) :
    FailsIn (fun e => e ≠ .variableColumns)
      (controllerEffect env data type dataIndex columnCount) := by
  unfold controllerEffect
  have hc : (columnCount == 0xFFFF) = false := by simpa using h
  simp only [hc, Bool.false_eq_true, if_false]
  repeat' first
    | apply failsIn_bind
    | intro _
    | exact failsIn_pure _ _
    | exact failsIn_throwErr (by simp)
    | exact failsIn_index (by simp) _ _
    | exact failsIn_modifyNode (by simp) _
    | split

theorem failsIn_controllerKey_columns (env : Env) (data : List Float32) :
    FailsIn (fun e => e ≠ .variableColumns) (controllerKey env data) := by
  unfold FailsIn
  intro s e s1 h
  by_cases hb : s.pos + 11 ≤ s.mdb.length
  · rw [controllerKey_fields env data s hb] at h
    have hlt := byteAt_lt s.mdb (s.pos + 10)
    exact failsIn_elim (failsIn_controllerEffect env data _ _ _ (by omega)) h
  · obtain ⟨s2, h2⟩ := controllerKey_short env data s hb
    rw [h2] at h
    cases h
    simp

/-- C30: `parseNodeControllers` never raises the error for a variable number of
columns.  The column count is the value of `readByte`, which is at most 255, so
the comparison with `0xFFFF` is false for every key.  A key with the column
count byte `0xFF` and a type tag other than 84 and 96, all of whose bytes are
in the stream, is accepted: `parseNodeControllers` returns and leaves the state
as it was. -/
theorem parseNodeControllers_fixed_columns (env : Env) (offset count : Nat)
    (data : List Float32) (s : St) :
    (∀ s1, parseNodeControllers env offset count data s ≠ .fail .variableColumns s1) ∧
      (∀ c s1, readByte s = .ok c s1 → c ≤ 255 ∧ c ≠ 0xFFFF) ∧
      (offset + 12 ≤ s.mdb.length → byteAt s.mdb (offset + 10) = 0xFF →
        le32At s.mdb offset ≠ kControllerTypePosition →
        le32At s.mdb offset ≠ kControllerTypeOrientation →
        parseNodeControllers env offset 1 data s = .ok () s) := by
  refine ⟨?_, ?_, ?_⟩
  · intro s1 h
    have hf : FailsIn (fun e => e ≠ .variableColumns)
        (parseNodeControllers env offset count data) := by
      unfold parseNodeControllers
      repeat' first
        | apply failsIn_bind
        | intro _
        | exact failsIn_seekTo _
        | exact failsIn_forLoop (fun _ => failsIn_controllerKey_columns env data) _ _
        | exact failsIn_pure _ _
    exact failsIn_elim hf h rfl
  · intro c s1 h
    obtain ⟨-, hc, -⟩ := readFixed_inv h
    have := byteAt_lt s.mdb s.pos
    rw [hc]
    omega
  · intro hb _ h84 h96
    rw [parseNodeControllers_run,
      forLoop_controllerKey_other env data 1 0 { s with pos := offset } (by simpa using hb)
        (fun j hj => by
          have : j = 0 := by omega
          subst this
          exact ⟨h84, h96⟩)]

theorem parseNodeControllers_fixed_columns_witness :
    parseNodeControllers Env.plain 0 1 identityQuaternion (St.withNode (keyBytes 7 0 0xFF)) =
      .ok () (St.withNode (keyBytes 7 0 0xFF)) :=
  (parseNodeControllers_fixed_columns Env.plain 0 1 identityQuaternion
    (St.withNode (keyBytes 7 0 0xFF))).2.2 (by decide) (by decide) (by decide) (by decide)

theorem newNode_bind {β : Type} (parent : Option Nat) (f : Unit → Parser β) (s : St) :
    (newNode parent >>= f) s = f () (newNode parent s).state := by
  unfold newNode
  cases parent <;> rfl

theorem newNode_state (parent : Option Nat) (s : St) :
    (newNode parent s).state.pos = s.pos ∧ (newNode parent s).state.mdb = s.mdb ∧
      (newNode parent s).state.offModelData = s.offModelData ∧
      (newNode parent s).state.node = some s.heap.length ∧
      (newNode parent s).state.heap.length = s.heap.length + 1 ∧
      (newNode parent s).state.log = s.log := by
  unfold newNode
  cases parent <;> simp [Res.state]

theorem collect_readFixed_ok {α : Type} (n : Nat) (value : List Byte → Nat → α) :
    ∀ (count : Nat) (s : St), (count ≠ 0 → s.pos + n * count ≤ s.mdb.length) →
      collect count (readFixed n value) s =
        .ok ((List.range count).map (fun i => value s.mdb (s.pos + n * i)))
          { s with pos := s.pos + n * count }
  | 0, _, _ => rfl
  | count + 1, s, h => by
    have hb : s.pos + n ≤ s.mdb.length := by
      have := h (by omega)
      rw [Nat.mul_succ] at this
      omega
    unfold collect
    rw [bind_of_ok (readFixed_ok n value s hb)]
    rw [bind_of_ok (collect_readFixed_ok n value count { s with pos := s.pos + n } (by
      intro _
      have := h (by omega)
      rw [Nat.mul_succ] at this
      simp only []
      omega))]
    simp only [pure_run, Res.ok.injEq]
    constructor
    · rw [List.range_succ_eq_map, List.map_cons, List.map_map]
      simp only [Nat.mul_zero, Nat.add_zero, List.cons.injEq, true_and]
      apply List.map_congr_left
      intro i _
      simp only [Function.comp, Nat.mul_succ]
      congr 1
      omega
    · simp only [Nat.mul_succ]
      congr 1
      omega

theorem collect_readFixed_bound {α : Type} (n : Nat) (value : List Byte → Nat → α) :
    ∀ (count : Nat) (s s1 : St) (l : List α), collect count (readFixed n value) s = .ok l s1 →
      count ≠ 0 → s.pos + n * count ≤ s.mdb.length
  | 0, _, _, _, _, h0 => absurd rfl h0
  | count + 1, s, s1, l, h, _ => by
    unfold collect at h
    obtain ⟨a, t, h1, h⟩ := bind_ok_inv h
    obtain ⟨as, t2, h2, h⟩ := bind_ok_inv h
    obtain ⟨hb, -, ht⟩ := readFixed_inv h1
    subst ht
    rw [Nat.mul_succ]
    by_cases hc : count = 0
    · subst hc
      omega
    · have := collect_readFixed_bound n value count _ _ _ h2 hc
      simp only [] at this
      omega

theorem readWords_ok_iff (start count : Nat) (s s1 : St) (l : List Nat) :
    (do
      let pos ← seekTo start
      let words ← collect count (readFixed 4 le32At)
      let _ ← seekTo pos
      pure words : Parser (List Nat)) s = .ok l s1 ↔
      (count ≠ 0 → start + 4 * count ≤ s.mdb.length) ∧ l = wordsAt s.mdb start count ∧ s1 = s := by
  rw [seekTo_bind]
  constructor
  · intro h
    obtain ⟨l1, t, h1, h⟩ := bind_ok_inv h
    have hb := collect_readFixed_bound 4 le32At count _ _ _ h1
    obtain ⟨hl, ht⟩ := collect_readFixed 4 le32At count _ _ _ h1
    subst hl ht
    cases h
    exact ⟨hb, rfl, rfl⟩
  · rintro ⟨hb, hl, hs⟩
    subst hl hs
    rw [bind_of_ok (collect_readFixed_ok 4 le32At count _ hb)]
    rfl

theorem readOffsetArray_bind_ok {β : Type} (start count : Nat) (f : List Nat → Parser β)
    (s s2 : St) (b : β) :
    (readOffsetArray start count >>= f) s = .ok b s2 ↔
      (count ≠ 0 → start + 4 * count ≤ s.mdb.length) ∧
        f (wordsAt s.mdb start count) s = .ok b s2 := by
  rw [bind_ok_iff]
  constructor
  · rintro ⟨l, t, h1, h2⟩
    obtain ⟨hb, hl, ht⟩ := (readWords_ok_iff start count s t l).1 h1
    subst hl ht
    exact ⟨hb, h2⟩
  · rintro ⟨hb, h2⟩
    exact ⟨_, _, (readWords_ok_iff start count s s _).2 ⟨hb, rfl, rfl⟩, h2⟩

theorem readFloatsArray_bind_ok {β : Type} (start count : Nat) (f : List Float32 → Parser β)
    (s s2 : St) (b : β) :
    (readFloatsArray start count >>= f) s = .ok b s2 ↔
      (count ≠ 0 → start + 4 * count ≤ s.mdb.length) ∧
        f (wordsAt s.mdb start count) s = .ok b s2 := by
  rw [bind_ok_iff]
  constructor
  · rintro ⟨l, t, h1, h2⟩
    obtain ⟨hb, hl, ht⟩ := (readWords_ok_iff start count s t l).1 h1
    subst hl ht
    exact ⟨hb, h2⟩
  · rintro ⟨hb, h2⟩
    exact ⟨_, _, (readWords_ok_iff start count s s _).2 ⟨hb, rfl, rfl⟩, h2⟩

theorem parseNodeControllers_bind_ok {β : Type} (env : Env) (offset count : Nat)
    (data : List Float32) (f : Unit → Parser β) (s s2 : St) (b : β) :
    (parseNodeControllers env offset count data >>= f) s = .ok b s2 ↔
      ∃ t, parseNodeControllers env offset count data s = .ok () t ∧ f () t = .ok b s2 := by
  rw [bind_ok_iff]
  constructor
  · rintro ⟨_, t, h1, h2⟩
    exact ⟨t, h1, h2⟩
  · rintro ⟨t, h1, h2⟩
    exact ⟨(), t, h1, h2⟩

set_option maxHeartbeats 1600000 in
theorem readNodeFields_ok_iff (env : Env) (offset : Nat) (parent : Option Nat) (s s1 : St)
    (r : List Nat × Nat) :
    readNodeFields env offset parent s = .ok r s1 ↔
      offset + 140 ≤ s.mdb.length ∧
      (le32At s.mdb (offset + 108) ≠ 0 →
        (le32At s.mdb (offset + 104) + s.offModelData) % 2 ^ 32 +
          4 * le32At s.mdb (offset + 108) ≤ s.mdb.length) ∧
      (le32At s.mdb (offset + 132) ≠ 0 →
        (le32At s.mdb (offset + 128) + s.offModelData) % 2 ^ 32 +
          4 * le32At s.mdb (offset + 132) ≤ s.mdb.length) ∧
      ∃ t, parseNodeControllers env ((le32At s.mdb (offset + 116) + s.offModelData) % 2 ^ 32)
          (le32At s.mdb (offset + 120))
          (wordsAt s.mdb ((le32At s.mdb (offset + 128) + s.offModelData) % 2 ^ 32)
            (le32At s.mdb (offset + 132)))
          (fieldsState s offset parent) = .ok () t ∧
        offset + 164 ≤ s.mdb.length ∧
        r = (wordsAt s.mdb ((le32At s.mdb (offset + 104) + s.offModelData) % 2 ^ 32)
          (le32At s.mdb (offset + 108)), le32At s.mdb (offset + 160)) ∧
        s1 = { t with pos := offset + 164 } := by
  obtain ⟨up, um, uo, un, ul, ug⟩ := newNode_state parent { s with pos := offset }
  have hl : s.heap.length < (newNode parent { s with pos := offset }).state.heap.length := by
    rw [ul]
    exact Nat.lt_succ_self _
  unfold readNodeFields fieldsState
  rw [seekTo_bind, newNode_bind]
  generalize (newNode parent { s with pos := offset }).state = u at *
  simp only [] at up um uo un ul ug
  simp only [readUint32LE, readASCII, readFixed_bind_ok, skip_bind,
    modifyNode_bind_of _ _ _ s.heap.length, un, hl, List.length_modify, getSt_bind,
    readArray_bind_ok, readOffsetArray_bind_ok, readFloatsArray_bind_ok,
    parseNodeControllers_bind_ok, pure_ok_iff, up, um, uo, ug, arrayWarning, Nat.add_assoc,
    Nat.reduceAdd]
  constructor
  · rintro ⟨-, -, -, -, hc, -, h140, hd, t, hp, hb, hr, hs⟩
    obtain ⟨pp, pf⟩ := parseNodeControllers_step hp
    obtain ⟨pm, -, -, -⟩ := frame_eq pf
    simp only [] at pp pm
    rw [pp, pm] at hb hr
    rw [pp] at hs
    simp only [Nat.add_assoc, Nat.reduceAdd] at hb hr hs
    exact ⟨h140, hc, hd, t, hp, hb, hr, hs⟩
  · rintro ⟨h140, hc, hd, t, hp, h164, hr, hs⟩
    obtain ⟨pp, pf⟩ := parseNodeControllers_step hp
    obtain ⟨pm, -, -, -⟩ := frame_eq pf
    simp only [] at pp pm
    refine ⟨by omega, by omega, by omega, by omega, hc, by omega, h140, hd, t, hp, ?_, ?_, ?_⟩
    · rw [pp, pm]
      omega
    · rw [pp, pm]
      simp only [Nat.add_assoc, Nat.reduceAdd]
      exact hr
    · rw [pp]
      simp only [Nat.add_assoc, Nat.reduceAdd]
      exact hs

theorem keeps_names_modifyNode (f : Node → Node) (h : ∀ n, (f n).name = n.name) :
    Keeps (fun s : St => s.heap.map Node.name) (modifyNode f) := by
  unfold Keeps; intro s
  unfold Model_Witcher.modifyNode
  split
  · split
    · simp only [Res.state]
      rw [map_modify_of_eq _ f h]
    · rfl
  · rfl

theorem keeps_names_parseNodeControllers (env : Env) (offset count : Nat)
    (data : List Float32) :
    Keeps (fun s : St => s.heap.map Node.name) (parseNodeControllers env offset count data) := by
  unfold Model_Witcher.parseNodeControllers controllerKey readUint32LE readUint16LE readByte
    seekTo skip
  repeat' first
    | (refine keeps_readFixed ?_ _ _; intro _ _; rfl)
    | exact keeps_names_modifyNode _ (fun _ => rfl)
    | exact keeps_index _ _ _
    | exact keeps_throwErr _ _
    | exact keeps_pure _ _
    | (refine keeps_fn _ _ ?_; intro _; rfl)
    | apply keeps_forLoop
    | apply keeps_bind
    | intro _
    | split

/-- C29: the record of a node that `readNode` decodes at the absolute offset `o`
(`readNodeFields` returns).  The 164 bytes of the record are in the stream.  The
name of the node is the text of the 64 bytes at `o + 32`.  The children offsets
are the words of the array whose descriptor is at `o + 104`; the controller keys
that `parseNodeControllers` is called on are those of the descriptor at
`o + 116` and the controller data those of the descriptor at `o + 128`, and
`parseNodeControllers` is entered and left with the cursor at `o + 140`; the
flags are the word at `o + 160`, and the cursor is left at `o + 164`.
`readOffsetArray` and `readFloatsArray` leave the state they were entered in,
and `parseNodeControllers` the cursor, whatever offset they go to.  When the
payload is decoded and the flags have the mesh bit, `readMesh` is entered at
`o + 164` and leaves the cursor at `o + 164 + 768`. -/
theorem readNodeFields_layout (env : Env) (offset : Nat) (parent : Option Nat) (s s1 : St)
    (children : List Nat) (flags : Nat)
    (h : readNodeFields env offset parent s = .ok (children, flags) s1) :
    offset + 164 ≤ s.mdb.length ∧
      (∃ nd, s1.heap[s.heap.length]? = some nd ∧
        nd.name = cString ((s.mdb.drop (offset + 32)).take 64)) ∧
      children = wordsAt s.mdb ((le32At s.mdb (offset + 104) + s.offModelData) % 2 ^ 32)
        (le32At s.mdb (offset + 108)) ∧
      (∃ t, parseNodeControllers env ((le32At s.mdb (offset + 116) + s.offModelData) % 2 ^ 32)
          (le32At s.mdb (offset + 120))
          (wordsAt s.mdb ((le32At s.mdb (offset + 128) + s.offModelData) % 2 ^ 32)
            (le32At s.mdb (offset + 132)))
          (fieldsState s offset parent) = .ok () t ∧
        (fieldsState s offset parent).pos = offset + 140 ∧ t.pos = offset + 140 ∧
        s1 = { t with pos := offset + 164 }) ∧
      flags = le32At s.mdb (offset + 160) ∧ s1.pos = offset + 164 ∧ s1.mdb = s.mdb ∧
      (∀ start count t l t2, readOffsetArray start count t = .ok l t2 → t2 = t) ∧
      (∀ start count t l t2, readFloatsArray start count t = .ok l t2 → t2 = t) ∧
      (∀ o c d t t2, parseNodeControllers env o c d t = .ok () t2 → t2.pos = t.pos) ∧
      (∀ p s3, readNodePayload env flags s1 = .ok p s3 → flags &&& kNodeFlagHasMesh ≠ 0 →
        ∃ s2, readMesh s1 = .ok () s2 ∧ s2.pos = offset + 164 + 768) := by
  obtain ⟨-, -, -, t, hp, h164, hr, hs⟩ := (readNodeFields_ok_iff env offset parent s s1 _).1 h
  obtain ⟨pp, pf⟩ := parseNodeControllers_step hp
  obtain ⟨pm, -, -, -⟩ := frame_eq pf
  obtain ⟨-, um, -, -, ul, -⟩ := newNode_state parent { s with pos := offset }
  simp only [Prod.mk.injEq] at hr
  have hpos : s1.pos = offset + 164 := by rw [hs]
  have hmdb : s1.mdb = s.mdb := by
    rw [hs]
    exact pm.trans um
  refine ⟨h164, ?_, hr.1, ⟨t, hp, rfl, pp, hs⟩, hr.2, hpos, hmdb, ?_, ?_, ?_, ?_⟩
  · have hk := keeps_ok (keeps_names_parseNodeControllers env _ _ _) hp
    simp only [] at hk
    have hl : s.heap.length < (newNode parent { s with pos := offset }).state.heap.length := by
      rw [ul]
      exact Nat.lt_succ_self _
    have h0 : ((fieldsState s offset parent).heap.map Node.name)[s.heap.length]? =
        some (cString ((s.mdb.drop (offset + 32)).take 64)) := by
      simp only [fieldsState, List.getElem?_map, List.getElem?_modify, if_true,
        List.getElem?_eq_getElem hl, Option.map_some']
      rfl
    rw [← hk, List.getElem?_map] at h0
    have e : s1.heap = t.heap := by rw [hs]
    rw [e]
    cases hg : t.heap[s.heap.length]? with
    | none => rw [hg] at h0; cases h0
    | some nd =>
      rw [hg] at h0
      simp only [Option.map_some', Option.some.injEq] at h0
      exact ⟨nd, rfl, h0⟩
  · intro start count t l t2 h2
    exact (readOffsetArray_inv h2).2
  · intro start count t l t2 h2
    exact (readFloatsArray_inv h2).2
  · intro o c d t t2 h2
    exact (parseNodeControllers_step h2).1
  · intro p s3 h2 hm
    obtain ⟨-, u1, u2, h3, -, -, -⟩ := (readNodePayload_ok_iff env flags s1 s3 p).1 h2
    rw [if_neg hm] at h3
    obtain ⟨n, nd, -, -, -, -, -, -, -, -, -, hu⟩ := readMesh_inv h3
    refine ⟨u1, h3, ?_⟩
    rw [hu]
    show s1.pos + 768 = offset + 164 + 768
    rw [hpos]

theorem readNodeFields_layout_witness :
    368 + 164 ≤ (headerState (St.init singleStream)).mdb.length :=
  (readNodeFields_layout Env.plain 368 none (headerState (St.init singleStream))
    (readNodeFields Env.plain 368 none (headerState (St.init singleStream))).state [] 0
    (by decide!)).1

theorem state_fail {α : Type} (e : Err) (s : St) : (Res.fail e s : Res α).state = s := rfl

theorem failsIn_budget_controllerKey (env : Env) (data : List Float32) :
    FailsIn (fun e => e ≠ .recursionBudget) (controllerKey env data) := by
  unfold controllerKey
  repeat' first
    | apply failsIn_bind
    | intro _
    | exact failsIn_readUint32LE (by simp)
    | exact failsIn_readUint16LE (by simp)
    | exact failsIn_readByte (by simp)
    | exact failsIn_skip _
    | exact failsIn_modifyNode (by simp) _
    | exact failsIn_index (by simp) _ _
    | exact failsIn_throwErr (by simp)
    | exact failsIn_pure _ _
    | split

theorem failsIn_budget_readNodeFields (env : Env) (offset : Nat) (parent : Option Nat) :
    FailsIn (fun e => e ≠ .recursionBudget) (readNodeFields env offset parent) := by
  unfold readNodeFields parseNodeControllers
  repeat' first
    | exact failsIn_readArray (by simp)
    | exact failsIn_readOffsetArray (by simp) _ _
    | exact failsIn_readFloatsArray (by simp) _ _
    | exact failsIn_forLoop (fun _ => failsIn_budget_controllerKey env _) _ _
    | apply failsIn_bind
    | intro _
    | exact failsIn_readUint32LE (by simp)
    | exact failsIn_readASCII (by simp) _
    | exact failsIn_skip _
    | exact failsIn_seekTo _
    | exact failsIn_getSt
    | exact failsIn_newNode _
    | exact failsIn_modifyNode (by simp) _
    | exact failsIn_pure _ _

theorem failsIn_budget_readNodePayload (env : Env) (flags : Nat) :
    FailsIn (fun e => e ≠ .recursionBudget) (readNodePayload env flags) := by
  apply failsIn_mono (readNodePayload_fails env flags)
  intro e he
  rcases he with hl | ⟨rfl, _⟩
  · intro hb
    subst hb
    exact hl
  · simp

/-- The recursive calls of `readNode` for the children of node `p`. -/
theorem childCall_run (env : Env) (fuel p child : Nat) (s : St) :
    (do
      let ctx ← getSt
      readNode env fuel ((child + ctx.offModelData) % 2 ^ 32) (some p) : Parser Unit) s =
      readNode env fuel ((child + s.offModelData) % 2 ^ 32) (some p) s := rfl

theorem forEach_fuel_succ (env : Env) (fuel p : Nat)
    (ih : ∀ (offset : Nat) (s : St) (r : Res Unit),
      readNode env fuel offset (some p) s = r → (∀ st, r ≠ .fail .recursionBudget st) →
      readNode env (fuel + 1) offset (some p) s = r) :
    ∀ (children : List Nat) (s : St) (r : Res Unit),
      forEach children (fun child => do
        let ctx ← getSt
        readNode env fuel ((child + ctx.offModelData) % 2 ^ 32) (some p)) s = r →
      (∀ st, r ≠ .fail .recursionBudget st) →
      forEach children (fun child => do
        let ctx ← getSt
        readNode env (fuel + 1) ((child + ctx.offModelData) % 2 ^ 32) (some p)) s = r
  | [], _, _, h, _ => h
  | c :: cs, s, r, h, hr => by
    unfold forEach at h ⊢
    cases hc : readNode env fuel ((c + s.offModelData) % 2 ^ 32) (some p) s with
    | ok a t =>
      rw [bind_of_ok ((childCall_run env fuel p c s).trans hc)] at h
      rw [bind_of_ok ((childCall_run env (fuel + 1) p c s).trans
        (ih _ _ _ hc (fun st hx => by cases hx)))]
      exact forEach_fuel_succ env fuel p ih cs t r h hr
    | fail e st =>
      rw [bind_of_fail ((childCall_run env fuel p c s).trans hc)] at h
      subst h
      rw [bind_of_fail ((childCall_run env (fuel + 1) p c s).trans (ih _ _ _ hc hr))]

/-- More depth does not change the outcome of a `readNode` that did not run out
of depth. -/
theorem readNode_fuel_succ (env : Env) :
    ∀ (fuel offset : Nat) (parent : Option Nat) (s : St) (r : Res Unit),
      readNode env fuel offset parent s = r → (∀ st, r ≠ .fail .recursionBudget st) →
      readNode env (fuel + 1) offset parent s = r
  | 0, _, _, s, _, h, hr => absurd h.symm (hr s)
  | fuel + 1, offset, parent, s, r, h, hr => by
    unfold readNode at h ⊢
    cases hf : readNodeFields env offset parent s with
    | fail e st =>
      rw [bind_of_fail hf] at h ⊢
      exact h
    | ok x t1 =>
      obtain ⟨children, flags⟩ := x
      rw [bind_of_ok hf] at h ⊢
      dsimp only at h ⊢
      cases hp : readNodePayload env flags t1 with
      | fail e st =>
        rw [bind_of_fail hp] at h ⊢
        exact h
      | ok p t2 =>
        rw [bind_of_ok hp] at h ⊢
        exact forEach_fuel_succ env fuel p
          (fun o u q => readNode_fuel_succ env fuel o (some p) u q) children t2 r h hr

theorem readNode_fuel_le (env : Env) (offset : Nat) (parent : Option Nat) (s : St)
    (r : Res Unit) (hr : ∀ st, r ≠ .fail .recursionBudget st) :
    ∀ (fuel fuel2 : Nat), fuel ≤ fuel2 → readNode env fuel offset parent s = r →
      readNode env fuel2 offset parent s = r := by
  intro fuel fuel2 hle h
  induction hle with
  | refl => exact h
  | step _ ih => exact readNode_fuel_succ env _ offset parent s r ih hr

theorem forEach_fuel_le (env : Env) (p : Nat) (children : List Nat) (s : St) (r : Res Unit)
    (hr : ∀ st, r ≠ .fail .recursionBudget st) :
    ∀ (fuel fuel2 : Nat), fuel ≤ fuel2 →
      forEach children (fun child => do
        let ctx ← getSt
        readNode env fuel ((child + ctx.offModelData) % 2 ^ 32) (some p)) s = r →
      forEach children (fun child => do
        let ctx ← getSt
        readNode env fuel2 ((child + ctx.offModelData) % 2 ^ 32) (some p)) s = r := by
  intro fuel fuel2 hle h
  induction hle with
  | refl => exact h
  | step _ ih =>
    exact forEach_fuel_succ env _ p (fun o u q => readNode_fuel_succ env _ o (some p) u q)
      children s r ih hr

theorem forEach_terminates (env : Env) (d : List Byte) (b p : Nat) :
    ∀ (children : List Nat) (t : St), t.mdb = d → t.offModelData = b →
      (∀ c, c ∈ children → ∀ (s : St), s.mdb = d → s.offModelData = b →
        (∀ fuel e st, readNode env fuel ((c + b) % 2 ^ 32) (some p) s = .fail e st →
          e = .recursionBudget) →
        ∃ fuel s1, readNode env fuel ((c + b) % 2 ^ 32) (some p) s = .ok () s1) →
      (∀ fuel e st, forEach children (fun child => do
        let ctx ← getSt
        readNode env fuel ((child + ctx.offModelData) % 2 ^ 32) (some p)) t = .fail e st →
        e = .recursionBudget) →
      ∃ fuel s1, forEach children (fun child => do
        let ctx ← getSt
        readNode env fuel ((child + ctx.offModelData) % 2 ^ 32) (some p)) t = .ok () s1
  | [], t, _, _, _, _ => ⟨0, t, rfl⟩
  | c :: cs, t, hm, hb, hch, hreads => by
    have hcall : ∀ fuel e st, readNode env fuel ((c + b) % 2 ^ 32) (some p) t = .fail e st →
        e = .recursionBudget := by
      intro fuel e st hf
      apply hreads fuel e st
      unfold forEach
      rw [← hb] at hf
      exact bind_of_fail ((childCall_run env fuel p c t).trans hf)
    obtain ⟨f1, t3, h1⟩ := hch c (List.mem_cons_self _ _) t hm hb hcall
    obtain ⟨hb3, hm3⟩ := readNode_keeps_base env f1 _ _ t t3 h1
    have hrest : ∀ fuel e st, forEach cs (fun child => do
        let ctx ← getSt
        readNode env fuel ((child + ctx.offModelData) % 2 ^ 32) (some p)) t3 = .fail e st →
        e = .recursionBudget := by
      intro fuel e st hf
      by_cases he : e = .recursionBudget
      · exact he
      · have hne : ∀ st2, (Res.fail e st : Res Unit) ≠ .fail .recursionBudget st2 := by
          intro st2 hx
          cases hx
          exact he rfl
        have h1b := readNode_fuel_le env _ _ t _ (fun st hx => by cases hx) f1 (max f1 fuel)
          (Nat.le_max_left _ _) h1
        have h2b := forEach_fuel_le env p cs t3 _ hne fuel (max f1 fuel)
          (Nat.le_max_right _ _) hf
        apply hreads (max f1 fuel) e st
        unfold forEach
        rw [← hb] at h1b
        rw [bind_of_ok ((childCall_run env (max f1 fuel) p c t).trans h1b)]
        exact h2b
    obtain ⟨f2, s1, h2⟩ := forEach_terminates env d b p cs t3 (hm3.trans hm) (hb3.trans hb)
      (fun c2 hc2 => hch c2 (List.mem_cons_of_mem _ hc2)) hrest
    refine ⟨max f1 f2, s1, ?_⟩
    have h1b := readNode_fuel_le env _ _ t _ (fun st hx => by cases hx) f1 (max f1 f2)
      (Nat.le_max_left _ _) h1
    have h2b := forEach_fuel_le env p cs t3 _ (fun st hx => by cases hx) f2 (max f1 f2)
      (Nat.le_max_right _ _) h2
    unfold forEach
    rw [← hb] at h1b
    rw [bind_of_ok ((childCall_run env (max f1 f2) p c t).trans h1b)]
    exact h2b

theorem readNode_terminates (env : Env) (d : List Byte) (b : Nat) (offset : Nat)
    (hacc : Acc (ChildOf d b) offset) :
    ∀ (parent : Option Nat) (s : St), s.mdb = d → s.offModelData = b →
      (∀ fuel e st, readNode env fuel offset parent s = .fail e st → e = .recursionBudget) →
      ∃ fuel s1, readNode env fuel offset parent s = .ok () s1 := by
  induction hacc with
  | intro o _ ih =>
    intro parent s hm hb hreads
    cases hf : readNodeFields env o parent s with
    | fail e st =>
      have h1 : readNode env 1 o parent s = .fail e st := by
        unfold readNode
        exact bind_of_fail hf
      have := hreads 1 e st h1
      subst this
      exact absurd rfl (failsIn_elim (failsIn_budget_readNodeFields env o parent) hf)
    | ok x t1 =>
      obtain ⟨children, flags⟩ := x
      cases hp : readNodePayload env flags t1 with
      | fail e st =>
        have h1 : readNode env 1 o parent s = .fail e st := by
          unfold readNode
          rw [bind_of_ok hf]
          exact bind_of_fail hp
        have := hreads 1 e st h1
        subst this
        exact absurd rfl (failsIn_elim (failsIn_budget_readNodePayload env flags) hp)
      | ok p t2 =>
        have hrn : ∀ f, readNode env (f + 1) o parent s =
            forEach children (fun child => do
              let ctx ← getSt
              readNode env f ((child + ctx.offModelData) % 2 ^ 32) (some p)) t2 := by
          intro f
          rw [readNode, bind_of_ok hf]
          exact bind_of_ok hp
        obtain ⟨hch, -, -, m1, o1, n1, -⟩ := readNodeFields_inv hf
        obtain ⟨-, -, -, m2, o2⟩ := readNodePayload_inv hp n1
        obtain ⟨f, s1, h2⟩ := forEach_terminates env d b p children t2
          ((m2.trans m1).trans hm) ((o2.trans o1).trans hb)
          (fun c hc u hu1 hu2 hu3 => ih ((c + b) % 2 ^ 32) (by
            unfold ChildOf childOffsets wordsAt
            rw [← hm, ← hb, ← hch]
            exact List.mem_map_of_mem _ hc) (some p) u hu1 hu2 hu3)
          (fun fuel e st hx => hreads (fuel + 1) e st ((hrn fuel).trans hx))
        exact ⟨f + 1, s1, (hrn f).trans h2⟩

theorem newNode_faces (parent : Option Nat) (s : St) :
    (newNode parent s).state.faces = s.faces := by
  unfold newNode
  cases parent <;> rfl

theorem parseNodeControllers_none (env : Env) (offset : Nat) (data : List Float32) (s : St) :
    parseNodeControllers env offset 0 data s = .ok () s := rfl

/-- On `cycleStream` every call of `readNode` for the record at 368 runs out of
depth, whatever depth it is given: the record is read, the node is registered,
and `readNode` is called for the record at 368 again. -/
theorem readNode_cycle (env : Env) :
    ∀ (fuel : Nat) (parent : Option Nat) (s : St), s.mdb = cycleStream →
      s.offModelData = 32 → s.faces = [] →
      ∃ st, readNode env fuel 368 parent s = .fail .recursionBudget st
  | 0, _, s, _, _, _ => ⟨s, rfl⟩
  | fuel + 1, parent, s, hm, hb, hfaces => by
    obtain ⟨-, um, -, un, ul, -⟩ := newNode_state parent { s with pos := 368 }
    have uf := newNode_faces parent { s with pos := 368 }
    simp only [] at um un ul uf
    have hlen : s.mdb.length = 536 := by
      rw [hm]
      decide!
    have w104 : le32At s.mdb (368 + 104) = 500 := by
      rw [hm]
      decide!
    have w108 : le32At s.mdb (368 + 108) = 1 := by
      rw [hm]
      decide!
    have w120 : le32At s.mdb (368 + 120) = 0 := by
      rw [hm]
      decide!
    have w132 : le32At s.mdb (368 + 132) = 0 := by
      rw [hm]
      decide!
    have w160 : le32At s.mdb (368 + 160) = 0 := by
      rw [hm]
      decide!
    have wch : wordsAt s.mdb ((500 + 32) % 2 ^ 32) 1 = [336] := by
      rw [hm]
      decide!
    have hf := (readNodeFields_ok_iff env 368 parent s _ _).2
      ⟨by omega, by rw [w104, w108, hb]; omega, fun h => absurd w132 h, fieldsState s 368 parent,
        by rw [w120]; exact parseNodeControllers_none env _ _ _, by omega, rfl, rfl⟩
    rw [w104, w108, w160, hb, wch] at hf
    obtain ⟨S1, hf, hn, hl, hfc⟩ : ∃ S1, readNodeFields env 368 parent s = .ok ([336], 0) S1 ∧
        S1.node = some s.heap.length ∧ s.heap.length < S1.heap.length ∧ S1.faces = [] := by
      refine ⟨_, hf, un, ?_, uf.trans hfaces⟩
      show s.heap.length < (List.modify _ _ _).length
      rw [List.length_modify, ul]
      exact Nat.lt_succ_self _
    obtain ⟨S2, hp, hfc2⟩ : ∃ S2, readNodePayload env 0 S1 = .ok s.heap.length S2 ∧
        S2.faces = [] :=
      ⟨_, (readNodePayload_ok_iff env 0 S1 _ s.heap.length).2 ⟨rfl, _, _,
        by rw [if_pos (by decide : (0 : Nat) &&& kNodeFlagHasMesh = 0)],
        (processNode_ok_iff env _ _).2 ⟨_, _, hn, List.getElem?_eq_getElem hl,
          fun i hi => by rw [hfc] at hi; simp at hi, rfl⟩, hn, rfl⟩, rfl⟩
    obtain ⟨-, -, -, m1, o1, -, -⟩ := readNodeFields_inv hf
    obtain ⟨-, -, -, m2, o2⟩ := readNodePayload_inv hp hn
    obtain ⟨st, hrec⟩ := readNode_cycle env fuel (some s.heap.length) S2 ((m2.trans m1).trans hm)
      ((o2.trans o1).trans hb) hfc2
    refine ⟨st, ?_⟩
    rw [readNode, bind_of_ok hf]
    dsimp only
    rw [bind_of_ok hp]
    unfold forEach
    apply bind_of_fail
    refine (childCall_run env fuel _ 336 S2).trans ?_
    rw [(o2.trans o1).trans hb]
    exact hrec

/-- C25: `readNode` has no limit of its recursion and no guard against an offset
it has visited.  `cycleStream` is a stream with a complete header and a root
record whose children array holds the offset of the root itself: on it `load`
runs out of depth whatever depth it is allowed, so the decode does not
terminate.  On every stream on which the child-offset relation is well-founded
below the offset of a record (no descending chain of child offsets, so no cycle)
and no read or check fails at any depth, `readNode` returns for some depth, and
with the same result for every larger one. -/
theorem readNode_recursion (env : Env) (s : St) (offset : Nat) (parent : Option Nat) :
    (∀ fuel, ∃ st, load env fuel (St.init cycleStream) = .fail .recursionBudget st) ∧
      ChildOf cycleStream 32 368 368 ∧
      (Acc (ChildOf s.mdb s.offModelData) offset →
        (∀ fuel e st, readNode env fuel offset parent s = .fail e st → e = .recursionBudget) →
        ∃ fuel s1, readNode env fuel offset parent s = .ok () s1 ∧
          ∀ fuel2, fuel ≤ fuel2 → readNode env fuel2 offset parent s = .ok () s1) := by
  refine ⟨?_, by unfold ChildOf; decide!, ?_⟩
  · intro fuel
    have e : (le32At cycleStream 104 + 32) % 2 ^ 32 = 368 := by decide!
    obtain ⟨st, h⟩ := readNode_cycle env fuel none (headerState (St.init cycleStream)) rfl rfl rfl
    refine ⟨destroyContext st, ?_⟩
    rw [load_eq, loadBody_ok_header env fuel cycleStream (by decide!) (by decide!), e, h]
  · intro hacc hreads
    obtain ⟨fuel, s1, h⟩ := readNode_terminates env s.mdb s.offModelData offset hacc parent s rfl
      rfl hreads
    exact ⟨fuel, s1, h, fun fuel2 hle =>
      readNode_fuel_le env offset parent s _ (fun st hx => by cases hx) fuel fuel2 hle h⟩

theorem readNode_recursion_witness :
    ∃ fuel s1, readNode Env.plain fuel 368 none (headerState (St.init familyStream)) = .ok () s1 ∧
      ∀ fuel2, fuel ≤ fuel2 →
        readNode Env.plain fuel2 368 none (headerState (St.init familyStream)) = .ok () s1 :=
  have e368 : childOffsets familyStream 32 368 = [608, 772] := by decide!
  have e608 : childOffsets familyStream 32 608 = [] := by decide!
  have e772 : childOffsets familyStream 32 772 = [] := by decide!
  have a608 : Acc (ChildOf familyStream 32) 608 :=
    Acc.intro _ (fun c hc => by
      unfold ChildOf at hc
      rw [e608] at hc
      cases hc)
  have a772 : Acc (ChildOf familyStream 32) 772 :=
    Acc.intro _ (fun c hc => by
      unfold ChildOf at hc
      rw [e772] at hc
      cases hc)
  have hacc : Acc (ChildOf familyStream 32) 368 :=
    Acc.intro _ (fun c hc => by
      unfold ChildOf at hc
      rw [e368] at hc
      simp only [List.mem_cons, List.mem_singleton, List.not_mem_nil, or_false] at hc
      rcases hc with rfl | rfl
      · exact a608
      · exact a772)
  have h2 : readNode Env.plain 2 368 none (headerState (St.init familyStream)) =
      .ok () (readNode Env.plain 2 368 none (headerState (St.init familyStream))).state :=
    familyStream_decoded
  have h1 : readNode Env.plain 1 368 none (headerState (St.init familyStream)) =
      .fail .recursionBudget
        (readNode Env.plain 1 368 none (headerState (St.init familyStream))).state := by
    decide!
  have hreads : ∀ fuel e st,
      readNode Env.plain fuel 368 none (headerState (St.init familyStream)) = .fail e st →
      e = .recursionBudget := by
    intro fuel e st h
    match fuel, h with
    | 0, h =>
      cases h
      rfl
    | 1, h =>
      rw [h1] at h
      cases h
      rfl
    | f + 2, h =>
      rw [readNode_fuel_le Env.plain 368 none _ _ (fun st hx => by cases hx) 2 (f + 2)
        (by omega) h2] at h
      cases h
  (readNode_recursion Env.plain (headerState (St.init familyStream)) 368 none).2.2 hacc hreads

end Model_Witcher

/-! ## `Situated::load`: the orientation -/

namespace Situated

theorem loadOrientation_with (m : Libm) (gff : GFFStruct)
    (h : gff.hasField "Orientation" = true) :
    loadOrientation m gff =
      (180 - rad2deg m (m.asin (2 * ((gff.getStruct "Orientation").getDouble "x" *
          (gff.getStruct "Orientation").getDouble "z" -
          (gff.getStruct "Orientation").getDouble "w" *
          (gff.getStruct "Orientation").getDouble "y"))),
        180 - rad2deg m (m.atan2 (2 * ((gff.getStruct "Orientation").getDouble "x" *
          (gff.getStruct "Orientation").getDouble "y" +
          (gff.getStruct "Orientation").getDouble "z" *
          (gff.getStruct "Orientation").getDouble "w"))
          (1 - 2 * ((gff.getStruct "Orientation").getDouble "y" *
            (gff.getStruct "Orientation").getDouble "y" +
            (gff.getStruct "Orientation").getDouble "z" *
            (gff.getStruct "Orientation").getDouble "z"))),
        rad2deg m (m.atan2 (2 * ((gff.getStruct "Orientation").getDouble "x" *
          (gff.getStruct "Orientation").getDouble "w" +
          (gff.getStruct "Orientation").getDouble "y" *
          (gff.getStruct "Orientation").getDouble "z"))
          (1 - 2 * ((gff.getStruct "Orientation").getDouble "z" *
            (gff.getStruct "Orientation").getDouble "z" +
            (gff.getStruct "Orientation").getDouble "w" *
            (gff.getStruct "Orientation").getDouble "w")))) := by
  simp only [loadOrientation, h, if_true, Id.run, Id.pure_eq, Id.bind_eq, pure, bind]

theorem loadOrientation_without (m : Libm) (gff : GFFStruct)
    (h : gff.hasField "Orientation" = false) :
    loadOrientation m gff = (0, rad2deg m (gff.getDouble "Bearing"), 0) := by
  simp only [loadOrientation, h, Id.run, Id.pure_eq, Id.bind_eq, pure, bind]
  rfl

theorem orientedInstance_fields (bearing x y z w : ℚ) :
    (orientedInstance bearing x y z w).hasField "Orientation" = true ∧
      ((orientedInstance bearing x y z w).getStruct "Orientation").getDouble "x" = x ∧
      ((orientedInstance bearing x y z w).getStruct "Orientation").getDouble "y" = y ∧
      ((orientedInstance bearing x y z w).getStruct "Orientation").getDouble "z" = z ∧
      ((orientedInstance bearing x y z w).getStruct "Orientation").getDouble "w" = w ∧
      (orientedInstance bearing x y z w).getDouble "Bearing" = bearing := by
  refine ⟨?_, ?_, ?_, ?_, ?_, ?_⟩ <;>
    simp [orientedInstance, GFFStruct.hasField, GFFStruct.getStruct, GFFFields.getDouble,
      GFFStruct.getDouble, List.lookup]

end Situated
